import Mathlib

/-! Squeezelite decode pipeline: PCM, FLAC and Vorbis codec adapters.

A shallow embedding of `pcm.c`, `flac.c` and `vorbis.c`.  The globals
`streambuf`, `outputbuf`, `stream`, `output` and `decode` are gathered in one
record that every codec function receives and returns.  Machine integers are
natural numbers or integers with the wrap-around made explicit by `u32`.
-/

namespace Squeezelite

/-! ## Machine arithmetic and memory -/

/-- Value of an expression once stored in an unsigned 32-bit object. -/
def u32 (x : Nat) : Nat := x % 2 ^ 32

/-- Bit pattern, as an unsigned 32-bit value, of a signed integer. -/
def s32_bits (x : Int) : Nat := (x % 2 ^ 32).toNat

/-- Read of one `u8_t` at byte offset `a`. -/
def rd8 (m : Nat → Nat) (a : Nat) : Nat := m a % 256

/-- Modelled from the spec: the canonical frame holds 32-bit little-endian
samples, so a 32-bit store at byte offset `a` lays the value out low byte
first (the declaration of the sample type is in `squeezelite.h`, which is not
among the sources). -/
def store32 (m : Nat → Nat) (a v : Nat) : Nat → Nat := fun x =>
  if x = a then v % 256
  else if x = a + 1 then v / 2 ^ 8 % 256
  else if x = a + 2 then v / 2 ^ 16 % 256
  else if x = a + 3 then v / 2 ^ 24 % 256
  else m x

/-- Read of one 32-bit word at byte offset `a` (same byte order as `store32`). -/
def load32 (m : Nat → Nat) (a : Nat) : Nat :=
  rd8 m a + 2 ^ 8 * rd8 m (a + 1) + 2 ^ 16 * rd8 m (a + 2) + 2 ^ 24 * rd8 m (a + 3)

/-- Read of one 16-bit sample at byte offset `a`, as its unsigned bit pattern. -/
def load16 (m : Nat → Nat) (a : Nat) : Nat :=
  rd8 m a + 2 ^ 8 * rd8 m (a + 1)

/-- Store of a list of bytes starting at byte offset `a` (a `memcpy` into the region). -/
def store_bytes (m : Nat → Nat) (a : Nat) : List Nat → Nat → Nat
  | [] => m
  | b :: bs => store_bytes (fun x => if x = a then b % 256 else m x) (a + 1) bs

/-- The `n` bytes starting at byte offset `a` (the source of a `memcpy`). -/
def read_bytes (m : Nat → Nat) (a : Nat) : Nat → List Nat
  | 0 => []
  | n + 1 => rd8 m a :: read_bytes m (a + 1) n

/-! ## Constants and enumerations -/

def BYTES_PER_FRAME : Nat := 8

def MAX_DECODE_FRAMES : Nat := 4096

/-- Modelled from the spec: `stream.state` values in the order of section 3.2,
`STOPPED` first; the enumeration itself is declared in `squeezelite.h`. -/
def STOPPED : Nat := 0

/-- Modelled from the spec: second value of the stream state enumeration
(section 3.2); the core observes only `state ≤ DISCONNECT`. -/
def DISCONNECT : Nat := 1

/-- Modelled from the spec: `fade_mode` value `NONE` (section 3.4), the value
that is false in `if (output.fade_mode)`. -/
def FADE_NONE : Nat := 0

/-- Result of a codec's `decode()`. -/
inductive decode_state where
  | DECODE_STOPPED
  | DECODE_RUNNING
  | DECODE_COMPLETE
  | DECODE_ERROR
  deriving DecidableEq, Repr

open decode_state

/-- Observable calls made by the codecs: mutex operations, the fade hook and
the calls into the Vorbis library. -/
inductive Event where
  | lock_S
  | unlock_S
  | lock_O
  | unlock_O
  | checkfade (start : Bool)
  | ov_open_callbacks
  | ov_info
  | ov_read (length : Int)
  deriving DecidableEq, Repr

/-! ## Ring buffer -/

/-- Modelled from the spec: the ring buffer of section 3.1 (`struct buffer` and
`buffer.c` are not among the sources): byte region `mem` indexed from the base
pointer, read index `readp`, write index `writep`, capacity `size` and
alignment unit `align`. -/
structure buffer where
  mem : Nat → Nat
  readp : Nat
  writep : Nat
  size : Nat
  align : Nat

/-- Modelled from the spec: `used = (w − r) mod C` (section 3.1). -/
def _buf_used (b : buffer) : Nat := (b.writep + b.size - b.readp) % b.size

/-- Modelled from the spec: `space = C − used − 1` (section 3.1). -/
def _buf_space (b : buffer) : Nat := b.size - _buf_used b - 1

/-- Modelled from the spec: the contiguous read span has
`length = min(used, C − r)` (section 4.1). -/
def _buf_cont_read (b : buffer) : Nat := min (_buf_used b) (b.size - b.readp)

/-- Modelled from the spec: the contiguous write span is symmetric to the read
span (section 4.1): `min(space, C − w)`. -/
def _buf_cont_write (b : buffer) : Nat := min (_buf_space b) (b.size - b.writep)

/-- Modelled from the spec: `advance_read(n)` moves the read index by `n`
around the ring (section 3.1). -/
def _buf_inc_readp (b : buffer) (n : Nat) : buffer :=
  { b with readp := (b.readp + n) % b.size }

/-- Modelled from the spec: `advance_write(n)` moves the write index by `n`
around the ring (section 3.1). -/
def _buf_inc_writep (b : buffer) (n : Nat) : buffer :=
  { b with writep := (b.writep + n) % b.size }

/-- Modelled from the spec: `adjust_alignment(a)` sets the alignment unit and
clamps `w` and `r` to multiples of `a` (section 4.1). -/
def buf_adjust (b : buffer) (a : Nat) : buffer :=
  { b with align := a, readp := b.readp / a * a, writep := b.writep / a * a }

/-- Both indices of a ring lie inside its capacity. -/
def buffer.wf (b : buffer) : Prop := b.readp < b.size ∧ b.writep < b.size

instance (b : buffer) : Decidable b.wf := by
  unfold buffer.wf; exact inferInstance

/-! ## Shared state -/

structure streamstate where
  state : Nat

structure decodestate where
  new_stream : Bool

structure outputstate where
  next_sample_rate : Nat
  track_start : Option Nat
  fade_mode : Nat

/-- The globals shared by the codecs, together with the record of observable
calls made so far (oldest first). -/
structure World where
  streambuf : buffer
  outputbuf : buffer
  stream : streamstate
  output : outputstate
  decode : decodestate
  trace : List Event

/-- Append one observable call to the record. -/
def World.emit (w : World) (e : Event) : World := { w with trace := w.trace ++ [e] }

def LOCK_S (w : World) : World := w.emit Event.lock_S

def UNLOCK_S (w : World) : World := w.emit Event.unlock_S

def LOCK_O (w : World) : World := w.emit Event.lock_O

def UNLOCK_O (w : World) : World := w.emit Event.unlock_O

/-- Modelled from the spec: `FadeController.checkfade` (section 4.4) lives in
the output module, which is not among the sources; it computes fade offsets
only, so the model records the call and leaves the rest of the state alone. -/
def _checkfade (start : Bool) (w : World) : World := w.emit (Event.checkfade start)

/-- The block guarded by `if (decode.new_stream)` in all three codecs:
announce the rate, mark the track start at the current write pointer, run the
fade hook when a fade mode is set, clear the flag. -/
def set_track_start (rate : Nat) (w : World) : World :=
  let w1 : World := { w with output := { w.output with next_sample_rate := rate } }
  let w2 : World := { w1 with output := { w1.output with track_start := some w1.outputbuf.writep } }
  let w3 : World := if w2.output.fade_mode ≠ 0 then _checkfade true w2 else w2
  { w3 with decode := { w3.decode with new_stream := false } }

/-- The arguments of the `_checkfade` calls in a record of observable calls,
in order. -/
def checkfade_calls (tr : List Event) : List Bool :=
  tr.filterMap (fun e => match e with
    | Event.checkfade b => some b
    | _ => none)

/-! ## pcm.c -/

def sample_rates : List Nat :=
  [11025, 22050, 32000, 44100, 48000, 8000, 12000, 16000, 24000, 96000, 88200, 176400, 192000,
   352800, 384000]

/-- The file-scope variables of `pcm.c`. -/
structure pcm where
  sample_rate : Nat
  sample_size : Nat
  channels : Nat
  bigendian : Bool

/-- Right-hand side `*(iptr) << 24 | *(iptr+1) << 16`. -/
def conv16be (m : Nat → Nat) (iptr : Nat) : Nat :=
  u32 (rd8 m iptr <<< 24 ||| rd8 m (iptr + 1) <<< 16)

/-- Right-hand side `*(iptr) << 16 | *(iptr+1) << 24`. -/
def conv16le (m : Nat → Nat) (iptr : Nat) : Nat :=
  u32 (rd8 m iptr <<< 16 ||| rd8 m (iptr + 1) <<< 24)

/-- Right-hand side `*(iptr) << 24 | *(iptr+1) << 16 | *(iptr+2) << 8`. -/
def conv24be (m : Nat → Nat) (iptr : Nat) : Nat :=
  u32 (rd8 m iptr <<< 24 ||| rd8 m (iptr + 1) <<< 16 ||| rd8 m (iptr + 2) <<< 8)

/-- Right-hand side `*(iptr) << 8 | *(iptr+1) << 16 | *(iptr+2) << 24`. -/
def conv24le (m : Nat → Nat) (iptr : Nat) : Nat :=
  u32 (rd8 m iptr <<< 8 ||| rd8 m (iptr + 1) <<< 16 ||| rd8 m (iptr + 2) <<< 24)

/-- Right-hand side `*iptr++ << 24`. -/
def conv8 (m : Nat → Nat) (iptr : Nat) : Nat :=
  u32 (rd8 m iptr <<< 24)

/-- The stereo loop `while (count--) { *optr++ = conv; iptr += step; }`:
`inm` is the stream memory, `out` the output memory, pointers are byte offsets. -/
def pcm_loop2 (conv : (Nat → Nat) → Nat → Nat) (step : Nat) (inm : Nat → Nat) :
    Nat → Nat → Nat → (Nat → Nat) → Nat → Nat
  | 0, _, _, out => out
  | count + 1, iptr, optr, out =>
    pcm_loop2 conv step inm count (iptr + step) (optr + 4) (store32 out optr (conv inm iptr))

/-- The mono loop
`while (count--) { *optr = conv; *(optr+1) = *optr; iptr += step; optr += 2; }`. -/
def pcm_loop1 (conv : (Nat → Nat) → Nat → Nat) (step : Nat) (inm : Nat → Nat) :
    Nat → Nat → Nat → (Nat → Nat) → Nat → Nat
  | 0, _, _, out => out
  | count + 1, iptr, optr, out =>
    let out1 := store32 out optr (conv inm iptr)
    let out2 := store32 out1 (optr + 4) (load32 out1 optr)
    pcm_loop1 conv step inm count (iptr + step) (optr + 8) out2

/-- The `if (channels == 2) … else if (channels == 1) … else` cascade of
`pcm_decode`: the output memory after the selected loop has run. -/
def pcm_unpack (p : pcm) (inm : Nat → Nat) (count iptr optr : Nat) (out : Nat → Nat) :
    Nat → Nat :=
  if p.channels = 2 then
    if p.sample_size = 2 then
      if p.bigendian then pcm_loop2 conv16be 2 inm count iptr optr out
      else pcm_loop2 conv16le 2 inm count iptr optr out
    else if p.sample_size = 3 then
      if p.bigendian then pcm_loop2 conv24be 3 inm count iptr optr out
      else pcm_loop2 conv24le 3 inm count iptr optr out
    else if p.sample_size = 1 then pcm_loop2 conv8 1 inm count iptr optr out
    else out
  else if p.channels = 1 then
    if p.sample_size = 2 then
      if p.bigendian then pcm_loop1 conv16be 2 inm count iptr optr out
      else pcm_loop1 conv16le 2 inm count iptr optr out
    else if p.sample_size = 3 then
      if p.bigendian then pcm_loop1 conv24be 3 inm count iptr optr out
      else pcm_loop1 conv24le 3 inm count iptr optr out
    else if p.sample_size = 1 then pcm_loop1 conv8 1 inm count iptr optr out
    else out
  else out

/-- A conversion reads only the `step` bytes at its pointer. -/
def conv_local (conv : (Nat → Nat) → Nat → Nat) (step : Nat) : Prop :=
  ∀ (m m' : Nat → Nat) (p : Nat), (∀ x, p ≤ x → x < p + step → m x = m' x) → conv m p = conv m' p

/-- Number of whole input frames readable: `in` of `pcm_decode`. -/
def pcm_in (p : pcm) (w : World) : Nat :=
  min (_buf_used w.streambuf) (_buf_cont_read w.streambuf) / u32 (p.channels * p.sample_size)

/-- Number of whole output frames writable: `out` of `pcm_decode`. -/
def pcm_out (w : World) : Nat :=
  min (_buf_space w.outputbuf) (_buf_cont_write w.outputbuf) / BYTES_PER_FRAME

/-- Number of frames one call decodes: `frames` of `pcm_decode`. -/
def pcm_frames (p : pcm) (w : World) : Nat :=
  min (min (pcm_in p w) (pcm_out w)) MAX_DECODE_FRAMES

/-- The part of `pcm_decode` after the end-of-stream test, up to the release
of the mutexes.  The products of the `u32_t` variables wrap at 32 bits;
`frames * BYTES_PER_FRAME` is at most `4096 * 8` and cannot wrap. -/
def pcm_decode_run (p : pcm) (w : World) : World :=
  let w1 := if w.decode.new_stream then set_track_start p.sample_rate w else w
  let frames := pcm_frames p w
  let optr := w1.outputbuf.writep
  let iptr := w1.streambuf.readp
  let count := u32 (frames * p.channels)
  let mem := pcm_unpack p w1.streambuf.mem count iptr optr w1.outputbuf.mem
  let w2 : World := { w1 with outputbuf := { w1.outputbuf with mem := mem } }
  let w3 : World :=
    { w2 with streambuf := _buf_inc_readp w2.streambuf (u32 (frames * p.channels * p.sample_size)) }
  let w4 : World :=
    { w3 with outputbuf := _buf_inc_writep w3.outputbuf (frames * BYTES_PER_FRAME) }
  UNLOCK_S (UNLOCK_O w4)

/-- The function `pcm_decode`.  The result is `none` when the division by
`channels * sample_size` has a zero divisor (undefined in C). -/
def pcm_decode (p : pcm) (w0 : World) : Option (decode_state × World) :=
  let w := LOCK_O (LOCK_S w0)
  if u32 (p.channels * p.sample_size) = 0 then none
  else
    let in_ := pcm_in p w
    if w.stream.state ≤ DISCONNECT ∧ in_ = 0 then
      some (DECODE_COMPLETE, UNLOCK_S (UNLOCK_O w))
    else some (DECODE_RUNNING, pcm_decode_run p w)

/-- Byte `j` of input sample `k`, counted from the read pointer of `w`. -/
def in_byte (p : pcm) (w : World) (k j : Nat) : Nat :=
  rd8 w.streambuf.mem (w.streambuf.readp + p.sample_size * k + j)

/-- The `k`-th 32-bit word of the output ring of `w'`, counted from the write
pointer of `w` (the state before the call). -/
def out_word (w w' : World) (k : Nat) : Nat :=
  load32 w'.outputbuf.mem (w.outputbuf.writep + 4 * k)

/-- The function `pcm_open`.  The result is `none` when `rate - '0'` indexes outside
`sample_rates` (undefined in C).  The arguments are `u8_t` codes. -/
def pcm_open (size rate chan endianness : Nat) (w : World) : Option (pcm × World) :=
  let sample_size := ((size : Int) - 48 + 1) % 2 ^ 32
  let channels := ((chan : Int) - 48) % 2 ^ 32
  if rate < 48 then none
  else
    match sample_rates.get? (rate - 48) with
    | none => none
    | some sample_rate =>
      let p : pcm :=
        { sample_size := sample_size.toNat, sample_rate := sample_rate,
          channels := channels.toNat, bigendian := decide (endianness = 48) }
      some (p, { w with streambuf := buf_adjust w.streambuf (u32 (p.sample_size * p.channels)) })

/-- The function `pcm_close`. -/
def pcm_close (w : World) : World :=
  { w with streambuf := buf_adjust w.streambuf 1 }

/-! ### Scenario S1 -/

/-- Stream ring of scenario S1: the four bytes `00 01 FF 7F`, nothing read yet. -/
def S1_streambuf : buffer :=
  { mem := fun a => if a = 0 then 0x00 else if a = 1 then 0x01 else if a = 2 then 0xFF
      else if a = 3 then 0x7F else 0,
    readp := 0, writep := 4, size := 16, align := 1 }

/-- An empty output ring of 64 bytes. -/
def S1_outputbuf : buffer :=
  { mem := fun _ => 0, readp := 0, writep := 0, size := 64, align := 1 }

/-- State of scenario S1 before the codec is opened: upstream still connected
(`state = 3`), a new stream pending, no fade. -/
def S1_world : World :=
  { streambuf := S1_streambuf, outputbuf := S1_outputbuf, stream := { state := 3 },
    output := { next_sample_rate := 0, track_start := none, fade_mode := 0 },
    decode := { new_stream := true }, trace := [] }

/-- Configuration left by `pcm_open('1', '3', '2', '1')`: 16 bit, 44100 Hz,
stereo, little-endian. -/
def S1_pcm : pcm :=
  { sample_rate := 44100, sample_size := 2, channels := 2, bigendian := false }

/-- Mono variant of `S1_pcm`: 8 bit, one channel. -/
def mono8_pcm : pcm :=
  { sample_rate := 44100, sample_size := 1, channels := 1, bigendian := false }

/-- State of scenario S1 after `pcm_open('1', '3', '2', '1')`: the stream ring
is aligned to the 4-byte frame. -/
def S1_opened : World :=
  { S1_world with streambuf := buf_adjust S1_streambuf 4 }

/-- State of scenario S1 once the frame has been consumed and the upstream has
disconnected. -/
def S1_drained : World :=
  { S1_opened with
    streambuf := { S1_opened.streambuf with readp := 4 },
    stream := { state := DISCONNECT } }

/-- Configuration for 24-bit stereo: 6-byte frames. -/
def stereo24_pcm : pcm :=
  { sample_rate := 44100, sample_size := 3, channels := 2, bigendian := true }

/-- A state with 7 readable bytes in the stream ring and an empty output ring. -/
def S2_world : World :=
  { S1_world with streambuf := { S1_streambuf with writep := 7 } }

/-- Scenario S6 for the PCM codec: the state of S1 after the open, with an
output ring that has exactly 16 bytes of space. -/
def S6_world : World :=
  { S1_opened with
    outputbuf := { mem := fun _ => 0, readp := 17, writep := 0, size := 32, align := 1 } }

/-- The state of S1 after the open, with an output ring too small for one
frame (7 bytes of space). -/
def S6_full_world : World :=
  { S1_opened with
    outputbuf := { mem := fun _ => 0, readp := 0, writep := 0, size := 8, align := 1 } }

/-! ## flac.c -/

/-- The fields of `frame->header` read by `write_cb`. -/
structure flac_frame_header where
  blocksize : Nat
  sample_rate : Nat
  channels : Nat
  bits_per_sample : Nat

/-- Value of `FLAC__STREAM_DECODER_END_OF_STREAM` in the library's
`FLAC__StreamDecoderState` enumeration (`FLAC/stream_decoder.h`). -/
def FLAC__STREAM_DECODER_END_OF_STREAM : Int := 4

/-- Status returned by `read_cb`. -/
inductive FLAC__StreamDecoderReadStatus where
  | CONTINUE
  | END_OF_STREAM
  | ABORT
  deriving DecidableEq, Repr

/-- The callback `read_cb`: the status, the bytes copied into `buffer`, the new `*want` and
the state after the call. -/
def read_cb (want : Nat) (w0 : World) :
    FLAC__StreamDecoderReadStatus × List Nat × Nat × World :=
  let w := LOCK_S w0
  let bytes := min (min (_buf_used w.streambuf) (_buf_cont_read w.streambuf)) want
  let end_ := decide (w.stream.state ≤ DISCONNECT ∧ bytes = 0)
  let copied := read_bytes w.streambuf.mem w.streambuf.readp bytes
  let w1 : World := { w with streambuf := _buf_inc_readp w.streambuf bytes }
  let w2 := UNLOCK_S w1
  (if end_ then FLAC__StreamDecoderReadStatus.END_OF_STREAM
   else FLAC__StreamDecoderReadStatus.CONTINUE, copied, bytes, w2)

/-- The inner loop of `write_cb`,
`while (count--) { *optr++ = *lptr++ << s; *optr++ = *rptr++ << s; }`,
with `i` the common index of `lptr` and `rptr` into their channel arrays and
`2 ^ s` the factor of the left shift. -/
def flac_loop (s : Nat) (l r : Nat → Int) : Nat → Nat → Nat → (Nat → Nat) → Nat → Nat
  | 0, _, _, out => out
  | count + 1, i, optr, out =>
    let out1 := store32 out optr (s32_bits (l i * 2 ^ s))
    let out2 := store32 out1 (optr + 4) (s32_bits (r i * 2 ^ s))
    flac_loop s l r count (i + 1) (optr + 8) out2

/-- Number of frames one pass of the `while (frames > 0)` loop handles. -/
def flac_span (frames : Nat) (w : World) : Nat :=
  min (min (_buf_space w.outputbuf) (_buf_cont_write w.outputbuf) / BYTES_PER_FRAME) frames

/-- One pass of the body of `while (frames > 0)` in `write_cb`: `i` is the
number of samples already taken from each channel array.  The product
`f * BYTES_PER_FRAME` is bounded by the free space and cannot wrap. -/
def write_cb_body (bits_per_sample : Nat) (l r : Nat → Int) (frames i : Nat) (w : World) : World :=
  let f := flac_span frames w
  let optr := w.outputbuf.writep
  let mem :=
    if bits_per_sample = 16 then flac_loop 16 l r f i optr w.outputbuf.mem
    else if bits_per_sample = 24 then flac_loop 8 l r f i optr w.outputbuf.mem
    else w.outputbuf.mem
  let w1 : World := { w with outputbuf := { w.outputbuf with mem := mem } }
  { w1 with outputbuf := _buf_inc_writep w1.outputbuf (f * BYTES_PER_FRAME) }

/-- The loop `while (frames > 0)` of `write_cb`, bounded by `fuel` passes:
`none` when the passes run out with frames still pending. -/
def write_cb_loop (bits_per_sample : Nat) (l r : Nat → Int) : Nat → Nat → Nat → World → Option World
  | 0, frames, _, w => if frames = 0 then some w else none
  | fuel + 1, frames, i, w =>
    if frames = 0 then some w
    else
      let f := flac_span frames w
      write_cb_loop bits_per_sample l r fuel (frames - f) (i + f)
        (write_cb_body bits_per_sample l r frames i w)

/-- The callback `write_cb` up to the end of the `if (decode.new_stream)` block. -/
def write_cb_start (h : flac_frame_header) (w0 : World) : World :=
  let w := LOCK_O w0
  if w.decode.new_stream then set_track_start h.sample_rate w else w

/-- The callback `write_cb`: `buffer c i` is sample `i` of channel `c`.  The result is
`none` when the loop has not finished within `fuel` passes. -/
def write_cb (fuel : Nat) (h : flac_frame_header) (buffer : Nat → Nat → Int) (w0 : World) :
    Option World :=
  let lptr := buffer 0
  let rptr := buffer (if h.channels > 1 then 1 else 0)
  match write_cb_loop h.bits_per_sample lptr rptr fuel h.blocksize 0 (write_cb_start h w0) with
  | none => none
  | some w => some (UNLOCK_O w)

/-- The function `flac_decode`, given the two values obtained from the library: `ok` from
`process_single` and `state` from `get_state`. -/
def flac_decode (ok : Bool) (state : Int) : decode_state :=
  let _logged := !ok && decide (state ≠ FLAC__STREAM_DECODER_END_OF_STREAM)
  if state = FLAC__STREAM_DECODER_END_OF_STREAM then DECODE_COMPLETE
  else if state > FLAC__STREAM_DECODER_END_OF_STREAM then DECODE_ERROR
  else DECODE_RUNNING

/-! ### Scenario S3 -/

/-- Frame header of scenario S3: one stereo 16-bit sample at 48000 Hz. -/
def S3_header : flac_frame_header :=
  { blocksize := 1, sample_rate := 48000, channels := 2, bits_per_sample := 16 }

/-- Decoded channel arrays of scenario S3: `L = 0x1234`, `R = 0x5678`. -/
def S3_buffer : Nat → Nat → Int := fun c _ => if c = 0 then 0x1234 else 0x5678

/-- A frame header with a sample width that `write_cb` does not handle. -/
def S3_header8 : flac_frame_header :=
  { blocksize := 1, sample_rate := 48000, channels := 2, bits_per_sample := 8 }

/-! ## vorbis.c -/

/-- Value of a 32-bit pattern read as `int`. -/
def to_int (x : Nat) : Int := if x % 2 ^ 32 < 2 ^ 31 then (x % 2 ^ 32 : Nat) else (x % 2 ^ 32 : Nat) - 2 ^ 32

/-- Read of one `s16_t` at byte offset `a`. -/
def rd_s16 (m : Nat → Nat) (a : Nat) : Int :=
  if load16 m a < 2 ^ 15 then (load16 m a : Int) else (load16 m a : Int) - 2 ^ 16

/-- The fields of `vorbis_info` read by `vorbis_decode`. -/
structure vorbis_info where
  rate : Int
  channels : Int

/-- What one call of the library's `ov_open_callbacks` does: the
`(size, nmemb)` requests it makes through `read_func`, its return value and
the stream info that `ov_info` then reports. -/
structure ov_open_result where
  reads : List (Nat × Nat)
  err : Int
  info : vorbis_info

/-- What one call of the library's `ov_read` does: the `(size, nmemb)`
requests it makes through `read_func`, the bytes it stores at `buffer` and its
return value as held in `int n`. -/
structure ov_read_result where
  reads : List (Nat × Nat)
  data : List Nat
  n : Int

/-- The dynamically loaded Vorbis library as seen by one call of
`vorbis_decode`: each entry point is a function of the data source, the
destination ring and the requested length.  `ov_read` is `none` when the
fixed-point library is loaded. -/
structure vorbis_lib where
  ov_open_callbacks : buffer → ov_open_result
  ov_read : Option (buffer → buffer → Int → ov_read_result)
  ov_read_tremor : buffer → buffer → Int → ov_read_result

/-- The callback `_read_cb`: the return value `bytes / size`, the bytes copied to `ptr` and
the state after the call; `none` when `size` is zero (division by zero). -/
def _read_cb (size nmemb : Nat) (w : World) : Option (Nat × List Nat × World) :=
  let bytes := min (min (_buf_used w.streambuf) (_buf_cont_read w.streambuf)) (size * nmemb)
  let copied := read_bytes w.streambuf.mem w.streambuf.readp bytes
  let w1 : World := { w with streambuf := _buf_inc_readp w.streambuf bytes }
  if size = 0 then none else some (bytes / size, copied, w1)

/-- The calls of `read_func` made by the library during one entry point. -/
def run_reads : List (Nat × Nat) → World → Option World
  | [], w => some w
  | (size, nmemb) :: rest, w =>
    match _read_cb size nmemb w with
    | none => none
    | some (_, _, w1) => run_reads rest w1

/-- The loop `while (count--) { *--optr = *--iptr << 16; }` (stereo). -/
def vorbis_loop2 : Nat → Nat → Nat → (Nat → Nat) → Nat → Nat
  | 0, _, _, mem => mem
  | count + 1, iptr, optr, mem =>
    let iptr1 := iptr - 2
    let optr1 := optr - 4
    vorbis_loop2 count iptr1 optr1 (store32 mem optr1 (s32_bits (rd_s16 mem iptr1 * 2 ^ 16)))

/-- The loop
`while (count--) { *--optr = *--iptr << 16; *--optr = *iptr << 16; }` (mono). -/
def vorbis_loop1 : Nat → Nat → Nat → (Nat → Nat) → Nat → Nat
  | 0, _, _, mem => mem
  | count + 1, iptr, optr, mem =>
    let iptr1 := iptr - 2
    let optr1 := optr - 4
    let mem1 := store32 mem optr1 (s32_bits (rd_s16 mem iptr1 * 2 ^ 16))
    let optr2 := optr1 - 4
    let mem2 := store32 mem1 optr2 (s32_bits (rd_s16 mem1 iptr1 * 2 ^ 16))
    vorbis_loop1 count iptr1 optr2 mem2

/-- The file-scope and function-scope variables of `vorbis.c` that survive a
call: the `static int channels` of `vorbis_decode`. -/
structure vorbis where
  channels : Int

/-- Number of whole output frames writable: `frames` at the top of `vorbis_decode`. -/
def vorbis_frames (w : World) : Nat :=
  min (_buf_space w.outputbuf) (_buf_cont_write w.outputbuf) / BYTES_PER_FRAME

/-- The request size `bytes = frames * 2 * channels`, computed in unsigned
32-bit arithmetic and held in an `int`. -/
def vorbis_bytes (frames : Nat) (channels : Int) : Int :=
  to_int (u32 (frames * 2 * s32_bits channels))

/-- The call `if (v->ov_read) n = v->ov_read(…) else n = v->ov_read_tremor(…)`
with destination `outputbuf->writep` and length `bytes`. -/
def ov_read_call (lib : vorbis_lib) (w : World) (bytes : Int) : ov_read_result :=
  match lib.ov_read with
  | some f => f w.streambuf w.outputbuf bytes
  | none => lib.ov_read_tremor w.streambuf w.outputbuf bytes

/-- The part of `vorbis_decode` from `bytes = frames * 2 * channels` to the
end.  The result is `none` when a read callback or `n / 2 / channels` divides
by zero. -/
def vorbis_decode_read (lib : vorbis_lib) (v : vorbis) (frames : Nat) (w : World) :
    Option (decode_state × vorbis × World) :=
  let bytes := vorbis_bytes frames v.channels
  let r := ov_read_call lib w bytes
  match run_reads r.reads (w.emit (Event.ov_read bytes)) with
  | none => none
  | some w1 =>
    let w2 : World :=
      { w1 with outputbuf :=
          { w1.outputbuf with mem := store_bytes w1.outputbuf.mem w1.outputbuf.writep r.data } }
    let n := r.n
    if n > 0 then
      if v.channels = 0 then none
      else
        let frames1 := s32_bits (Int.tdiv (Int.tdiv n 2) v.channels)
        let count := u32 (frames1 * s32_bits v.channels)
        let iptr := w2.outputbuf.writep + 2 * count
        let optr := w2.outputbuf.writep + 4 * u32 (frames1 * 2)
        let mem :=
          if v.channels = 2 then vorbis_loop2 count iptr optr w2.outputbuf.mem
          else if v.channels = 1 then vorbis_loop1 count iptr optr w2.outputbuf.mem
          else w2.outputbuf.mem
        let w3 : World := { w2 with outputbuf := { w2.outputbuf with mem := mem } }
        let w4 : World :=
          { w3 with outputbuf := _buf_inc_writep w3.outputbuf (u32 (frames1 * BYTES_PER_FRAME)) }
        some (DECODE_RUNNING, v, UNLOCK_S (UNLOCK_O w4))
    else if n = 0 then some (DECODE_COMPLETE, v, UNLOCK_S (UNLOCK_O w2))
    else some (DECODE_COMPLETE, v, UNLOCK_S (UNLOCK_O w2))

/-- The function `vorbis_decode`. -/
def vorbis_decode (lib : vorbis_lib) (v : vorbis) (w0 : World) :
    Option (decode_state × vorbis × World) :=
  let w := LOCK_O (LOCK_S w0)
  let end_ := decide (w.stream.state ≤ DISCONNECT)
  let frames := vorbis_frames w
  if frames = 0 ∧ end_ = true then some (DECODE_COMPLETE, v, UNLOCK_S (UNLOCK_O w))
  else if w.decode.new_stream then
    let o := lib.ov_open_callbacks w.streambuf
    match run_reads o.reads (w.emit Event.ov_open_callbacks) with
    | none => none
    | some w1 =>
      if o.err < 0 then some (DECODE_COMPLETE, v, UNLOCK_S (UNLOCK_O w1))
      else
        let info := o.info
        let w2 := set_track_start (s32_bits info.rate) (w1.emit Event.ov_info)
        let v1 : vorbis := { v with channels := info.channels }
        if v1.channels > 2 then some (DECODE_ERROR, v1, UNLOCK_S (UNLOCK_O w2))
        else vorbis_decode_read lib v1 frames w2
  else vorbis_decode_read lib v frames w

/-- The length `vorbis_decode` asks the library for in state `w`. -/
def vorbis_request (v : vorbis) (w : World) : Int :=
  vorbis_bytes (vorbis_frames w) v.channels

/-- The value `n` returned by the library's read in state `w`. -/
def vorbis_n (lib : vorbis_lib) (v : vorbis) (w : World) : Int :=
  (ov_read_call lib w (vorbis_request v w)).n

/-- The output memory right after the library's read has stored its bytes at
the write pointer, before the samples are unpacked. -/
def vorbis_lib_mem (lib : vorbis_lib) (v : vorbis) (w : World) : Nat → Nat :=
  store_bytes w.outputbuf.mem w.outputbuf.writep (ov_read_call lib w (vorbis_request v w)).data

/-- The `k`-th 16-bit sample the library has stored at the write pointer. -/
def vorbis_sample (lib : vorbis_lib) (v : vorbis) (w : World) (k : Nat) : Int :=
  rd_s16 (vorbis_lib_mem lib v w) (w.outputbuf.writep + 2 * k)

/-- The frame count `n / 2 / channels` for a positive `n` and one or two
channels, as a natural number. -/
def vorbis_out_frames (lib : vorbis_lib) (v : vorbis) (w : World) : Nat :=
  (vorbis_n lib v w).toNat / 2 / v.channels.toNat

/-! ### Scenario S4 -/

/-- Library behaviour of scenario S4: the open succeeds and reports a mono
stream at 44100 Hz, the read delivers the single sample `0x7FFF` (two bytes,
low byte first); no stream byte is requested. -/
def S4_lib : vorbis_lib :=
  { ov_open_callbacks := fun _ => { reads := [], err := 0, info := { rate := 44100, channels := 1 } },
    ov_read := some (fun _ _ _ => { reads := [], data := [0xFF, 0x7F], n := 2 }),
    ov_read_tremor := fun _ _ _ => { reads := [], data := [], n := 0 } }

/-- The `static int channels` before the first call. -/
def S4_vorbis : vorbis := { channels := 0 }

/-- Library behaviour of scenario S5: the open succeeds and the header
declares 5 channels. -/
def S5_lib : vorbis_lib :=
  { S4_lib with
    ov_open_callbacks := fun _ =>
      { reads := [(1, 4)], err := 0, info := { rate := 44100, channels := 5 } } }

/-- A library whose `ov_open_callbacks` fails with `-132` (`OV_ENOTVORBIS`)
after asking for four stream bytes. -/
def failing_open_lib : vorbis_lib :=
  { S4_lib with
    ov_open_callbacks := fun _ =>
      { reads := [(1, 4)], err := -132, info := { rate := 0, channels := 0 } } }

/-- A library as in scenario S4 whose read delivers two stereo frames
`(1, -2)` and `(3, -4)`, 8 bytes. -/
def stereo_lib : vorbis_lib :=
  { ov_open_callbacks := fun _ => { reads := [], err := 0, info := { rate := 48000, channels := 2 } },
    ov_read := some (fun _ _ _ =>
      { reads := [], data := [0x01, 0x00, 0xFE, 0xFF, 0x03, 0x00, 0xFC, 0xFF], n := 8 }),
    ov_read_tremor := fun _ _ _ => { reads := [], data := [], n := 0 } }

/-- Expansion into a separate buffer, in the words of the spec: word `j` of
the output is 16-bit sample `j` shifted left by 16 for stereo, and sample
`j / 2` shifted left by 16 for mono (each converted sample duplicated to both
lanes).  `sample k` is the `k`-th 16-bit sample of the input. -/
def expand_separate (channels : Int) (sample : Nat → Int) (j : Nat) : Nat :=
  if channels = 2 then s32_bits (sample j * 2 ^ 16) else s32_bits (sample (j / 2) * 2 ^ 16)

/-- The mutex operations in a record of observable calls, in order. -/
def lock_events (tr : List Event) : List Event :=
  tr.filter (fun e => match e with
    | Event.lock_S => true
    | Event.unlock_S => true
    | Event.lock_O => true
    | Event.unlock_O => true
    | _ => false)

/-- The `ov_read` calls in a record of observable calls, with their lengths. -/
def ov_read_calls (tr : List Event) : List Int :=
  tr.filterMap (fun e => match e with
    | Event.ov_read len => some len
    | _ => none)

/-- A state with OUTPUTBUF too small for one frame, the upstream disconnected
and four undecoded bytes left in STREAMBUF. -/
def S21_world : World :=
  { S6_full_world with stream := { state := DISCONNECT } }

/-- The state of the `while (frames > 0)` loop of `write_cb` after `k` further
passes of its body: frames still pending, samples taken from the channel
arrays, and the globals. -/
def write_cb_iter (bits_per_sample : Nat) (l r : Nat → Int) :
    Nat → Nat × Nat × World → Nat × Nat × World
  | 0, st => st
  | k + 1, (frames, i, w) =>
    write_cb_iter bits_per_sample l r k
      (frames - flac_span frames w, i + flac_span frames w,
        write_cb_body bits_per_sample l r frames i w)

/-- Configuration left by `pcm_open('3', '3', '2', '1')`: 4-byte samples, which
no branch of `pcm_decode` handles. -/
def wide_pcm : pcm :=
  { sample_rate := 44100, sample_size := 4, channels := 2, bigendian := false }

/-- A state with eight readable bytes in STREAMBUF, the upstream still
connected, and an empty output ring whose memory holds stale `0xAA` bytes. -/
def S23_world : World :=
  { S1_world with
    streambuf := { S1_streambuf with writep := 8 },
    outputbuf := { S1_outputbuf with mem := fun _ => 0xAA } }

/-! ## main.c -/

/-- Modelled from the spec: default capacity of STREAMBUF, 2 MiB (section 6);
the macro is defined in `squeezelite.h`. -/
def STREAMBUF_SIZE : Nat := 2 * 1024 * 1024

/-- Modelled from the spec: default capacity of OUTPUTBUF, 4 MiB (section 6);
the macro is defined in `squeezelite.h`. -/
def OUTPUTBUF_SIZE : Nat := 4 * 1024 * 1024

/-- The libc call `strchr(str, c)` on a string given by its characters before
the terminating NUL, for `c` other than NUL: `none` when `c` does not occur,
else the characters before the first occurrence and those after it. -/
def strchr (c : Char) : List Char → Option (List Char × List Char)
  | [] => none
  | x :: xs =>
    if x = c then some ([], xs)
    else
      match strchr c xs with
      | none => none
      | some (p, q) => some (x :: p, q)

/-- The function `next_param`: `str` is the value of its `static char *str` before the
call (`none` for `NULL`); the result is the returned string (`none` for
`NULL`) and the new value of `str`. -/
def next_param (src : Option (List Char)) (c : Char) (str : Option (List Char)) :
    Option (List Char) × Option (List Char) :=
  let str1 := match src with
    | some s => some s
    | none => str
  let (ret, str2) : Option (List Char) × Option (List Char) :=
    match str1 with
    | none => (none, none)
    | some s =>
      match strchr c s with
      | some (p, q) => (some p, some q)
      | none => (some s, none)
  (match ret with
   | some (x :: xs) => some (x :: xs)
   | _ => none, str2)

/-- The two buffer sizes of `main`. -/
structure buf_sizes where
  stream_buf_size : Nat
  output_buf_size : Nat

/-- The `case 'b'` block of `main`: `atoi` is the libc function, `str` the
`static` of `next_param`.  The product `atoi(s) * 1024` is stored in an
`unsigned`. -/
def main_case_b (atoi : List Char → Int) (optarg : List Char) (str : Option (List Char))
    (sz : buf_sizes) : buf_sizes × Option (List Char) :=
  let r1 := next_param (some optarg) ':' str
  let r2 := next_param none ':' r1.2
  let s := r1.1
  let o := r2.1
  let sz1 : buf_sizes :=
    match s with
    | some s => { sz with stream_buf_size := s32_bits (atoi s * 1024) }
    | none => sz
  let sz2 : buf_sizes :=
    match o with
    | some o => { sz1 with output_buf_size := s32_bits (atoi o * 1024) }
    | none => sz1
  (sz2, r2.2)

/-- The values `main` gives the two sizes before it reads the options. -/
def default_sizes : buf_sizes :=
  { stream_buf_size := STREAMBUF_SIZE, output_buf_size := OUTPUTBUF_SIZE }

/-- A decimal reading of digit strings, standing for libc `atoi` on the
examples. -/
def atoi_digits (s : List Char) : Int :=
  s.foldl (fun (acc : Int) (ch : Char) => acc * 10 + ((ch.toNat : Int) - 48)) 0

theorem rd8_lt (m : Nat → Nat) (a : Nat) : rd8 m a < 256 := by
  unfold rd8; omega

theorem store32_outside (m : Nat → Nat) (a v x : Nat) (h : x < a ∨ a + 4 ≤ x) :
    store32 m a v x = m x := by
  unfold store32
  have h0 : x ≠ a := by omega
  have h1 : x ≠ a + 1 := by omega
  have h2 : x ≠ a + 2 := by omega
  have h3 : x ≠ a + 3 := by omega
  simp [h0, h1, h2, h3]

theorem load32_congr (m m' : Nat → Nat) (a : Nat)
    (h : ∀ x, a ≤ x → x < a + 4 → m x = m' x) : load32 m a = load32 m' a := by
  unfold load32 rd8
  rw [h a (by omega) (by omega), h (a + 1) (by omega) (by omega),
    h (a + 2) (by omega) (by omega), h (a + 3) (by omega) (by omega)]

theorem load32_store32 (m : Nat → Nat) (a v : Nat) : load32 (store32 m a v) a = v % 2 ^ 32 := by
  unfold load32 rd8 store32
  simp
  omega

theorem load32_lt (m : Nat → Nat) (a : Nat) : load32 m a < 2 ^ 32 := by
  unfold load32
  have h0 := rd8_lt m a
  have h1 := rd8_lt m (a + 1)
  have h2 := rd8_lt m (a + 2)
  have h3 := rd8_lt m (a + 3)
  omega

theorem load32_store32_disjoint (m : Nat → Nat) (a v a' : Nat) (h : a' + 4 ≤ a ∨ a + 4 ≤ a') :
    load32 (store32 m a v) a' = load32 m a' := by
  apply load32_congr
  intro x h1 h2
  exact store32_outside m a v x (by omega)

theorem pcm_loop2_outside (conv : (Nat → Nat) → Nat → Nat) (step : Nat) (inm : Nat → Nat) :
    ∀ (count iptr optr : Nat) (out : Nat → Nat) (x : Nat), (x < optr ∨ optr + 4 * count ≤ x) →
      pcm_loop2 conv step inm count iptr optr out x = out x := by
  intro count
  induction count with
  | zero => intro iptr optr out x _; rfl
  | succ n ih =>
    intro iptr optr out x h
    simp only [pcm_loop2]
    rw [ih (iptr + step) (optr + 4) _ x (by omega)]
    exact store32_outside out optr _ x (by omega)

theorem pcm_loop2_word (conv : (Nat → Nat) → Nat → Nat) (step : Nat) (inm : Nat → Nat) :
    ∀ (count iptr optr : Nat) (out : Nat → Nat) (k : Nat), k < count →
      load32 (pcm_loop2 conv step inm count iptr optr out) (optr + 4 * k)
        = conv inm (iptr + step * k) % 2 ^ 32 := by
  intro count
  induction count with
  | zero => intro iptr optr out k h; omega
  | succ n ih =>
    intro iptr optr out k h
    simp only [pcm_loop2]
    cases k with
    | zero =>
      simp only [Nat.mul_zero, Nat.add_zero]
      rw [load32_congr _ (store32 out optr (conv inm iptr)) optr
        (fun x h1 h2 => pcm_loop2_outside conv step inm n _ _ _ x (by omega))]
      exact load32_store32 out optr _
    | succ j =>
      have := ih (iptr + step) (optr + 4) (store32 out optr (conv inm iptr)) j (by omega)
      have e1 : optr + 4 * (j + 1) = optr + 4 + 4 * j := by ring
      have e2 : iptr + step * (j + 1) = iptr + step + step * j := by ring
      rw [e1, e2]
      exact this

theorem pcm_loop1_outside (conv : (Nat → Nat) → Nat → Nat) (step : Nat) (inm : Nat → Nat) :
    ∀ (count iptr optr : Nat) (out : Nat → Nat) (x : Nat), (x < optr ∨ optr + 8 * count ≤ x) →
      pcm_loop1 conv step inm count iptr optr out x = out x := by
  intro count
  induction count with
  | zero => intro iptr optr out x _; rfl
  | succ n ih =>
    intro iptr optr out x h
    simp only [pcm_loop1]
    rw [ih (iptr + step) (optr + 8) _ x (by omega)]
    rw [store32_outside _ (optr + 4) _ x (by omega)]
    exact store32_outside out optr _ x (by omega)

theorem pcm_loop1_word (conv : (Nat → Nat) → Nat → Nat) (step : Nat) (inm : Nat → Nat) :
    ∀ (count iptr optr : Nat) (out : Nat → Nat) (k : Nat), k < count →
      load32 (pcm_loop1 conv step inm count iptr optr out) (optr + 8 * k)
          = conv inm (iptr + step * k) % 2 ^ 32 ∧
      load32 (pcm_loop1 conv step inm count iptr optr out) (optr + 8 * k + 4)
          = conv inm (iptr + step * k) % 2 ^ 32 := by
  intro count
  induction count with
  | zero => intro iptr optr out k h; omega
  | succ n ih =>
    intro iptr optr out k h
    simp only [pcm_loop1]
    cases k with
    | zero =>
      simp only [Nat.mul_zero, Nat.add_zero]
      constructor
      · rw [load32_congr _ _ optr
          (fun x h1 h2 => pcm_loop1_outside conv step inm n _ _ _ x (by omega))]
        rw [load32_store32_disjoint _ _ _ _ (by omega)]
        exact load32_store32 out optr _
      · rw [load32_congr _ _ (optr + 4)
          (fun x h1 h2 => pcm_loop1_outside conv step inm n _ _ _ x (by omega))]
        rw [load32_store32, load32_store32]
        exact Nat.mod_mod _ _
    | succ j =>
      have := ih (iptr + step) (optr + 8)
        (store32 (store32 out optr (conv inm iptr)) (optr + 4)
          (load32 (store32 out optr (conv inm iptr)) optr)) j (by omega)
      have e1 : optr + 8 * (j + 1) = optr + 8 + 8 * j := by ring
      have e2 : iptr + step * (j + 1) = iptr + step + step * j := by ring
      rw [e1, e2]
      exact this

theorem pcm_loop2_reads (conv : (Nat → Nat) → Nat → Nat) (step : Nat) (hc : conv_local conv step)
    (inm inm' : Nat → Nat) :
    ∀ (count iptr optr : Nat) (out : Nat → Nat),
      (∀ x, iptr ≤ x → x < iptr + step * count → inm x = inm' x) →
      pcm_loop2 conv step inm count iptr optr out = pcm_loop2 conv step inm' count iptr optr out := by
  intro count
  induction count with
  | zero => intro iptr optr out _; rfl
  | succ n ih =>
    intro iptr optr out h
    simp only [pcm_loop2]
    have hmul : step * (n + 1) = step + step * n := by ring
    rw [hc inm inm' iptr (fun x h1 h2 => h x h1 (by omega))]
    exact ih (iptr + step) (optr + 4) _ (fun x h1 h2 => h x (by omega) (by omega))

theorem pcm_loop1_reads (conv : (Nat → Nat) → Nat → Nat) (step : Nat) (hc : conv_local conv step)
    (inm inm' : Nat → Nat) :
    ∀ (count iptr optr : Nat) (out : Nat → Nat),
      (∀ x, iptr ≤ x → x < iptr + step * count → inm x = inm' x) →
      pcm_loop1 conv step inm count iptr optr out = pcm_loop1 conv step inm' count iptr optr out := by
  intro count
  induction count with
  | zero => intro iptr optr out _; rfl
  | succ n ih =>
    intro iptr optr out h
    simp only [pcm_loop1]
    have hmul : step * (n + 1) = step + step * n := by ring
    rw [hc inm inm' iptr (fun x h1 h2 => h x h1 (by omega))]
    exact ih (iptr + step) (optr + 8) _ (fun x h1 h2 => h x (by omega) (by omega))

theorem conv8_local : conv_local conv8 1 := by
  intro m m' p h
  unfold conv8 rd8
  rw [h p (by omega) (by omega)]

theorem conv16be_local : conv_local conv16be 2 := by
  intro m m' p h
  unfold conv16be rd8
  rw [h p (by omega) (by omega), h (p + 1) (by omega) (by omega)]

theorem conv16le_local : conv_local conv16le 2 := by
  intro m m' p h
  unfold conv16le rd8
  rw [h p (by omega) (by omega), h (p + 1) (by omega) (by omega)]

theorem conv24be_local : conv_local conv24be 3 := by
  intro m m' p h
  unfold conv24be rd8
  rw [h p (by omega) (by omega), h (p + 1) (by omega) (by omega), h (p + 2) (by omega) (by omega)]

theorem conv24le_local : conv_local conv24le 3 := by
  intro m m' p h
  unfold conv24le rd8
  rw [h p (by omega) (by omega), h (p + 1) (by omega) (by omega), h (p + 2) (by omega) (by omega)]

/-! ### Ring arithmetic -/

theorem _buf_used_eq (b : buffer) (h : b.wf) :
    _buf_used b = if b.readp ≤ b.writep then b.writep - b.readp else b.writep + b.size - b.readp := by
  obtain ⟨hr, hw⟩ := h
  unfold _buf_used
  split
  · next hle =>
    have : b.writep + b.size - b.readp = (b.writep - b.readp) + b.size := by omega
    rw [this, Nat.add_mod_right]
    exact Nat.mod_eq_of_lt (by omega)
  · next hlt =>
    exact Nat.mod_eq_of_lt (by omega)

theorem _buf_used_lt (b : buffer) (h : b.wf) : _buf_used b < b.size := by
  unfold _buf_used
  exact Nat.mod_lt _ (by obtain ⟨hr, _⟩ := h; omega)

theorem _buf_cont_read_le (b : buffer) : _buf_cont_read b ≤ b.size - b.readp := by
  unfold _buf_cont_read; exact Nat.min_le_right _ _

theorem _buf_cont_write_le (b : buffer) : _buf_cont_write b ≤ b.size - b.writep := by
  unfold _buf_cont_write; exact Nat.min_le_right _ _

theorem ring_advance (p n size : Nat) (hp : p < size) (hn : n ≤ size - p) :
    (p + n) % size = if p + n = size then 0 else p + n := by
  split
  · next h => rw [h]; exact Nat.mod_self _
  · next h => exact Nat.mod_eq_of_lt (by omega)

/-! ### Effect of `set_track_start` and of `pcm_decode_run` on each global -/

theorem set_track_start_streambuf (rate : Nat) (w : World) :
    (set_track_start rate w).streambuf = w.streambuf := by
  unfold set_track_start _checkfade World.emit
  dsimp only
  split <;> rfl

theorem set_track_start_outputbuf (rate : Nat) (w : World) :
    (set_track_start rate w).outputbuf = w.outputbuf := by
  unfold set_track_start _checkfade World.emit
  dsimp only
  split <;> rfl

theorem set_track_start_stream (rate : Nat) (w : World) :
    (set_track_start rate w).stream = w.stream := by
  unfold set_track_start _checkfade World.emit
  dsimp only
  split <;> rfl

theorem set_track_start_output (rate : Nat) (w : World) :
    (set_track_start rate w).output =
      { w.output with next_sample_rate := rate, track_start := some w.outputbuf.writep } := by
  unfold set_track_start _checkfade World.emit
  dsimp only
  split <;> rfl

theorem set_track_start_new_stream (rate : Nat) (w : World) :
    (set_track_start rate w).decode.new_stream = false := by
  unfold set_track_start _checkfade World.emit
  dsimp only

theorem set_track_start_trace (rate : Nat) (w : World) :
    (set_track_start rate w).trace =
      if w.output.fade_mode ≠ 0 then w.trace ++ [Event.checkfade true] else w.trace := by
  unfold set_track_start _checkfade World.emit
  dsimp only
  split <;> rfl

theorem pcm_decode_run_mem (p : pcm) (w : World) :
    (pcm_decode_run p w).outputbuf.mem =
      pcm_unpack p w.streambuf.mem (u32 (pcm_frames p w * p.channels)) w.streambuf.readp
        w.outputbuf.writep w.outputbuf.mem := by
  unfold pcm_decode_run UNLOCK_S UNLOCK_O World.emit _buf_inc_readp _buf_inc_writep
  dsimp only
  split
  · rw [set_track_start_streambuf, set_track_start_outputbuf]
  · rfl

theorem pcm_decode_run_writep (p : pcm) (w : World) :
    (pcm_decode_run p w).outputbuf.writep =
      (w.outputbuf.writep + pcm_frames p w * BYTES_PER_FRAME) % w.outputbuf.size := by
  unfold pcm_decode_run UNLOCK_S UNLOCK_O World.emit _buf_inc_readp _buf_inc_writep
  dsimp only
  split
  · rw [set_track_start_outputbuf]
  · rfl

theorem pcm_decode_run_readp (p : pcm) (w : World) :
    (pcm_decode_run p w).streambuf.readp =
      (w.streambuf.readp + u32 (pcm_frames p w * p.channels * p.sample_size)) % w.streambuf.size := by
  unfold pcm_decode_run UNLOCK_S UNLOCK_O World.emit _buf_inc_readp _buf_inc_writep
  dsimp only
  split
  · rw [set_track_start_streambuf]
  · rfl

theorem pcm_decode_running (p : pcm) (w : World) (hd : u32 (p.channels * p.sample_size) ≠ 0)
    (hn : ¬ (w.stream.state ≤ DISCONNECT ∧ pcm_in p w = 0)) :
    pcm_decode p w = some (DECODE_RUNNING, pcm_decode_run p (LOCK_O (LOCK_S w))) := by
  unfold pcm_decode
  dsimp only
  rw [if_neg hd]
  have : ¬ ((LOCK_O (LOCK_S w)).stream.state ≤ DISCONNECT ∧ pcm_in p (LOCK_O (LOCK_S w)) = 0) := hn
  rw [if_neg this]

theorem pcm_decode_complete (p : pcm) (w : World) (hd : u32 (p.channels * p.sample_size) ≠ 0)
    (hn : w.stream.state ≤ DISCONNECT ∧ pcm_in p w = 0) :
    pcm_decode p w = some (DECODE_COMPLETE, UNLOCK_S (UNLOCK_O (LOCK_O (LOCK_S w)))) := by
  unfold pcm_decode
  dsimp only
  rw [if_neg hd]
  have : ((LOCK_O (LOCK_S w)).stream.state ≤ DISCONNECT ∧ pcm_in p (LOCK_O (LOCK_S w)) = 0) := hn
  rw [if_pos this]

/-! ### Shifts and ors of bytes as sums -/

theorem shl_or_eq_add (a b i : Nat) (h : b < 2 ^ i) : a <<< i ||| b = a * 2 ^ i + b := by
  rw [Nat.shiftLeft_eq, Nat.mul_comm a (2 ^ i), Nat.mul_add_lt_is_or h]

theorem conv8_eq (m : Nat → Nat) (p : Nat) : conv8 m p = rd8 m p * 2 ^ 24 := by
  have h0 := rd8_lt m p
  unfold conv8 u32
  rw [Nat.shiftLeft_eq]
  omega

theorem conv16be_eq (m : Nat → Nat) (p : Nat) :
    conv16be m p = rd8 m p * 2 ^ 24 + rd8 m (p + 1) * 2 ^ 16 := by
  have h0 := rd8_lt m p
  have h1 := rd8_lt m (p + 1)
  unfold conv16be u32
  rw [shl_or_eq_add _ _ _ (by rw [Nat.shiftLeft_eq]; omega), Nat.shiftLeft_eq]
  omega

theorem conv16le_eq (m : Nat → Nat) (p : Nat) :
    conv16le m p = rd8 m p * 2 ^ 16 + rd8 m (p + 1) * 2 ^ 24 := by
  have h0 := rd8_lt m p
  have h1 := rd8_lt m (p + 1)
  unfold conv16le u32
  rw [Nat.lor_comm, shl_or_eq_add _ _ _ (by rw [Nat.shiftLeft_eq]; omega), Nat.shiftLeft_eq]
  omega

theorem conv24be_eq (m : Nat → Nat) (p : Nat) :
    conv24be m p = rd8 m p * 2 ^ 24 + rd8 m (p + 1) * 2 ^ 16 + rd8 m (p + 2) * 2 ^ 8 := by
  have h0 := rd8_lt m p
  have h1 := rd8_lt m (p + 1)
  have h2 := rd8_lt m (p + 2)
  unfold conv24be u32
  rw [shl_or_eq_add (rd8 m p) _ 24 (by rw [Nat.shiftLeft_eq]; omega), Nat.shiftLeft_eq]
  have e : rd8 m p * 2 ^ 24 + rd8 m (p + 1) * 2 ^ 16
      = (rd8 m p * 2 ^ 8 + rd8 m (p + 1)) <<< 16 := by
    rw [Nat.shiftLeft_eq]; omega
  rw [e, shl_or_eq_add _ _ 16 (by rw [Nat.shiftLeft_eq]; omega), Nat.shiftLeft_eq]
  omega

theorem conv24le_eq (m : Nat → Nat) (p : Nat) :
    conv24le m p = rd8 m p * 2 ^ 8 + rd8 m (p + 1) * 2 ^ 16 + rd8 m (p + 2) * 2 ^ 24 := by
  have h0 := rd8_lt m p
  have h1 := rd8_lt m (p + 1)
  have h2 := rd8_lt m (p + 2)
  unfold conv24le u32
  rw [Nat.lor_comm (rd8 m p <<< 8) _,
    shl_or_eq_add (rd8 m (p + 1)) _ 16 (by rw [Nat.shiftLeft_eq]; omega), Nat.shiftLeft_eq,
    Nat.lor_comm, shl_or_eq_add (rd8 m (p + 2)) _ 24 (by omega)]
  omega

theorem pcm_frames_le (p : pcm) (w : World) : pcm_frames p w ≤ 4096 := by
  unfold pcm_frames MAX_DECODE_FRAMES
  exact Nat.min_le_right _ _

/-! ### The unpacking cascade -/

theorem pcm_unpack_stereo (p : pcm) (inm : Nat → Nat) (count iptr optr : Nat) (out : Nat → Nat)
    (k : Nat) (hch : p.channels = 2) (hk : k < count) :
    (p.sample_size = 1 →
      load32 (pcm_unpack p inm count iptr optr out) (optr + 4 * k) = conv8 inm (iptr + 1 * k)) ∧
    (p.sample_size = 2 → p.bigendian = true →
      load32 (pcm_unpack p inm count iptr optr out) (optr + 4 * k) = conv16be inm (iptr + 2 * k)) ∧
    (p.sample_size = 2 → p.bigendian = false →
      load32 (pcm_unpack p inm count iptr optr out) (optr + 4 * k) = conv16le inm (iptr + 2 * k)) ∧
    (p.sample_size = 3 → p.bigendian = true →
      load32 (pcm_unpack p inm count iptr optr out) (optr + 4 * k) = conv24be inm (iptr + 3 * k)) ∧
    (p.sample_size = 3 → p.bigendian = false →
      load32 (pcm_unpack p inm count iptr optr out) (optr + 4 * k) = conv24le inm (iptr + 3 * k)) := by
  refine ⟨?_, ?_, ?_, ?_, ?_⟩
  · intro hs
    simp only [pcm_unpack, hch, hs, if_true, if_false, OfNat.ofNat_ne_one, Nat.succ_ne_self]
    simp only [show (1 : Nat) ≠ 2 by decide, show (1 : Nat) ≠ 3 by decide, if_false]
    rw [pcm_loop2_word _ _ _ _ _ _ _ _ hk]
    exact Nat.mod_eq_of_lt (Nat.mod_lt _ (by decide))
  · intro hs hb
    simp only [pcm_unpack, hch, hs, hb, if_true]
    rw [pcm_loop2_word _ _ _ _ _ _ _ _ hk]
    exact Nat.mod_eq_of_lt (Nat.mod_lt _ (by decide))
  · intro hs hb
    simp only [pcm_unpack, hch, hs, hb, if_true, Bool.false_eq_true, if_false]
    rw [pcm_loop2_word _ _ _ _ _ _ _ _ hk]
    exact Nat.mod_eq_of_lt (Nat.mod_lt _ (by decide))
  · intro hs hb
    simp only [pcm_unpack, hch, hs, hb, if_true, show (3 : Nat) ≠ 2 by decide, if_false]
    rw [pcm_loop2_word _ _ _ _ _ _ _ _ hk]
    exact Nat.mod_eq_of_lt (Nat.mod_lt _ (by decide))
  · intro hs hb
    simp only [pcm_unpack, hch, hs, hb, if_true, show (3 : Nat) ≠ 2 by decide, if_false,
      Bool.false_eq_true]
    rw [pcm_loop2_word _ _ _ _ _ _ _ _ hk]
    exact Nat.mod_eq_of_lt (Nat.mod_lt _ (by decide))

theorem conv_mod (c : Nat) : u32 c % 2 ^ 32 = u32 c :=
  Nat.mod_eq_of_lt (Nat.mod_lt _ (by decide))

theorem pcm_unpack_mono (p : pcm) (inm : Nat → Nat) (count iptr optr : Nat) (out : Nat → Nat)
    (k : Nat) (hch : p.channels = 1) (hk : k < count) :
    (p.sample_size = 1 →
      load32 (pcm_unpack p inm count iptr optr out) (optr + 8 * k) = conv8 inm (iptr + 1 * k) ∧
      load32 (pcm_unpack p inm count iptr optr out) (optr + 8 * k + 4) = conv8 inm (iptr + 1 * k)) ∧
    (p.sample_size = 2 → p.bigendian = true →
      load32 (pcm_unpack p inm count iptr optr out) (optr + 8 * k) = conv16be inm (iptr + 2 * k) ∧
      load32 (pcm_unpack p inm count iptr optr out) (optr + 8 * k + 4)
        = conv16be inm (iptr + 2 * k)) ∧
    (p.sample_size = 2 → p.bigendian = false →
      load32 (pcm_unpack p inm count iptr optr out) (optr + 8 * k) = conv16le inm (iptr + 2 * k) ∧
      load32 (pcm_unpack p inm count iptr optr out) (optr + 8 * k + 4)
        = conv16le inm (iptr + 2 * k)) ∧
    (p.sample_size = 3 → p.bigendian = true →
      load32 (pcm_unpack p inm count iptr optr out) (optr + 8 * k) = conv24be inm (iptr + 3 * k) ∧
      load32 (pcm_unpack p inm count iptr optr out) (optr + 8 * k + 4)
        = conv24be inm (iptr + 3 * k)) ∧
    (p.sample_size = 3 → p.bigendian = false →
      load32 (pcm_unpack p inm count iptr optr out) (optr + 8 * k) = conv24le inm (iptr + 3 * k) ∧
      load32 (pcm_unpack p inm count iptr optr out) (optr + 8 * k + 4)
        = conv24le inm (iptr + 3 * k)) := by
  have h12 : (1 : Nat) ≠ 2 := by decide
  have h13 : (1 : Nat) ≠ 3 := by decide
  have h32 : (3 : Nat) ≠ 2 := by decide
  refine ⟨?_, ?_, ?_, ?_, ?_⟩
  · intro hs
    simp only [pcm_unpack, hch, hs, if_true, if_false, h12, h13]
    have := pcm_loop1_word conv8 1 inm count iptr optr out k hk
    rw [this.1, this.2]
    exact ⟨conv_mod _, conv_mod _⟩
  · intro hs hb
    simp only [pcm_unpack, hch, hs, hb, if_true, if_false, h12]
    have := pcm_loop1_word conv16be 2 inm count iptr optr out k hk
    rw [this.1, this.2]
    exact ⟨conv_mod _, conv_mod _⟩
  · intro hs hb
    simp only [pcm_unpack, hch, hs, hb, if_true, if_false, h12, Bool.false_eq_true]
    have := pcm_loop1_word conv16le 2 inm count iptr optr out k hk
    rw [this.1, this.2]
    exact ⟨conv_mod _, conv_mod _⟩
  · intro hs hb
    simp only [pcm_unpack, hch, hs, hb, if_true, if_false, h12, h32]
    have := pcm_loop1_word conv24be 3 inm count iptr optr out k hk
    rw [this.1, this.2]
    exact ⟨conv_mod _, conv_mod _⟩
  · intro hs hb
    simp only [pcm_unpack, hch, hs, hb, if_true, if_false, h12, h32, Bool.false_eq_true]
    have := pcm_loop1_word conv24le 3 inm count iptr optr out k hk
    rw [this.1, this.2]
    exact ⟨conv_mod _, conv_mod _⟩

/-- Every byte outside the `8 * frames` bytes at `optr` is left alone, when
`count` is the number of samples of `frames` frames. -/
theorem pcm_unpack_outside (p : pcm) (inm : Nat → Nat) (count frames iptr optr : Nat)
    (out : Nat → Nat) (x : Nat)
    (h2 : p.channels = 2 → count = 2 * frames) (h1 : p.channels = 1 → count = frames)
    (hx : x < optr ∨ optr + 8 * frames ≤ x) :
    pcm_unpack p inm count iptr optr out x = out x := by
  unfold pcm_unpack
  split
  · next hch =>
    have hc := h2 hch
    have hx' : x < optr ∨ optr + 4 * count ≤ x := by omega
    split
    · split <;> exact pcm_loop2_outside _ _ _ _ _ _ _ _ hx'
    · split
      · split <;> exact pcm_loop2_outside _ _ _ _ _ _ _ _ hx'
      · split
        · exact pcm_loop2_outside _ _ _ _ _ _ _ _ hx'
        · rfl
  · split
    · next hch =>
      have hc := h1 hch
      have hx' : x < optr ∨ optr + 8 * count ≤ x := by omega
      split
      · split <;> exact pcm_loop1_outside _ _ _ _ _ _ _ _ hx'
      · split
        · split <;> exact pcm_loop1_outside _ _ _ _ _ _ _ _ hx'
        · split
          · exact pcm_loop1_outside _ _ _ _ _ _ _ _ hx'
          · rfl
    · rfl

/-- The unpacking cascade reads only the `count * sample_size` bytes at `iptr`. -/
theorem pcm_unpack_reads (p : pcm) (inm inm' : Nat → Nat) (count iptr optr : Nat) (out : Nat → Nat)
    (h : ∀ x, iptr ≤ x → x < iptr + p.sample_size * count → inm x = inm' x) :
    pcm_unpack p inm count iptr optr out = pcm_unpack p inm' count iptr optr out := by
  unfold pcm_unpack
  split
  · split
    · next hs =>
      rw [hs] at h
      split
      · exact pcm_loop2_reads _ _ conv16be_local _ _ _ _ _ _ h
      · exact pcm_loop2_reads _ _ conv16le_local _ _ _ _ _ _ h
    · split
      · next hs =>
        rw [hs] at h
        split
        · exact pcm_loop2_reads _ _ conv24be_local _ _ _ _ _ _ h
        · exact pcm_loop2_reads _ _ conv24le_local _ _ _ _ _ _ h
      · split
        · next hs =>
          rw [hs] at h
          exact pcm_loop2_reads _ _ conv8_local _ _ _ _ _ _ h
        · rfl
  · split
    · split
      · next hs =>
        rw [hs] at h
        split
        · exact pcm_loop1_reads _ _ conv16be_local _ _ _ _ _ _ h
        · exact pcm_loop1_reads _ _ conv16le_local _ _ _ _ _ _ h
      · split
        · next hs =>
          rw [hs] at h
          split
          · exact pcm_loop1_reads _ _ conv24be_local _ _ _ _ _ _ h
          · exact pcm_loop1_reads _ _ conv24le_local _ _ _ _ _ _ h
        · split
          · next hs =>
            rw [hs] at h
            exact pcm_loop1_reads _ _ conv8_local _ _ _ _ _ _ h
          · rfl
    · rfl

theorem pcm_decode_run_mem_locked (p : pcm) (w : World) :
    (pcm_decode_run p (LOCK_O (LOCK_S w))).outputbuf.mem =
      pcm_unpack p w.streambuf.mem (u32 (pcm_frames p w * p.channels)) w.streambuf.readp
        w.outputbuf.writep w.outputbuf.mem :=
  pcm_decode_run_mem p (LOCK_O (LOCK_S w))

theorem pcm_divisor_ne_zero (p : pcm) (hch : p.channels = 1 ∨ p.channels = 2)
    (hss : p.sample_size = 1 ∨ p.sample_size = 2 ∨ p.sample_size = 3) :
    u32 (p.channels * p.sample_size) ≠ 0 := by
  unfold u32
  rcases hch with h | h <;> rcases hss with h' | h' | h' <;> rw [h, h'] <;> decide

/-- C1: for stereo input, a call of `pcm_decode` that is not at end of stream
returns RUNNING and, for every `k` below twice the number of frames decoded,
the `k`-th 32-bit output word is the formula of the spec applied to the bytes
`b0 b1 b2` of the `k`-th input sample, modulo `2^32`: `b0 << 24` for 8 bit,
`(b0 << 24) | (b1 << 16)` for 16-bit big-endian, `(b0 << 16) | (b1 << 24)` for
16-bit little-endian (which is the sample value `b0 + 256 * b1` shifted left by
16; words `2i` and `2i+1` are the left and right lane of frame `i`),
`(b0 << 24) | (b1 << 16) | (b2 << 8)` for 24-bit big-endian and
`(b0 << 8) | (b1 << 16) | (b2 << 24)` for 24-bit little-endian; the low
`32 - 8 * sample_size` bits of every such word are zero. -/
theorem pcm_decode_stereo (p : pcm) (w : World) (hch : p.channels = 2)
    (hss : p.sample_size = 1 ∨ p.sample_size = 2 ∨ p.sample_size = 3)
    (hrun : ¬ (w.stream.state ≤ DISCONNECT ∧ pcm_in p w = 0)) :
    ∃ w', pcm_decode p w = some (DECODE_RUNNING, w') ∧
      ∀ k, k < 2 * pcm_frames p w →
        (p.sample_size = 1 → out_word w w' k = (in_byte p w k 0 <<< 24) % 2 ^ 32) ∧
        (p.sample_size = 2 → p.bigendian = true →
          out_word w w' k = (in_byte p w k 0 <<< 24 ||| in_byte p w k 1 <<< 16) % 2 ^ 32) ∧
        (p.sample_size = 2 → p.bigendian = false →
          out_word w w' k = (in_byte p w k 0 <<< 16 ||| in_byte p w k 1 <<< 24) % 2 ^ 32 ∧
          out_word w w' k = ((in_byte p w k 0 + 256 * in_byte p w k 1) <<< 16) % 2 ^ 32) ∧
        (p.sample_size = 3 → p.bigendian = true →
          out_word w w' k =
            (in_byte p w k 0 <<< 24 ||| in_byte p w k 1 <<< 16 ||| in_byte p w k 2 <<< 8)
              % 2 ^ 32) ∧
        (p.sample_size = 3 → p.bigendian = false →
          out_word w w' k =
            (in_byte p w k 0 <<< 8 ||| in_byte p w k 1 <<< 16 ||| in_byte p w k 2 <<< 24)
              % 2 ^ 32) ∧
        out_word w w' k % 2 ^ (32 - 8 * p.sample_size) = 0 := by
  have hd := pcm_divisor_ne_zero p (Or.inr hch) hss
  refine ⟨_, pcm_decode_running p w hd hrun, ?_⟩
  intro k hk
  have hcount : u32 (pcm_frames p w * p.channels) = 2 * pcm_frames p w := by
    rw [hch]; unfold u32; have := pcm_frames_le p w; omega
  have hk' : k < u32 (pcm_frames p w * p.channels) := by omega
  have hu := pcm_unpack_stereo p w.streambuf.mem (u32 (pcm_frames p w * p.channels))
    w.streambuf.readp w.outputbuf.writep w.outputbuf.mem k hch hk'
  have hmem := pcm_decode_run_mem_locked p w
  obtain ⟨h8, h16b, h16l, h24b, h24l⟩ := hu
  have e8 : p.sample_size = 1 →
      out_word w (pcm_decode_run p (LOCK_O (LOCK_S w))) k = conv8 w.streambuf.mem
        (w.streambuf.readp + 1 * k) := by
    intro hs; unfold out_word; rw [hmem]; exact h8 hs
  have e16b : p.sample_size = 2 → p.bigendian = true →
      out_word w (pcm_decode_run p (LOCK_O (LOCK_S w))) k = conv16be w.streambuf.mem
        (w.streambuf.readp + 2 * k) := by
    intro hs hb; unfold out_word; rw [hmem]; exact h16b hs hb
  have e16l : p.sample_size = 2 → p.bigendian = false →
      out_word w (pcm_decode_run p (LOCK_O (LOCK_S w))) k = conv16le w.streambuf.mem
        (w.streambuf.readp + 2 * k) := by
    intro hs hb; unfold out_word; rw [hmem]; exact h16l hs hb
  have e24b : p.sample_size = 3 → p.bigendian = true →
      out_word w (pcm_decode_run p (LOCK_O (LOCK_S w))) k = conv24be w.streambuf.mem
        (w.streambuf.readp + 3 * k) := by
    intro hs hb; unfold out_word; rw [hmem]; exact h24b hs hb
  have e24l : p.sample_size = 3 → p.bigendian = false →
      out_word w (pcm_decode_run p (LOCK_O (LOCK_S w))) k = conv24le w.streambuf.mem
        (w.streambuf.readp + 3 * k) := by
    intro hs hb; unfold out_word; rw [hmem]; exact h24l hs hb
  refine ⟨?_, ?_, ?_, ?_, ?_, ?_⟩
  · intro hs
    rw [e8 hs]; unfold in_byte; rw [hs]; rfl
  · intro hs hb
    rw [e16b hs hb]; unfold in_byte; rw [hs]; rfl
  · intro hs hb
    rw [e16l hs hb]
    refine ⟨by unfold in_byte; rw [hs]; rfl, ?_⟩
    rw [conv16le_eq]
    unfold in_byte
    rw [hs, Nat.shiftLeft_eq]
    have h0 := rd8_lt w.streambuf.mem (w.streambuf.readp + 2 * k)
    have h1 := rd8_lt w.streambuf.mem (w.streambuf.readp + 2 * k + 1)
    simp only [Nat.add_zero]
    omega
  · intro hs hb
    rw [e24b hs hb]; unfold in_byte; rw [hs]; rfl
  · intro hs hb
    rw [e24l hs hb]; unfold in_byte; rw [hs]; rfl
  · rcases hss with hs | hs | hs
    · rw [e8 hs, hs, conv8_eq]
      show _ % 2 ^ 24 = 0
      omega
    · cases hb : p.bigendian
      · rw [e16l hs hb, hs, conv16le_eq]
        show _ % 2 ^ 16 = 0
        omega
      · rw [e16b hs hb, hs, conv16be_eq]
        show _ % 2 ^ 16 = 0
        omega
    · cases hb : p.bigendian
      · rw [e24l hs hb, hs, conv24le_eq]
        show _ % 2 ^ 8 = 0
        omega
      · rw [e24b hs hb, hs, conv24be_eq]
        show _ % 2 ^ 8 = 0
        omega

/-- Witness of C1 on scenario S1: two words are decoded and both have their
low 16 bits clear. -/
theorem pcm_decode_stereo_witness :
    S1_pcm.channels = 2 ∧
    (S1_pcm.sample_size = 1 ∨ S1_pcm.sample_size = 2 ∨ S1_pcm.sample_size = 3) ∧
    ¬ (S1_world.stream.state ≤ DISCONNECT ∧ pcm_in S1_pcm S1_world = 0) ∧
    2 * pcm_frames S1_pcm S1_world = 2 ∧
    ∃ w', pcm_decode S1_pcm S1_world = some (DECODE_RUNNING, w') ∧
      ∀ k, k < 2 * pcm_frames S1_pcm S1_world →
        out_word S1_world w' k % 2 ^ (32 - 8 * S1_pcm.sample_size) = 0 := by
  refine ⟨rfl, Or.inr (Or.inl rfl), by decide, by decide, ?_⟩
  obtain ⟨w', h1, h2⟩ :=
    pcm_decode_stereo S1_pcm S1_world rfl (Or.inr (Or.inl rfl)) (by decide)
  exact ⟨w', h1, fun k hk => (h2 k hk).2.2.2.2.2⟩

theorem pcm_decode_run_readp_locked (p : pcm) (w : World) :
    (pcm_decode_run p (LOCK_O (LOCK_S w))).streambuf.readp =
      (w.streambuf.readp + u32 (pcm_frames p w * p.channels * p.sample_size))
        % w.streambuf.size :=
  pcm_decode_run_readp p (LOCK_O (LOCK_S w))

theorem pcm_decode_run_writep_locked (p : pcm) (w : World) :
    (pcm_decode_run p (LOCK_O (LOCK_S w))).outputbuf.writep =
      (w.outputbuf.writep + pcm_frames p w * BYTES_PER_FRAME) % w.outputbuf.size :=
  pcm_decode_run_writep p (LOCK_O (LOCK_S w))

/-- C2: for mono input, a call of `pcm_decode` that is not at end of stream
returns RUNNING and every decoded frame `i` has its right lane (word `2i+1`)
equal to its left lane (word `2i`), both being the converted value of input
sample `i`: the same formula, and the same value, as the stereo conversion
gives that sample (8-bit input `b` yields `b << 24` in both lanes).  The read
pointer moves by `frames * sample_size`, one sample per frame. -/
theorem pcm_decode_mono (p : pcm) (w : World) (hch : p.channels = 1)
    (hss : p.sample_size = 1 ∨ p.sample_size = 2 ∨ p.sample_size = 3)
    (hrun : ¬ (w.stream.state ≤ DISCONNECT ∧ pcm_in p w = 0)) :
    ∃ w', pcm_decode p w = some (DECODE_RUNNING, w') ∧
      (∀ i, i < pcm_frames p w →
        out_word w w' (2 * i + 1) = out_word w w' (2 * i) ∧
        (p.sample_size = 1 → out_word w w' (2 * i) = (in_byte p w i 0 <<< 24) % 2 ^ 32) ∧
        (p.sample_size = 2 → p.bigendian = true →
          out_word w w' (2 * i) = (in_byte p w i 0 <<< 24 ||| in_byte p w i 1 <<< 16) % 2 ^ 32) ∧
        (p.sample_size = 2 → p.bigendian = false →
          out_word w w' (2 * i) = (in_byte p w i 0 <<< 16 ||| in_byte p w i 1 <<< 24) % 2 ^ 32) ∧
        (p.sample_size = 3 → p.bigendian = true →
          out_word w w' (2 * i) =
            (in_byte p w i 0 <<< 24 ||| in_byte p w i 1 <<< 16 ||| in_byte p w i 2 <<< 8)
              % 2 ^ 32) ∧
        (p.sample_size = 3 → p.bigendian = false →
          out_word w w' (2 * i) =
            (in_byte p w i 0 <<< 8 ||| in_byte p w i 1 <<< 16 ||| in_byte p w i 2 <<< 24)
              % 2 ^ 32) ∧
        (∀ (count : Nat) (out : Nat → Nat), i < count →
          out_word w w' (2 * i) =
            load32 (pcm_unpack { p with channels := 2 } w.streambuf.mem count
              w.streambuf.readp 0 out) (0 + 4 * i))) ∧
      w'.streambuf.readp =
        (w.streambuf.readp + pcm_frames p w * p.sample_size) % w.streambuf.size := by
  have hd := pcm_divisor_ne_zero p (Or.inl hch) hss
  refine ⟨_, pcm_decode_running p w hd hrun, ?_, ?_⟩
  · intro i hi
    have hcount : u32 (pcm_frames p w * p.channels) = pcm_frames p w := by
      rw [hch]; unfold u32; have := pcm_frames_le p w; omega
    have hk' : i < u32 (pcm_frames p w * p.channels) := by omega
    have hu := pcm_unpack_mono p w.streambuf.mem (u32 (pcm_frames p w * p.channels))
      w.streambuf.readp w.outputbuf.writep w.outputbuf.mem i hch hk'
    have hst : ∀ (count : Nat) (out : Nat → Nat), i < count → _ :=
      fun count out hc => pcm_unpack_stereo { p with channels := 2 } w.streambuf.mem count
        w.streambuf.readp 0 out i rfl hc
    have hmem := pcm_decode_run_mem_locked p w
    have a0 : w.outputbuf.writep + 4 * (2 * i) = w.outputbuf.writep + 8 * i := by omega
    have a1 : w.outputbuf.writep + 4 * (2 * i + 1) = w.outputbuf.writep + 8 * i + 4 := by omega
    obtain ⟨h8, h16b, h16l, h24b, h24l⟩ := hu
    have e8 : p.sample_size = 1 →
        out_word w (pcm_decode_run p (LOCK_O (LOCK_S w))) (2 * i) = conv8 w.streambuf.mem
          (w.streambuf.readp + 1 * i) ∧
        out_word w (pcm_decode_run p (LOCK_O (LOCK_S w))) (2 * i + 1) = conv8 w.streambuf.mem
          (w.streambuf.readp + 1 * i) := by
      intro hs; unfold out_word; rw [hmem, a0, a1]; exact h8 hs
    have e16b : p.sample_size = 2 → p.bigendian = true →
        out_word w (pcm_decode_run p (LOCK_O (LOCK_S w))) (2 * i) = conv16be w.streambuf.mem
          (w.streambuf.readp + 2 * i) ∧
        out_word w (pcm_decode_run p (LOCK_O (LOCK_S w))) (2 * i + 1) = conv16be w.streambuf.mem
          (w.streambuf.readp + 2 * i) := by
      intro hs hb; unfold out_word; rw [hmem, a0, a1]; exact h16b hs hb
    have e16l : p.sample_size = 2 → p.bigendian = false →
        out_word w (pcm_decode_run p (LOCK_O (LOCK_S w))) (2 * i) = conv16le w.streambuf.mem
          (w.streambuf.readp + 2 * i) ∧
        out_word w (pcm_decode_run p (LOCK_O (LOCK_S w))) (2 * i + 1) = conv16le w.streambuf.mem
          (w.streambuf.readp + 2 * i) := by
      intro hs hb; unfold out_word; rw [hmem, a0, a1]; exact h16l hs hb
    have e24b : p.sample_size = 3 → p.bigendian = true →
        out_word w (pcm_decode_run p (LOCK_O (LOCK_S w))) (2 * i) = conv24be w.streambuf.mem
          (w.streambuf.readp + 3 * i) ∧
        out_word w (pcm_decode_run p (LOCK_O (LOCK_S w))) (2 * i + 1) = conv24be w.streambuf.mem
          (w.streambuf.readp + 3 * i) := by
      intro hs hb; unfold out_word; rw [hmem, a0, a1]; exact h24b hs hb
    have e24l : p.sample_size = 3 → p.bigendian = false →
        out_word w (pcm_decode_run p (LOCK_O (LOCK_S w))) (2 * i) = conv24le w.streambuf.mem
          (w.streambuf.readp + 3 * i) ∧
        out_word w (pcm_decode_run p (LOCK_O (LOCK_S w))) (2 * i + 1) = conv24le w.streambuf.mem
          (w.streambuf.readp + 3 * i) := by
      intro hs hb; unfold out_word; rw [hmem, a0, a1]; exact h24l hs hb
    refine ⟨?_, ?_, ?_, ?_, ?_, ?_, ?_⟩
    · rcases hss with hs | hs | hs
      · rw [(e8 hs).1, (e8 hs).2]
      · cases hb : p.bigendian
        · rw [(e16l hs hb).1, (e16l hs hb).2]
        · rw [(e16b hs hb).1, (e16b hs hb).2]
      · cases hb : p.bigendian
        · rw [(e24l hs hb).1, (e24l hs hb).2]
        · rw [(e24b hs hb).1, (e24b hs hb).2]
    · intro hs
      rw [(e8 hs).1]; unfold in_byte; rw [hs]; rfl
    · intro hs hb
      rw [(e16b hs hb).1]; unfold in_byte; rw [hs]; rfl
    · intro hs hb
      rw [(e16l hs hb).1]; unfold in_byte; rw [hs]; rfl
    · intro hs hb
      rw [(e24b hs hb).1]; unfold in_byte; rw [hs]; rfl
    · intro hs hb
      rw [(e24l hs hb).1]; unfold in_byte; rw [hs]; rfl
    · intro count out hc
      obtain ⟨s8, s16b, s16l, s24b, s24l⟩ := hst count out hc
      rcases hss with hs | hs | hs
      · rw [(e8 hs).1]; exact (s8 hs).symm
      · rcases Bool.eq_false_or_eq_true p.bigendian with hb | hb
        · rw [(e16b hs hb).1]; exact (s16b hs hb).symm
        · rw [(e16l hs hb).1]; exact (s16l hs hb).symm
      · rcases Bool.eq_false_or_eq_true p.bigendian with hb | hb
        · rw [(e24b hs hb).1]; exact (s24b hs hb).symm
        · rw [(e24l hs hb).1]; exact (s24l hs hb).symm
  · rw [pcm_decode_run_readp_locked, hch]
    have hf := pcm_frames_le p w
    have : u32 (pcm_frames p w * 1 * p.sample_size) = pcm_frames p w * p.sample_size := by
      unfold u32
      rw [Nat.mul_one]
      apply Nat.mod_eq_of_lt
      rcases hss with hs | hs | hs <;> rw [hs] <;> omega
    rw [this]

/-- Witness of C2: one 8-bit mono frame is decoded from the stream of scenario S1. -/
theorem pcm_decode_mono_witness :
    mono8_pcm.channels = 1 ∧
    (mono8_pcm.sample_size = 1 ∨ mono8_pcm.sample_size = 2 ∨ mono8_pcm.sample_size = 3) ∧
    ¬ (S1_world.stream.state ≤ DISCONNECT ∧ pcm_in mono8_pcm S1_world = 0) ∧
    pcm_frames mono8_pcm S1_world = 4 ∧
    ∃ w', pcm_decode mono8_pcm S1_world = some (DECODE_RUNNING, w') ∧
      ∀ i, i < pcm_frames mono8_pcm S1_world →
        out_word S1_world w' (2 * i + 1) = out_word S1_world w' (2 * i) := by
  refine ⟨rfl, Or.inl rfl, by decide, by decide, ?_⟩
  obtain ⟨w', h1, h2, _⟩ :=
    pcm_decode_mono mono8_pcm S1_world rfl (Or.inl rfl) (by decide)
  exact ⟨w', h1, fun i hi => (h2 i hi).1⟩

theorem pcm_in_mul_le (p : pcm) (w : World) :
    pcm_in p w * u32 (p.channels * p.sample_size)
      ≤ min (_buf_used w.streambuf) (_buf_cont_read w.streambuf) := by
  unfold pcm_in
  exact Nat.div_mul_le_self _ _

theorem pcm_out_mul_le (w : World) :
    pcm_out w * 8 ≤ min (_buf_space w.outputbuf) (_buf_cont_write w.outputbuf) := by
  unfold pcm_out BYTES_PER_FRAME
  exact Nat.div_mul_le_self _ _

theorem pcm_frames_le_in (p : pcm) (w : World) : pcm_frames p w ≤ pcm_in p w := by
  unfold pcm_frames
  exact Nat.le_trans (Nat.min_le_left _ _) (Nat.min_le_left _ _)

theorem pcm_frames_le_out (p : pcm) (w : World) : pcm_frames p w ≤ pcm_out w := by
  unfold pcm_frames
  exact Nat.le_trans (Nat.min_le_left _ _) (Nat.min_le_right _ _)

theorem pcm_frames_read_le (p : pcm) (w : World) :
    pcm_frames p w * u32 (p.channels * p.sample_size)
      ≤ min (_buf_used w.streambuf) (_buf_cont_read w.streambuf) :=
  Nat.le_trans (Nat.mul_le_mul_right _ (pcm_frames_le_in p w)) (pcm_in_mul_le p w)

theorem pcm_frames_write_le (p : pcm) (w : World) :
    pcm_frames p w * 8 ≤ min (_buf_space w.outputbuf) (_buf_cont_write w.outputbuf) :=
  Nat.le_trans (Nat.mul_le_mul_right _ (pcm_frames_le_out p w)) (pcm_out_mul_le w)

theorem u32_mul_le (f c s : Nat) : u32 (f * c * s) ≤ f * u32 (c * s) := by
  unfold u32
  have h : f * c * s % 2 ^ 32 = f * (c * s % 2 ^ 32) % 2 ^ 32 := by
    rw [Nat.mul_assoc, Nat.mul_mod_mod]
  rw [h]
  exact Nat.mod_le _ _

theorem u32_mul_eq (f c s : Nat) (h : f * u32 (c * s) < 2 ^ 32) :
    u32 (f * c * s) = f * u32 (c * s) := by
  unfold u32 at *
  have e : f * c * s % 2 ^ 32 = f * (c * s % 2 ^ 32) % 2 ^ 32 := by
    rw [Nat.mul_assoc, Nat.mul_mod_mod]
  rw [e]
  exact Nat.mod_eq_of_lt h

/-- With a configuration that no branch of the cascade handles, nothing is written. -/
theorem pcm_unpack_unsupported (p : pcm) (inm : Nat → Nat) (count iptr optr : Nat)
    (out : Nat → Nat)
    (h : ¬ ((p.channels = 1 ∨ p.channels = 2) ∧
      (p.sample_size = 1 ∨ p.sample_size = 2 ∨ p.sample_size = 3))) :
    pcm_unpack p inm count iptr optr out = out := by
  unfold pcm_unpack
  split
  · next hch =>
    split
    · next hs => exact absurd ⟨Or.inr hch, Or.inr (Or.inl hs)⟩ h
    · split
      · next hs => exact absurd ⟨Or.inr hch, Or.inr (Or.inr hs)⟩ h
      · split
        · next hs => exact absurd ⟨Or.inr hch, Or.inl hs⟩ h
        · rfl
  · split
    · next hch =>
      split
      · next hs => exact absurd ⟨Or.inl hch, Or.inr (Or.inl hs)⟩ h
      · split
        · next hs => exact absurd ⟨Or.inl hch, Or.inr (Or.inr hs)⟩ h
        · split
          · next hs => exact absurd ⟨Or.inl hch, Or.inl hs⟩ h
          · rfl
    · rfl

theorem pcm_decode_run_outside (p : pcm) (w : World) (x : Nat)
    (hx : x < w.outputbuf.writep ∨ w.outputbuf.writep + 8 * pcm_frames p w ≤ x) :
    (pcm_decode_run p w).outputbuf.mem x = w.outputbuf.mem x := by
  rw [pcm_decode_run_mem]
  have hf := pcm_frames_le p w
  apply pcm_unpack_outside p _ _ (pcm_frames p w) _ _ _ x _ _ hx
  · intro hch; rw [hch]; unfold u32; omega
  · intro hch; rw [hch]; unfold u32; omega

/-- The bytes `pcm_decode` reads all lie in the
`frames * channels * sample_size` bytes at the read pointer. -/
theorem pcm_unpack_reads_frames (p : pcm) (inm inm' : Nat → Nat) (frames iptr optr : Nat)
    (out : Nat → Nat) (hf : frames ≤ 4096)
    (h : ∀ x, iptr ≤ x → x < iptr + u32 (frames * p.channels * p.sample_size) → inm x = inm' x) :
    pcm_unpack p inm (u32 (frames * p.channels)) iptr optr out
      = pcm_unpack p inm' (u32 (frames * p.channels)) iptr optr out := by
  by_cases hc : (p.channels = 1 ∨ p.channels = 2) ∧
      (p.sample_size = 1 ∨ p.sample_size = 2 ∨ p.sample_size = 3)
  · have e : u32 (frames * p.channels * p.sample_size)
        = p.sample_size * u32 (frames * p.channels) := by
      unfold u32
      obtain ⟨hch, hss⟩ := hc
      rcases hch with hch | hch <;> rcases hss with hss | hss | hss <;> rw [hch, hss] <;>
        rw [Nat.mod_eq_of_lt (by omega), Nat.mod_eq_of_lt (by omega)] <;> omega
    apply pcm_unpack_reads
    intro x h1 h2
    apply h x h1
    rw [e]
    exact h2
  · rw [pcm_unpack_unsupported p inm _ _ _ _ hc, pcm_unpack_unsupported p inm' _ _ _ _ hc]

/-- C3 (as stated): in scenario S1 the first `pcm_decode` does not produce the
words `0x00000100` and `0x7FFF0000`. -/
theorem S1_words_counterexample :
    ¬ ∃ p w w', pcm_open 49 51 50 49 S1_world = some (p, w) ∧
      pcm_decode p w = some (DECODE_RUNNING, w') ∧
      out_word w w' 0 = 0x00000100 ∧ out_word w w' 1 = 0x7FFF0000 := by
  rintro ⟨p, w, w', h1, h2, h3, _⟩
  have e1 : pcm_open 49 51 50 49 S1_world = some (S1_pcm, S1_opened) := rfl
  rw [e1] at h1
  injection h1 with h1
  injection h1 with hp hw
  subst hp; subst hw
  have e2 : pcm_decode S1_pcm S1_opened
      = some (DECODE_RUNNING, pcm_decode_run S1_pcm (LOCK_O (LOCK_S S1_opened))) := rfl
  rw [e2] at h2
  injection h2 with h2
  injection h2 with _ hw'
  subst hw'
  revert h3
  decide

/-- C3 (amended): in scenario S1, `pcm_open('1', '3', '2', '1')` configures
16-bit little-endian stereo at 44100 Hz, and the first `pcm_decode` returns
RUNNING, consumes the four stream bytes `00 01 FF 7F`, advances the write
pointer by 8 and writes exactly the 8 bytes of the words `0x01000000` (left)
and `0x7FFF0000` (right): every byte outside them is untouched. -/
theorem S1_pcm_decode :
    ∃ p w w', pcm_open 49 51 50 49 S1_world = some (p, w) ∧
      p.sample_size = 2 ∧ p.sample_rate = 44100 ∧ p.channels = 2 ∧ p.bigendian = false ∧
      _buf_used w.streambuf = 4 ∧
      read_bytes w.streambuf.mem w.streambuf.readp 4 = [0x00, 0x01, 0xFF, 0x7F] ∧
      DISCONNECT < w.stream.state ∧
      pcm_decode p w = some (DECODE_RUNNING, w') ∧
      w'.streambuf.readp = w.streambuf.readp + 4 ∧
      w'.outputbuf.writep = w.outputbuf.writep + 8 ∧
      out_word w w' 0 = 0x01000000 ∧ out_word w w' 1 = 0x7FFF0000 ∧
      ∀ x, x < w.outputbuf.writep ∨ w.outputbuf.writep + 8 ≤ x →
        w'.outputbuf.mem x = w.outputbuf.mem x := by
  refine ⟨S1_pcm, S1_opened, pcm_decode_run S1_pcm (LOCK_O (LOCK_S S1_opened)),
    rfl, rfl, rfl, rfl, rfl, by decide, by decide, by decide, rfl, by decide, by decide,
    by decide, by decide, ?_⟩
  intro x hx
  exact pcm_decode_run_outside S1_pcm (LOCK_O (LOCK_S S1_opened)) x hx

/-- C4: when `channels * sample_size` (as a 32-bit product) is positive, a
call of `pcm_decode` that is not at end of stream returns RUNNING having decoded
`frames = min(in, out, 4096)` frames, with `in` the readable bytes
`min(used, contiguous_read)` divided by the frame size and `out` the writable
bytes `min(space, contiguous_write)` divided by 8.  The read pointer advances
by `frames * channels * sample_size` and the write pointer by `frames * 8`
(around the ring).  So at most 4096 frames are decoded, only whole input frames
are consumed (6 bytes out of 7 readable with 6-byte frames), the output
depends on no stream byte beyond the consumed ones, which lie inside the
contiguous readable span, and no byte outside the `frames * 8` bytes at the
write pointer, which lie inside the contiguous free span, is written. -/
theorem pcm_decode_frames (p : pcm) (w : World) (hd : 0 < u32 (p.channels * p.sample_size))
    (hrun : ¬ (w.stream.state ≤ DISCONNECT ∧ pcm_in p w = 0)) :
    ∃ w', pcm_decode p w = some (DECODE_RUNNING, w') ∧
      pcm_frames p w =
        min (min (min (_buf_used w.streambuf) (_buf_cont_read w.streambuf)
                    / u32 (p.channels * p.sample_size))
                 (min (_buf_space w.outputbuf) (_buf_cont_write w.outputbuf) / 8)) 4096 ∧
      w'.streambuf.readp =
        (w.streambuf.readp + u32 (pcm_frames p w * p.channels * p.sample_size))
          % w.streambuf.size ∧
      w'.outputbuf.writep = (w.outputbuf.writep + pcm_frames p w * 8) % w.outputbuf.size ∧
      pcm_frames p w ≤ MAX_DECODE_FRAMES ∧
      u32 (pcm_frames p w * p.channels * p.sample_size)
        ≤ pcm_frames p w * u32 (p.channels * p.sample_size) ∧
      (w.streambuf.size ≤ 2 ^ 32 →
        u32 (pcm_frames p w * p.channels * p.sample_size)
          = pcm_frames p w * u32 (p.channels * p.sample_size)) ∧
      (u32 (p.channels * p.sample_size) = 6 →
        min (_buf_used w.streambuf) (_buf_cont_read w.streambuf) = 7 → 1 ≤ pcm_out w →
        u32 (pcm_frames p w * p.channels * p.sample_size) = 6) ∧
      pcm_frames p w * u32 (p.channels * p.sample_size)
        ≤ min (_buf_used w.streambuf) (_buf_cont_read w.streambuf) ∧
      pcm_frames p w * u32 (p.channels * p.sample_size) ≤ w.streambuf.size - w.streambuf.readp ∧
      (∀ (m : Nat → Nat) (w2 : World),
        (∀ x, w.streambuf.readp ≤ x →
          x < w.streambuf.readp + u32 (pcm_frames p w * p.channels * p.sample_size) →
          w.streambuf.mem x = m x) →
        pcm_decode p { w with streambuf := { w.streambuf with mem := m } }
          = some (DECODE_RUNNING, w2) →
        w2.outputbuf.mem = w'.outputbuf.mem) ∧
      pcm_frames p w * 8 ≤ min (_buf_space w.outputbuf) (_buf_cont_write w.outputbuf) ∧
      pcm_frames p w * 8 ≤ w.outputbuf.size - w.outputbuf.writep ∧
      (∀ x, x < w.outputbuf.writep ∨ w.outputbuf.writep + pcm_frames p w * 8 ≤ x →
        w'.outputbuf.mem x = w.outputbuf.mem x) := by
  have hd' : u32 (p.channels * p.sample_size) ≠ 0 := by omega
  have hr := pcm_frames_read_le p w
  have hw := pcm_frames_write_le p w
  refine ⟨_, pcm_decode_running p w hd' hrun, rfl, pcm_decode_run_readp_locked p w,
    pcm_decode_run_writep_locked p w, pcm_frames_le p w, u32_mul_le _ _ _, ?_, ?_, hr, ?_, ?_,
    hw, ?_, ?_⟩
  · intro hsz
    apply u32_mul_eq
    have h1 : _buf_cont_read w.streambuf ≤ w.streambuf.size - w.streambuf.readp :=
      _buf_cont_read_le _
    have h2 : min (_buf_used w.streambuf) (_buf_cont_read w.streambuf)
        ≤ _buf_cont_read w.streambuf := Nat.min_le_right _ _
    by_cases h0 : w.streambuf.size = 0
    · have : _buf_cont_read w.streambuf = 0 := by omega
      have h3 : pcm_frames p w * u32 (p.channels * p.sample_size) = 0 := by omega
      rw [h3]; decide
    · by_cases h4 : min (_buf_used w.streambuf) (_buf_cont_read w.streambuf) = 2 ^ 32
      · have hu : _buf_used w.streambuf < w.streambuf.size := by
          unfold _buf_used; exact Nat.mod_lt _ (by omega)
        have : min (_buf_used w.streambuf) (_buf_cont_read w.streambuf)
            ≤ _buf_used w.streambuf := Nat.min_le_left _ _
        omega
      · omega
  · intro h6 h7 hout
    have hin : pcm_in p w = 1 := by
      unfold pcm_in; rw [h6, h7]
    have hf : pcm_frames p w = 1 := by
      unfold pcm_frames MAX_DECODE_FRAMES
      rw [hin]
      omega
    rw [u32_mul_eq _ _ _ (by rw [hf, h6]; decide), hf, h6]
  · exact Nat.le_trans hr (Nat.le_trans (Nat.min_le_right _ _) (_buf_cont_read_le _))
  · intro m w2 hm h2
    have hin : pcm_in p { w with streambuf := { w.streambuf with mem := m } } = pcm_in p w := rfl
    have hrun2 : ¬ (({ w with streambuf := { w.streambuf with mem := m } } : World).stream.state
        ≤ DISCONNECT ∧ pcm_in p { w with streambuf := { w.streambuf with mem := m } } = 0) := hrun
    rw [pcm_decode_running p _ hd' hrun2] at h2
    injection h2 with h2
    injection h2 with _ h2
    rw [← h2, pcm_decode_run_mem_locked, pcm_decode_run_mem_locked]
    have hfr : pcm_frames p { w with streambuf := { w.streambuf with mem := m } }
        = pcm_frames p w := rfl
    rw [hfr]
    exact (pcm_unpack_reads_frames p w.streambuf.mem m (pcm_frames p w) w.streambuf.readp
      w.outputbuf.writep w.outputbuf.mem (pcm_frames_le p w) hm).symm
  · exact Nat.le_trans hw (Nat.le_trans (Nat.min_le_right _ _) (_buf_cont_write_le _))
  · intro x hx
    exact pcm_decode_run_outside p (LOCK_O (LOCK_S w)) x (by
      have e : pcm_frames p (LOCK_O (LOCK_S w)) = pcm_frames p w := rfl
      have e2 : (LOCK_O (LOCK_S w)).outputbuf.writep = w.outputbuf.writep := rfl
      rw [e, e2]; omega)

/-- Witness of C4: 24-bit stereo with 7 readable bytes decodes one frame and
consumes 6 bytes. -/
theorem pcm_decode_frames_witness :
    0 < u32 (stereo24_pcm.channels * stereo24_pcm.sample_size) ∧
    ¬ (S2_world.stream.state ≤ DISCONNECT ∧ pcm_in stereo24_pcm S2_world = 0) ∧
    min (_buf_used S2_world.streambuf) (_buf_cont_read S2_world.streambuf) = 7 ∧
    ∃ w', pcm_decode stereo24_pcm S2_world = some (DECODE_RUNNING, w') ∧
      w'.streambuf.readp = 6 ∧ w'.outputbuf.writep = 8 := by
  refine ⟨by decide, by decide, by decide, ?_⟩
  obtain ⟨w', h1, _, h3, h4, _⟩ := pcm_decode_frames stereo24_pcm S2_world (by decide) (by decide)
  refine ⟨w', h1, ?_, ?_⟩
  · rw [h3]; decide
  · rw [h4]; decide

/-- C5: with a non-zero frame size, `pcm_decode` always returns, and it
returns COMPLETE exactly when the upstream has signalled its end
(`stream.state ≤ DISCONNECT`) and no whole input frame is readable (`in = 0`,
that is, fewer readable bytes than one frame).  A COMPLETE call leaves both
rings (pointers and contents), `decode.new_stream`, `output.track_start` and
`output.next_sample_rate` as they were.  Every other call, in particular every
call while the upstream is still connected, returns RUNNING; ERROR is never
returned. -/
theorem pcm_decode_result (p : pcm) (w : World) (hd : 0 < u32 (p.channels * p.sample_size)) :
    ∃ r w', pcm_decode p w = some (r, w') ∧
      (r = DECODE_COMPLETE ↔ (w.stream.state ≤ DISCONNECT ∧ pcm_in p w = 0)) ∧
      (pcm_in p w = 0 ↔
        min (_buf_used w.streambuf) (_buf_cont_read w.streambuf)
          < u32 (p.channels * p.sample_size)) ∧
      (r = DECODE_COMPLETE →
        w'.streambuf = w.streambuf ∧ w'.outputbuf = w.outputbuf ∧
        w'.decode.new_stream = w.decode.new_stream ∧
        w'.output.track_start = w.output.track_start ∧
        w'.output.next_sample_rate = w.output.next_sample_rate) ∧
      (r ≠ DECODE_COMPLETE → r = DECODE_RUNNING) ∧
      (DISCONNECT < w.stream.state → r = DECODE_RUNNING) ∧
      r ≠ DECODE_ERROR := by
  have hd' : u32 (p.channels * p.sample_size) ≠ 0 := by omega
  have hin : pcm_in p w = 0 ↔
      min (_buf_used w.streambuf) (_buf_cont_read w.streambuf)
        < u32 (p.channels * p.sample_size) := by
    unfold pcm_in
    rw [Nat.div_eq_zero_iff hd]
  by_cases hc : w.stream.state ≤ DISCONNECT ∧ pcm_in p w = 0
  · refine ⟨_, _, pcm_decode_complete p w hd' hc, ?_, hin, ?_, ?_, ?_, ?_⟩
    · exact ⟨fun _ => hc, fun _ => rfl⟩
    · intro _; exact ⟨rfl, rfl, rfl, rfl, rfl⟩
    · intro h; exact absurd rfl h
    · intro h; omega
    · decide
  · refine ⟨_, _, pcm_decode_running p w hd' hc, ?_, hin, ?_, ?_, ?_, ?_⟩
    · constructor
      · intro h; cases h
      · intro h; exact absurd h hc
    · intro h; cases h
    · intro _; rfl
    · intro _; rfl
    · decide

/-- Witness of C5: after the drain and the disconnect of scenario S1 the call
returns COMPLETE. -/
theorem pcm_decode_result_witness :
    0 < u32 (S1_pcm.channels * S1_pcm.sample_size) ∧
    ∃ r w', pcm_decode S1_pcm S1_drained = some (r, w') ∧ r = DECODE_COMPLETE := by
  refine ⟨by decide, ?_⟩
  obtain ⟨r, w', h1, h2, _⟩ := pcm_decode_result S1_pcm S1_drained (by decide)
  exact ⟨r, w', h1, h2.mpr (by decide)⟩

/-! ### Record of calls -/

theorem checkfade_calls_append (a b : List Event) :
    checkfade_calls (a ++ b) = checkfade_calls a ++ checkfade_calls b := by
  unfold checkfade_calls
  exact List.filterMap_append _ _ _

theorem set_track_start_checkfade (rate : Nat) (w : World) :
    checkfade_calls (set_track_start rate w).trace =
      checkfade_calls w.trace ++ (if w.output.fade_mode ≠ FADE_NONE then [true] else []) := by
  rw [set_track_start_trace]
  unfold FADE_NONE
  split
  · rw [checkfade_calls_append]; rfl
  · simp

/-! ### `write_cb`: what the frame loop leaves alone -/

theorem write_cb_body_rest (bps : Nat) (l r : Nat → Int) (frames i : Nat) (w : World) :
    (write_cb_body bps l r frames i w).output = w.output ∧
    (write_cb_body bps l r frames i w).decode = w.decode ∧
    (write_cb_body bps l r frames i w).trace = w.trace ∧
    (write_cb_body bps l r frames i w).streambuf = w.streambuf ∧
    (write_cb_body bps l r frames i w).stream = w.stream ∧
    (write_cb_body bps l r frames i w).outputbuf.size = w.outputbuf.size ∧
    (write_cb_body bps l r frames i w).outputbuf.readp = w.outputbuf.readp :=
  ⟨rfl, rfl, rfl, rfl, rfl, rfl, rfl⟩

theorem write_cb_loop_rest (bps : Nat) (l r : Nat → Int) :
    ∀ (fuel frames i : Nat) (w w' : World), write_cb_loop bps l r fuel frames i w = some w' →
      w'.output = w.output ∧ w'.decode = w.decode ∧ w'.trace = w.trace ∧
      w'.streambuf = w.streambuf ∧ w'.stream = w.stream ∧
      w'.outputbuf.size = w.outputbuf.size ∧ w'.outputbuf.readp = w.outputbuf.readp := by
  intro fuel
  induction fuel with
  | zero =>
    intro frames i w w' h
    unfold write_cb_loop at h
    split at h
    · injection h with h; subst h; exact ⟨rfl, rfl, rfl, rfl, rfl, rfl, rfl⟩
    · cases h
  | succ n ih =>
    intro frames i w w' h
    unfold write_cb_loop at h
    split at h
    · injection h with h; subst h; exact ⟨rfl, rfl, rfl, rfl, rfl, rfl, rfl⟩
    · have := ih _ _ _ _ h
      have hb := write_cb_body_rest bps l r frames i w
      obtain ⟨a1, a2, a3, a4, a5, a6, a7⟩ := this
      obtain ⟨b1, b2, b3, b4, b5, b6, b7⟩ := hb
      exact ⟨a1.trans b1, a2.trans b2, a3.trans b3, a4.trans b4, a5.trans b5, a6.trans b6,
        a7.trans b7⟩

theorem write_cb_some (fuel : Nat) (h : flac_frame_header) (buffer : Nat → Nat → Int)
    (w w' : World) (hres : write_cb fuel h buffer w = some w') :
    ∃ w1, write_cb_loop h.bits_per_sample (buffer 0) (buffer (if h.channels > 1 then 1 else 0))
        fuel h.blocksize 0 (write_cb_start h w) = some w1 ∧ w' = UNLOCK_O w1 := by
  unfold write_cb at hres
  dsimp only at hres
  split at hres
  · cases hres
  · next w1 hw1 =>
    injection hres with hres
    exact ⟨w1, hw1, hres.symm⟩

/-! ### `vorbis_decode`: what the library calls leave alone -/

theorem _read_cb_rest (size nmemb : Nat) (w : World) (n : Nat) (bs : List Nat) (w' : World)
    (h : _read_cb size nmemb w = some (n, bs, w')) :
    w'.outputbuf = w.outputbuf ∧ w'.output = w.output ∧ w'.decode = w.decode ∧
    w'.stream = w.stream ∧ w'.trace = w.trace ∧ w'.streambuf.size = w.streambuf.size ∧
    w'.streambuf.mem = w.streambuf.mem ∧ w'.streambuf.writep = w.streambuf.writep := by
  unfold _read_cb at h
  dsimp only at h
  split at h
  · cases h
  · injection h with h
    injection h with _ h
    injection h with _ h
    subst h
    exact ⟨rfl, rfl, rfl, rfl, rfl, rfl, rfl, rfl⟩

theorem run_reads_rest :
    ∀ (rs : List (Nat × Nat)) (w w' : World), run_reads rs w = some w' →
      w'.outputbuf = w.outputbuf ∧ w'.output = w.output ∧ w'.decode = w.decode ∧
      w'.stream = w.stream ∧ w'.trace = w.trace ∧ w'.streambuf.size = w.streambuf.size ∧
      w'.streambuf.mem = w.streambuf.mem ∧ w'.streambuf.writep = w.streambuf.writep := by
  intro rs
  induction rs with
  | nil =>
    intro w w' h
    unfold run_reads at h
    injection h with h; subst h
    exact ⟨rfl, rfl, rfl, rfl, rfl, rfl, rfl, rfl⟩
  | cons a rest ih =>
    intro w w' h
    obtain ⟨size, nmemb⟩ := a
    unfold run_reads at h
    split at h
    · cases h
    · next n bs w1 h1 =>
      obtain ⟨a1, a2, a3, a4, a5, a6, a7, a8⟩ := ih _ _ h
      obtain ⟨b1, b2, b3, b4, b5, b6, b7, b8⟩ := _read_cb_rest _ _ _ _ _ _ h1
      exact ⟨a1.trans b1, a2.trans b2, a3.trans b3, a4.trans b4, a5.trans b5, a6.trans b6,
        a7.trans b7, a8.trans b8⟩

theorem run_reads_nil_reads (w : World) : run_reads [] w = some w := rfl

theorem vorbis_decode_read_rest (lib : vorbis_lib) (v : vorbis) (frames : Nat) (w : World)
    (r : decode_state) (v' : vorbis) (w' : World)
    (h : vorbis_decode_read lib v frames w = some (r, v', w')) :
    w'.output = w.output ∧ w'.decode = w.decode ∧ w'.stream = w.stream ∧
    w'.trace = w.trace ++ [Event.ov_read (vorbis_bytes frames v.channels), Event.unlock_O,
      Event.unlock_S] ∧
    v' = v ∧ w'.outputbuf.size = w.outputbuf.size ∧ w'.outputbuf.readp = w.outputbuf.readp := by
  unfold vorbis_decode_read at h
  dsimp only at h
  split at h
  · cases h
  · next w1 h1 =>
    obtain ⟨a1, a2, a3, a4, a5, _, _, _⟩ := run_reads_rest _ _ _ h1
    have a5' : w1.trace = w.trace ++ [Event.ov_read (vorbis_bytes frames v.channels)] := a5
    have a1' : w1.outputbuf = w.outputbuf := a1
    split at h
    · split at h
      · cases h
      · injection h with h
        injection h with _ h
        injection h with hv h
        subst h
        refine ⟨a2, a3, a4, ?_, hv.symm, ?_, ?_⟩
        · show (w1.trace ++ [Event.unlock_O]) ++ [Event.unlock_S] = _
          rw [a5']; simp
        · show w1.outputbuf.size = w.outputbuf.size
          rw [a1']
        · show w1.outputbuf.readp = w.outputbuf.readp
          rw [a1']
    · split at h <;>
      · injection h with h
        injection h with _ h
        injection h with hv h
        subst h
        refine ⟨a2, a3, a4, ?_, hv.symm, ?_, ?_⟩
        · show (w1.trace ++ [Event.unlock_O]) ++ [Event.unlock_S] = _
          rw [a5']; simp
        · show w1.outputbuf.size = w.outputbuf.size
          rw [a1']
        · show w1.outputbuf.readp = w.outputbuf.readp
          rw [a1']

theorem vorbis_decode_read_result (lib : vorbis_lib) (v : vorbis) (frames : Nat) (w : World)
    (r : decode_state) (v' : vorbis) (w' : World)
    (h : vorbis_decode_read lib v frames w = some (r, v', w')) :
    (0 < (ov_read_call lib w (vorbis_bytes frames v.channels)).n →
      r = DECODE_RUNNING ∧
      w'.outputbuf.writep =
        (w.outputbuf.writep +
          u32 (s32_bits (Int.tdiv (Int.tdiv
            (ov_read_call lib w (vorbis_bytes frames v.channels)).n 2) v.channels)
              * BYTES_PER_FRAME)) % w.outputbuf.size) ∧
    ((ov_read_call lib w (vorbis_bytes frames v.channels)).n ≤ 0 →
      r = DECODE_COMPLETE ∧ w'.outputbuf.writep = w.outputbuf.writep) := by
  unfold vorbis_decode_read at h
  dsimp only at h
  split at h
  · cases h
  · next w1 h1 =>
    obtain ⟨a1, _⟩ := run_reads_rest _ _ _ h1
    have a1' : w1.outputbuf = w.outputbuf := a1
    split at h
    · next hn =>
      split at h
      · cases h
      · injection h with h
        injection h with hr h
        injection h with hv h
        subst h
        refine ⟨fun _ => ⟨hr.symm, ?_⟩, fun hle => absurd hn (by omega)⟩
        show (w1.outputbuf.writep + _) % w1.outputbuf.size = _
        rw [a1']
    · next hn =>
      split at h <;>
      · injection h with h
        injection h with hr h
        injection h with hv h
        subst h
        refine ⟨fun hp => absurd hp hn, fun _ => ⟨hr.symm, ?_⟩⟩
        show w1.outputbuf.writep = _
        rw [a1']

theorem pcm_decode_run_output (p : pcm) (w : World) :
    (pcm_decode_run p w).output =
      (if w.decode.new_stream then set_track_start p.sample_rate w else w).output := rfl

theorem pcm_decode_run_decode (p : pcm) (w : World) :
    (pcm_decode_run p w).decode =
      (if w.decode.new_stream then set_track_start p.sample_rate w else w).decode := rfl

theorem pcm_decode_run_trace (p : pcm) (w : World) :
    (pcm_decode_run p w).trace =
      (if w.decode.new_stream then set_track_start p.sample_rate w else w).trace
        ++ [Event.unlock_O, Event.unlock_S] := by
  show (_ ++ [Event.unlock_O]) ++ [Event.unlock_S] = _
  simp

theorem checkfade_calls_locks (tr : List Event) :
    checkfade_calls (tr ++ [Event.lock_S] ++ [Event.lock_O]) = checkfade_calls tr := by
  rw [checkfade_calls_append, checkfade_calls_append]
  simp [checkfade_calls]

theorem pcm_decode_cases (p : pcm) (w : World) (r : decode_state) (w' : World)
    (h : pcm_decode p w = some (r, w')) :
    (r = DECODE_COMPLETE ∧ w' = UNLOCK_S (UNLOCK_O (LOCK_O (LOCK_S w)))) ∨
    (r = DECODE_RUNNING ∧ w' = pcm_decode_run p (LOCK_O (LOCK_S w))) := by
  unfold pcm_decode at h
  dsimp only at h
  split at h
  · cases h
  · split at h
    · injection h with h
      injection h with h1 h2
      exact Or.inl ⟨h1.symm, h2.symm⟩
    · injection h with h
      injection h with h1 h2
      exact Or.inr ⟨h1.symm, h2.symm⟩

theorem checkfade_calls_unlocks (tr : List Event) :
    checkfade_calls (tr ++ [Event.unlock_O, Event.unlock_S]) = checkfade_calls tr := by
  rw [checkfade_calls_append]
  simp [checkfade_calls]

theorem checkfade_calls_single (tr : List Event) (e : Event) (h : ∀ b, e ≠ Event.checkfade b) :
    checkfade_calls (tr ++ [e]) = checkfade_calls tr := by
  rw [checkfade_calls_append]
  cases e <;> simp [checkfade_calls] at h ⊢

theorem pcm_track_start (p : pcm) (w : World) (r : decode_state) (w' : World)
    (h : pcm_decode p w = some (r, w')) :
    (w.decode.new_stream = true → r ≠ DECODE_COMPLETE →
      w'.decode.new_stream = false ∧ w'.output.next_sample_rate = p.sample_rate ∧
      w'.output.track_start = some w.outputbuf.writep ∧
      checkfade_calls w'.trace =
        checkfade_calls w.trace ++ (if w.output.fade_mode ≠ FADE_NONE then [true] else [])) ∧
    (w.decode.new_stream = false →
      w'.output.next_sample_rate = w.output.next_sample_rate ∧
      w'.output.track_start = w.output.track_start ∧
      checkfade_calls w'.trace = checkfade_calls w.trace) := by
  rcases pcm_decode_cases p w r w' h with ⟨hr, hw⟩ | ⟨hr, hw⟩
  · subst hw
    refine ⟨fun _ hne => absurd hr hne, fun _ => ⟨rfl, rfl, ?_⟩⟩
    show checkfade_calls ((((w.trace ++ [Event.lock_S]) ++ [Event.lock_O]) ++ [Event.unlock_O])
      ++ [Event.unlock_S]) = _
    rw [checkfade_calls_single _ _ (by intro b; exact Event.noConfusion),
      checkfade_calls_single _ _ (by intro b; exact Event.noConfusion),
      checkfade_calls_single _ _ (by intro b; exact Event.noConfusion),
      checkfade_calls_single _ _ (by intro b; exact Event.noConfusion)]
  · subst hw
    constructor
    · intro hn _
      have hn' : (LOCK_O (LOCK_S w)).decode.new_stream = true := hn
      rw [pcm_decode_run_decode, pcm_decode_run_output, pcm_decode_run_trace, if_pos hn',
        set_track_start_new_stream, set_track_start_output, checkfade_calls_unlocks,
        set_track_start_checkfade]
      refine ⟨rfl, rfl, rfl, ?_⟩
      show checkfade_calls ((w.trace ++ [Event.lock_S]) ++ [Event.lock_O]) ++ _ = _
      rw [checkfade_calls_locks]
      rfl
    · intro hn
      have hn' : ¬ ((LOCK_O (LOCK_S w)).decode.new_stream = true) := by
        show ¬ (w.decode.new_stream = true)
        rw [hn]; decide
      rw [pcm_decode_run_output, pcm_decode_run_trace, if_neg hn', checkfade_calls_unlocks]
      refine ⟨rfl, rfl, ?_⟩
      show checkfade_calls ((w.trace ++ [Event.lock_S]) ++ [Event.lock_O]) = _
      exact checkfade_calls_locks _

theorem write_cb_track_start (fuel : Nat) (h : flac_frame_header) (buffer : Nat → Nat → Int)
    (w w' : World) (hres : write_cb fuel h buffer w = some w') :
    (w.decode.new_stream = true →
      w'.decode.new_stream = false ∧ w'.output.next_sample_rate = h.sample_rate ∧
      w'.output.track_start = some w.outputbuf.writep ∧
      checkfade_calls w'.trace =
        checkfade_calls w.trace ++ (if w.output.fade_mode ≠ FADE_NONE then [true] else [])) ∧
    (w.decode.new_stream = false →
      w'.output.next_sample_rate = w.output.next_sample_rate ∧
      w'.output.track_start = w.output.track_start ∧
      checkfade_calls w'.trace = checkfade_calls w.trace) := by
  obtain ⟨w1, h1, hw'⟩ := write_cb_some fuel h buffer w w' hres
  obtain ⟨a1, a2, a3, _⟩ := write_cb_loop_rest _ _ _ _ _ _ _ _ h1
  subst hw'
  have e1 : (UNLOCK_O w1).output = (write_cb_start h w).output := a1
  have e2 : (UNLOCK_O w1).decode = (write_cb_start h w).decode := a2
  have e3 : (UNLOCK_O w1).trace = (write_cb_start h w).trace ++ [Event.unlock_O] := by
    show w1.trace ++ [Event.unlock_O] = _
    rw [a3]
  rw [e1, e2, e3, checkfade_calls_single _ _ (by intro b; exact Event.noConfusion)]
  unfold write_cb_start
  dsimp only
  constructor
  · intro hn
    have hn' : (LOCK_O w).decode.new_stream = true := hn
    rw [if_pos hn', set_track_start_new_stream, set_track_start_output, set_track_start_checkfade]
    refine ⟨rfl, rfl, rfl, ?_⟩
    show checkfade_calls (w.trace ++ [Event.lock_O]) ++ _ = _
    rw [checkfade_calls_single _ _ (by intro b; exact Event.noConfusion)]
    rfl
  · intro hn
    have hn' : ¬ ((LOCK_O w).decode.new_stream = true) := by
      show ¬ (w.decode.new_stream = true)
      rw [hn]; decide
    rw [if_neg hn']
    refine ⟨rfl, rfl, ?_⟩
    show checkfade_calls (w.trace ++ [Event.lock_O]) = _
    exact checkfade_calls_single _ _ (by intro b; exact Event.noConfusion)

theorem s32_bits_of_range (x : Int) (h0 : 0 ≤ x) (h1 : x < 2 ^ 32) : (s32_bits x : Int) = x := by
  unfold s32_bits
  rw [Int.emod_eq_of_lt h0 h1]
  exact Int.toNat_of_nonneg h0

/-- The paths through `vorbis_decode`, with the state each one returns. -/
theorem vorbis_decode_cases (lib : vorbis_lib) (v : vorbis) (w : World) (r : decode_state)
    (v' : vorbis) (w' : World) (h : vorbis_decode lib v w = some (r, v', w')) :
    (vorbis_frames w = 0 ∧ w.stream.state ≤ DISCONNECT ∧ r = DECODE_COMPLETE ∧ v' = v ∧
      w' = UNLOCK_S (UNLOCK_O (LOCK_O (LOCK_S w)))) ∨
    (¬ (vorbis_frames w = 0 ∧ w.stream.state ≤ DISCONNECT) ∧ w.decode.new_stream = true ∧
      ∃ w1, run_reads (lib.ov_open_callbacks w.streambuf).reads
          ((LOCK_O (LOCK_S w)).emit Event.ov_open_callbacks) = some w1 ∧
        (((lib.ov_open_callbacks w.streambuf).err < 0 ∧ r = DECODE_COMPLETE ∧ v' = v ∧
            w' = UNLOCK_S (UNLOCK_O w1)) ∨
         (0 ≤ (lib.ov_open_callbacks w.streambuf).err ∧
            2 < (lib.ov_open_callbacks w.streambuf).info.channels ∧ r = DECODE_ERROR ∧
            v' = { v with channels := (lib.ov_open_callbacks w.streambuf).info.channels } ∧
            w' = UNLOCK_S (UNLOCK_O (set_track_start
              (s32_bits (lib.ov_open_callbacks w.streambuf).info.rate)
              (w1.emit Event.ov_info)))) ∨
         (0 ≤ (lib.ov_open_callbacks w.streambuf).err ∧
            (lib.ov_open_callbacks w.streambuf).info.channels ≤ 2 ∧
            vorbis_decode_read lib
              { v with channels := (lib.ov_open_callbacks w.streambuf).info.channels }
              (vorbis_frames w)
              (set_track_start (s32_bits (lib.ov_open_callbacks w.streambuf).info.rate)
                (w1.emit Event.ov_info)) = some (r, v', w')))) ∨
    (¬ (vorbis_frames w = 0 ∧ w.stream.state ≤ DISCONNECT) ∧ w.decode.new_stream = false ∧
      vorbis_decode_read lib v (vorbis_frames w) (LOCK_O (LOCK_S w)) = some (r, v', w')) := by
  unfold vorbis_decode at h
  dsimp only at h
  split at h
  · next hc =>
    injection h with h
    injection h with h1 h
    injection h with h2 h3
    refine Or.inl ⟨hc.1, ?_, h1.symm, h2.symm, h3.symm⟩
    have := hc.2
    simpa using this
  · next hc =>
    have hc' : ¬ (vorbis_frames w = 0 ∧ w.stream.state ≤ DISCONNECT) := by
      intro hh
      apply hc
      refine ⟨hh.1, ?_⟩
      have : (LOCK_O (LOCK_S w)).stream.state ≤ DISCONNECT := hh.2
      simpa using this
    split at h
    · next hn =>
      refine Or.inr (Or.inl ⟨hc', hn, ?_⟩)
      split at h
      · cases h
      · next w1 h1 =>
        refine ⟨w1, h1, ?_⟩
        split at h
        · next he =>
          injection h with h
          injection h with h1 h
          injection h with h2 h3
          exact Or.inl ⟨he, h1.symm, h2.symm, h3.symm⟩
        · next he =>
          split at h
          · next hch =>
            injection h with h
            injection h with h1 h
            injection h with h2 h3
            exact Or.inr (Or.inl ⟨Int.not_lt.mp he, hch, h1.symm, h2.symm, h3.symm⟩)
          · next hch =>
            exact Or.inr (Or.inr ⟨Int.not_lt.mp he, Int.not_lt.mp hch, h⟩)
    · next hn =>
      refine Or.inr (Or.inr ⟨hc', ?_, h⟩)
      have : ¬ (w.decode.new_stream = true) := hn
      simpa using this

theorem vorbis_open_publish (rs : List (Nat × Nat)) (rate : Nat) (w w1 : World)
    (h1 : run_reads rs ((LOCK_O (LOCK_S w)).emit Event.ov_open_callbacks) = some w1) :
    (set_track_start rate (w1.emit Event.ov_info)).decode.new_stream = false ∧
    (set_track_start rate (w1.emit Event.ov_info)).output.next_sample_rate = rate ∧
    (set_track_start rate (w1.emit Event.ov_info)).output.track_start
      = some w.outputbuf.writep ∧
    checkfade_calls (set_track_start rate (w1.emit Event.ov_info)).trace =
      checkfade_calls w.trace ++ (if w.output.fade_mode ≠ FADE_NONE then [true] else []) ∧
    (set_track_start rate (w1.emit Event.ov_info)).outputbuf = w.outputbuf := by
  obtain ⟨a1, a2, _, _, a5, _⟩ := run_reads_rest _ _ _ h1
  have a1' : w1.outputbuf = w.outputbuf := a1
  have a2' : w1.output = w.output := a2
  have a5' : w1.trace = (((w.trace ++ [Event.lock_S]) ++ [Event.lock_O])
      ++ [Event.ov_open_callbacks]) := a5
  rw [set_track_start_new_stream, set_track_start_output, set_track_start_checkfade,
    set_track_start_outputbuf]
  have e1 : (w1.emit Event.ov_info).outputbuf = w.outputbuf := a1'
  have e2 : (w1.emit Event.ov_info).output = w.output := a2'
  have e3 : (w1.emit Event.ov_info).trace = w1.trace ++ [Event.ov_info] := rfl
  rw [e1, e2, e3, a5']
  refine ⟨rfl, rfl, rfl, ?_, rfl⟩
  rw [checkfade_calls_single _ _ (by intro b; exact Event.noConfusion),
    checkfade_calls_single _ _ (by intro b; exact Event.noConfusion),
    checkfade_calls_single _ _ (by intro b; exact Event.noConfusion),
    checkfade_calls_single _ _ (by intro b; exact Event.noConfusion)]

theorem checkfade_calls_read_tail (tr : List Event) (bytes : Int) :
    checkfade_calls (tr ++ [Event.ov_read bytes, Event.unlock_O, Event.unlock_S])
      = checkfade_calls tr := by
  rw [checkfade_calls_append]
  simp [checkfade_calls]

theorem vorbis_track_start (lib : vorbis_lib) (v : vorbis) (w : World) (r : decode_state)
    (v' : vorbis) (w' : World) (h : vorbis_decode lib v w = some (r, v', w')) :
    (w.decode.new_stream = true →
      ¬ (vorbis_frames w = 0 ∧ w.stream.state ≤ DISCONNECT) →
      0 ≤ (lib.ov_open_callbacks w.streambuf).err →
      w'.decode.new_stream = false ∧
      w'.output.next_sample_rate = s32_bits (lib.ov_open_callbacks w.streambuf).info.rate ∧
      w'.output.track_start = some w.outputbuf.writep ∧
      checkfade_calls w'.trace =
        checkfade_calls w.trace ++ (if w.output.fade_mode ≠ FADE_NONE then [true] else [])) ∧
    (w.decode.new_stream = false →
      w'.output.next_sample_rate = w.output.next_sample_rate ∧
      w'.output.track_start = w.output.track_start ∧
      checkfade_calls w'.trace = checkfade_calls w.trace) := by
  rcases vorbis_decode_cases lib v w r v' w' h with
    ⟨hf, he, _, _, hw⟩ | ⟨hc, hn, w1, h1, hB⟩ | ⟨hc, hn, hC⟩
  · subst hw
    refine ⟨fun _ hne _ => absurd ⟨hf, he⟩ hne, fun _ => ⟨rfl, rfl, ?_⟩⟩
    show checkfade_calls ((((w.trace ++ [Event.lock_S]) ++ [Event.lock_O]) ++ [Event.unlock_O])
      ++ [Event.unlock_S]) = _
    rw [checkfade_calls_single _ _ (by intro b; exact Event.noConfusion),
      checkfade_calls_single _ _ (by intro b; exact Event.noConfusion),
      checkfade_calls_single _ _ (by intro b; exact Event.noConfusion),
      checkfade_calls_single _ _ (by intro b; exact Event.noConfusion)]
  · refine ⟨fun _ _ herr => ?_, fun hfalse => by rw [hn] at hfalse; cases hfalse⟩
    obtain ⟨p1, p2, p3, p4, _⟩ := vorbis_open_publish _
      (s32_bits (lib.ov_open_callbacks w.streambuf).info.rate) w w1 h1
    rcases hB with ⟨hneg, _⟩ | ⟨_, _, _, _, hw⟩ | ⟨_, _, hread⟩
    · omega
    · subst hw
      refine ⟨p1, p2, p3, ?_⟩
      show checkfade_calls ((_ ++ [Event.unlock_O]) ++ [Event.unlock_S]) = _
      rw [checkfade_calls_single _ _ (by intro b; exact Event.noConfusion),
        checkfade_calls_single _ _ (by intro b; exact Event.noConfusion)]
      exact p4
    · obtain ⟨b1, b2, _, b4, _⟩ := vorbis_decode_read_rest _ _ _ _ _ _ _ hread
      rw [b1, b2, b4, checkfade_calls_read_tail]
      exact ⟨p1, p2, p3, p4⟩
  · refine ⟨fun htrue => (by rw [hn] at htrue; cases htrue), fun _ => ?_⟩
    obtain ⟨b1, _, _, b4, _⟩ := vorbis_decode_read_rest _ _ _ _ _ _ _ hC
    rw [b1, b4, checkfade_calls_read_tail]
    refine ⟨rfl, rfl, ?_⟩
    exact checkfade_calls_locks _

/-- C6: track-start publication.  For `pcm_decode` on a call that does not
return COMPLETE, for FLAC `write_cb`, and for `vorbis_decode` when the library's
open succeeds: if `decode.new_stream` is true on entry then after the call it
is false, `output.next_sample_rate` is the rate of the new track (the
`sample_rate` set by `pcm_open` from its rate code, the frame header's
`sample_rate`, the Vorbis info rate as a 32-bit value), `output.track_start` is
the write pointer of OUTPUTBUF on entry, before any frame of the call is
written, and `_checkfade(true)` has been called once if `output.fade_mode` is
not NONE and not at all otherwise.  If `new_stream` is false on entry, the call
leaves `next_sample_rate` and `track_start` unchanged and does not call
`_checkfade`. -/
theorem track_start_publication :
    (∀ (p : pcm) (w : World) (r : decode_state) (w' : World),
      pcm_decode p w = some (r, w') →
      (w.decode.new_stream = true → r ≠ DECODE_COMPLETE →
        w'.decode.new_stream = false ∧ w'.output.next_sample_rate = p.sample_rate ∧
        w'.output.track_start = some w.outputbuf.writep ∧
        checkfade_calls w'.trace =
          checkfade_calls w.trace ++ (if w.output.fade_mode ≠ FADE_NONE then [true] else [])) ∧
      (w.decode.new_stream = false →
        w'.output.next_sample_rate = w.output.next_sample_rate ∧
        w'.output.track_start = w.output.track_start ∧
        checkfade_calls w'.trace = checkfade_calls w.trace)) ∧
    (∀ (size rate chan endianness : Nat) (w : World) (p : pcm) (w1 : World),
      pcm_open size rate chan endianness w = some (p, w1) →
      sample_rates.get? (rate - 48) = some p.sample_rate ∧ w1.outputbuf = w.outputbuf ∧
      w1.decode = w.decode ∧ w1.output = w.output) ∧
    (∀ (fuel : Nat) (h : flac_frame_header) (buffer : Nat → Nat → Int) (w w' : World),
      write_cb fuel h buffer w = some w' →
      (w.decode.new_stream = true →
        w'.decode.new_stream = false ∧ w'.output.next_sample_rate = h.sample_rate ∧
        w'.output.track_start = some w.outputbuf.writep ∧
        checkfade_calls w'.trace =
          checkfade_calls w.trace ++ (if w.output.fade_mode ≠ FADE_NONE then [true] else [])) ∧
      (w.decode.new_stream = false →
        w'.output.next_sample_rate = w.output.next_sample_rate ∧
        w'.output.track_start = w.output.track_start ∧
        checkfade_calls w'.trace = checkfade_calls w.trace)) ∧
    (∀ (lib : vorbis_lib) (v : vorbis) (w : World) (r : decode_state) (v' : vorbis) (w' : World),
      vorbis_decode lib v w = some (r, v', w') →
      (w.decode.new_stream = true →
        ¬ (vorbis_frames w = 0 ∧ w.stream.state ≤ DISCONNECT) →
        0 ≤ (lib.ov_open_callbacks w.streambuf).err →
        w'.decode.new_stream = false ∧
        w'.output.next_sample_rate = s32_bits (lib.ov_open_callbacks w.streambuf).info.rate ∧
        (0 ≤ (lib.ov_open_callbacks w.streambuf).info.rate →
          (lib.ov_open_callbacks w.streambuf).info.rate < 2 ^ 32 →
          (w'.output.next_sample_rate : Int) = (lib.ov_open_callbacks w.streambuf).info.rate) ∧
        w'.output.track_start = some w.outputbuf.writep ∧
        checkfade_calls w'.trace =
          checkfade_calls w.trace ++ (if w.output.fade_mode ≠ FADE_NONE then [true] else [])) ∧
      (w.decode.new_stream = false →
        w'.output.next_sample_rate = w.output.next_sample_rate ∧
        w'.output.track_start = w.output.track_start ∧
        checkfade_calls w'.trace = checkfade_calls w.trace)) := by
  refine ⟨pcm_track_start, ?_, write_cb_track_start, ?_⟩
  · intro size rate chan endianness w p w1 h
    unfold pcm_open at h
    dsimp only at h
    split at h
    · cases h
    · split at h
      · cases h
      · next sr hsr =>
        injection h with h
        injection h with hp hw
        subst hp; subst hw
        exact ⟨hsr, rfl, rfl, rfl⟩
  · intro lib v w r v' w' h
    obtain ⟨h1, h2⟩ := vorbis_track_start lib v w r v' w' h
    refine ⟨fun hn hc he => ?_, h2⟩
    obtain ⟨a, b, c, d⟩ := h1 hn hc he
    refine ⟨a, b, fun h0 hlt => ?_, c, d⟩
    rw [b]
    exact s32_bits_of_range _ h0 hlt

/-- Witness of C6: the three codecs publish the track start on scenarios S1
(PCM, 44100 Hz), S3 (FLAC, 48000 Hz) and S4 (Vorbis, 44100 Hz). -/
theorem track_start_publication_witness :
    (∃ w', pcm_decode S1_pcm S1_opened = some (DECODE_RUNNING, w') ∧
      w'.decode.new_stream = false ∧ w'.output.next_sample_rate = 44100 ∧
      w'.output.track_start = some 0) ∧
    (∃ w', write_cb 1 S3_header S3_buffer S1_world = some w' ∧
      w'.decode.new_stream = false ∧ w'.output.next_sample_rate = 48000 ∧
      w'.output.track_start = some 0) ∧
    (∃ v' w', vorbis_decode S4_lib S4_vorbis S1_world = some (DECODE_RUNNING, v', w') ∧
      w'.decode.new_stream = false ∧ w'.output.next_sample_rate = 44100 ∧
      w'.output.track_start = some 0) := by
  obtain ⟨hp, _, hf, hv⟩ := track_start_publication
  refine ⟨⟨_, rfl, ?_⟩, ⟨_, rfl, ?_⟩, ⟨_, _, rfl, ?_⟩⟩
  · obtain ⟨a, b, c, _⟩ := (hp S1_pcm S1_opened _ _ rfl).1 rfl (by decide)
    exact ⟨a, b, c⟩
  · obtain ⟨a, b, c, _⟩ := (hf 1 S3_header S3_buffer S1_world _ rfl).1 rfl
    exact ⟨a, b, c⟩
  · obtain ⟨a, b, _, c, _⟩ :=
      (hv S4_lib S4_vorbis S1_world _ _ _ rfl).1 rfl (by decide) (by decide)
    exact ⟨a, b, c⟩

theorem vorbis_bytes_zero (channels : Int) : vorbis_bytes 0 channels = 0 := by
  unfold vorbis_bytes u32 to_int
  simp

theorem vorbis_decode_read_not_running (lib : vorbis_lib) (v : vorbis) (frames : Nat) (w : World)
    (r : decode_state) (v' : vorbis) (w' : World)
    (h : vorbis_decode_read lib v frames w = some (r, v', w')) :
    (r ≠ DECODE_RUNNING → w'.outputbuf.writep = w.outputbuf.writep) ∧
    (r = DECODE_RUNNING → 0 < (ov_read_call lib w (vorbis_bytes frames v.channels)).n) := by
  obtain ⟨h1, h2⟩ := vorbis_decode_read_result lib v frames w r v' w' h
  by_cases hn : 0 < (ov_read_call lib w (vorbis_bytes frames v.channels)).n
  · exact ⟨fun hne => absurd (h1 hn).1 hne, fun _ => hn⟩
  · have hle : (ov_read_call lib w (vorbis_bytes frames v.channels)).n ≤ 0 := Int.not_lt.mp hn
    obtain ⟨hr, hw⟩ := h2 hle
    refine ⟨fun _ => hw, fun hrun => ?_⟩
    rw [hr] at hrun
    cases hrun

theorem pcm_frames_zero_of_no_room (p : pcm) (w : World)
    (h : min (_buf_space w.outputbuf) (_buf_cont_write w.outputbuf) < 8) : pcm_frames p w = 0 := by
  have h1 : pcm_out w = 0 := by
    unfold pcm_out BYTES_PER_FRAME
    exact Nat.div_eq_of_lt h
  have h2 := pcm_frames_le_out p w
  omega

/-- C7 (as stated): `pcm_decode` called with 16 bytes of output space, far
below its 102400-byte threshold, does consume input and advance the write
pointer. -/
theorem backpressure_counterexample :
    ¬ (∀ (p : pcm) (w : World) (r : decode_state) (w' : World),
      _buf_space w.outputbuf < 102400 → pcm_decode p w = some (r, w') →
      r = DECODE_RUNNING ∧ w'.streambuf.readp = w.streambuf.readp ∧
      w'.outputbuf.writep = w.outputbuf.writep) := by
  intro h
  have h1 := h S1_pcm S6_world DECODE_RUNNING
    (pcm_decode_run S1_pcm (LOCK_O (LOCK_S S6_world))) (by decide) rfl
  revert h1
  decide

/-- C7 (amended): the codecs hold back per whole frame, not at
`min_output_space_bytes`.  `pcm_decode` never writes more than
`min(space, contiguous_write)` bytes, and when OUTPUTBUF has no room for one
whole frame (`min(space, contiguous_write) < 8`) a call that is not at end of
stream returns RUNNING with the STREAMBUF read pointer, the OUTPUTBUF write
pointer and the OUTPUTBUF contents unchanged.  `vorbis_decode` in such a state
returns COMPLETE with both rings unchanged when the upstream has ended;
otherwise it asks the library for 0 bytes, leaves the write pointer unchanged
unless it returns RUNNING, and returns RUNNING only if the library returned a
positive count for the zero-length request. -/
theorem backpressure_per_frame :
    (∀ (p : pcm) (w : World), pcm_frames p w * 8
        ≤ min (_buf_space w.outputbuf) (_buf_cont_write w.outputbuf)) ∧
    (∀ (p : pcm) (w : World), 0 < u32 (p.channels * p.sample_size) →
      w.streambuf.wf → w.outputbuf.wf →
      min (_buf_space w.outputbuf) (_buf_cont_write w.outputbuf) < 8 →
      ¬ (w.stream.state ≤ DISCONNECT ∧ pcm_in p w = 0) →
      ∃ w', pcm_decode p w = some (DECODE_RUNNING, w') ∧
        w'.streambuf.readp = w.streambuf.readp ∧
        w'.outputbuf.writep = w.outputbuf.writep ∧
        w'.outputbuf.mem = w.outputbuf.mem) ∧
    (∀ (lib : vorbis_lib) (v : vorbis) (w : World) (r : decode_state) (v' : vorbis) (w' : World),
      min (_buf_space w.outputbuf) (_buf_cont_write w.outputbuf) < 8 →
      vorbis_decode lib v w = some (r, v', w') →
      (w.stream.state ≤ DISCONNECT →
        r = DECODE_COMPLETE ∧ w'.streambuf = w.streambuf ∧ w'.outputbuf = w.outputbuf) ∧
      (∀ len, Event.ov_read len ∈ w'.trace → Event.ov_read len ∈ w.trace ∨ len = 0) ∧
      (r ≠ DECODE_RUNNING → w'.outputbuf.writep = w.outputbuf.writep) ∧
      (r = DECODE_RUNNING → ∃ w2 : World, 0 < (ov_read_call lib w2 0).n)) := by
  refine ⟨pcm_frames_write_le, ?_, ?_⟩
  · intro p w hd hs ho hroom hrun
    have hd' : u32 (p.channels * p.sample_size) ≠ 0 := by omega
    have hf := pcm_frames_zero_of_no_room p w hroom
    refine ⟨_, pcm_decode_running p w hd' hrun, ?_, ?_, ?_⟩
    · rw [pcm_decode_run_readp_locked, hf]
      simp only [Nat.zero_mul]
      show (w.streambuf.readp + 0) % w.streambuf.size = _
      exact Nat.mod_eq_of_lt hs.1
    · rw [pcm_decode_run_writep_locked, hf]
      simp only [Nat.zero_mul, Nat.add_zero]
      exact Nat.mod_eq_of_lt ho.2
    · funext x
      have := pcm_decode_run_outside p (LOCK_O (LOCK_S w)) x (by
        have e : pcm_frames p (LOCK_O (LOCK_S w)) = pcm_frames p w := rfl
        rw [e, hf]; omega)
      exact this
  · intro lib v w r v' w' hroom h
    have hfr : vorbis_frames w = 0 := by
      unfold vorbis_frames BYTES_PER_FRAME
      exact Nat.div_eq_of_lt hroom
    rcases vorbis_decode_cases lib v w r v' w' h with
      ⟨_, _, hr, _, hw⟩ | ⟨hc, hn, w1, h1, hB⟩ | ⟨hc, hn, hC⟩
    · subst hw
      refine ⟨fun _ => ⟨hr, rfl, rfl⟩, ?_, fun _ => rfl, fun hrun => ?_⟩
      · intro len hmem
        left
        have : Event.ov_read len ∈ (((w.trace ++ [Event.lock_S]) ++ [Event.lock_O])
            ++ [Event.unlock_O]) ++ [Event.unlock_S] := hmem
        simpa using this
      · rw [hr] at hrun; cases hrun
    · have hend : ¬ (w.stream.state ≤ DISCONNECT) := fun he => hc ⟨hfr, he⟩
      obtain ⟨a1, _, _, _, a5, _⟩ := run_reads_rest _ _ _ h1
      have a1' : w1.outputbuf = w.outputbuf := a1
      have a5' : w1.trace = ((w.trace ++ [Event.lock_S]) ++ [Event.lock_O])
          ++ [Event.ov_open_callbacks] := a5
      refine ⟨fun he => absurd he hend, ?_⟩
      rcases hB with ⟨_, hr, _, hw⟩ | ⟨_, _, hr, _, hw⟩ | ⟨_, _, hread⟩
      · subst hw
        refine ⟨?_, fun _ => congrArg buffer.writep a1', fun hrun => ?_⟩
        · intro len hmem
          left
          have : Event.ov_read len ∈ (w1.trace ++ [Event.unlock_O]) ++ [Event.unlock_S] := hmem
          rw [a5'] at this
          simpa using this
        · rw [hr] at hrun; cases hrun
      · subst hw
        refine ⟨?_, fun _ => ?_, fun hrun => ?_⟩
        · intro len hmem
          left
          have hm : Event.ov_read len ∈ ((set_track_start _ (w1.emit Event.ov_info)).trace
              ++ [Event.unlock_O]) ++ [Event.unlock_S] := hmem
          rw [set_track_start_trace] at hm
          have e3 : (w1.emit Event.ov_info).trace = w1.trace ++ [Event.ov_info] := rfl
          rw [e3, a5'] at hm
          split at hm <;> simpa using hm
        · show (set_track_start _ (w1.emit Event.ov_info)).outputbuf.writep = _
          rw [set_track_start_outputbuf]
          exact congrArg buffer.writep a1'
        · rw [hr] at hrun; cases hrun
      · obtain ⟨b1, b2⟩ := vorbis_decode_read_not_running _ _ _ _ _ _ _ hread
        obtain ⟨_, _, _, c4, _⟩ := vorbis_decode_read_rest _ _ _ _ _ _ _ hread
        rw [hfr, vorbis_bytes_zero] at b2 c4
        refine ⟨?_, fun hne => ?_, fun hrun => ⟨_, b2 hrun⟩⟩
        · intro len hmem
          rw [c4, set_track_start_trace] at hmem
          have e3 : (w1.emit Event.ov_info).trace = w1.trace ++ [Event.ov_info] := rfl
          rw [e3, a5'] at hmem
          split at hmem
          · simp at hmem
            rcases hmem with hm | hm
            · exact Or.inl hm
            · exact Or.inr hm
          · simp at hmem
            rcases hmem with hm | hm
            · exact Or.inl hm
            · exact Or.inr hm
        · rw [b1 hne, set_track_start_outputbuf]
          exact congrArg buffer.writep a1'
    · have hend : ¬ (w.stream.state ≤ DISCONNECT) := fun he => hc ⟨hfr, he⟩
      obtain ⟨b1, b2⟩ := vorbis_decode_read_not_running _ _ _ _ _ _ _ hC
      obtain ⟨_, _, _, c4, _⟩ := vorbis_decode_read_rest _ _ _ _ _ _ _ hC
      rw [hfr, vorbis_bytes_zero] at b2 c4
      refine ⟨fun he => absurd he hend, ?_, fun hne => b1 hne, fun hrun => ⟨_, b2 hrun⟩⟩
      intro len hmem
      rw [c4] at hmem
      have e : (LOCK_O (LOCK_S w)).trace = (w.trace ++ [Event.lock_S]) ++ [Event.lock_O] := rfl
      rw [e] at hmem
      simp at hmem
      rcases hmem with hm | hm
      · exact Or.inl hm
      · exact Or.inr hm

/-! ### `write_cb`: the sample loops -/

theorem s32_bits_lt (x : Int) : s32_bits x < 2 ^ 32 := by
  unfold s32_bits
  have h : x % 2 ^ 32 < 2 ^ 32 := Int.emod_lt_of_pos _ (by decide)
  have h0 : 0 ≤ x % 2 ^ 32 := Int.emod_nonneg _ (by decide)
  omega

theorem flac_loop_outside (s : Nat) (l r : Nat → Int) :
    ∀ (count i optr : Nat) (out : Nat → Nat) (x : Nat), (x < optr ∨ optr + 8 * count ≤ x) →
      flac_loop s l r count i optr out x = out x := by
  intro count
  induction count with
  | zero => intro i optr out x _; rfl
  | succ n ih =>
    intro i optr out x h
    simp only [flac_loop]
    rw [ih (i + 1) (optr + 8) _ x (by omega)]
    rw [store32_outside _ (optr + 4) _ x (by omega)]
    exact store32_outside out optr _ x (by omega)

theorem flac_loop_word (s : Nat) (l r : Nat → Int) :
    ∀ (count i optr : Nat) (out : Nat → Nat) (k : Nat), k < count →
      load32 (flac_loop s l r count i optr out) (optr + 8 * k) = s32_bits (l (i + k) * 2 ^ s) ∧
      load32 (flac_loop s l r count i optr out) (optr + 8 * k + 4)
        = s32_bits (r (i + k) * 2 ^ s) := by
  intro count
  induction count with
  | zero => intro i optr out k h; omega
  | succ n ih =>
    intro i optr out k h
    simp only [flac_loop]
    cases k with
    | zero =>
      simp only [Nat.mul_zero, Nat.add_zero]
      constructor
      · rw [load32_congr _ _ optr
          (fun x h1 h2 => flac_loop_outside s l r n _ _ _ x (by omega))]
        rw [load32_store32_disjoint _ _ _ _ (by omega), load32_store32]
        exact Nat.mod_eq_of_lt (s32_bits_lt _)
      · rw [load32_congr _ _ (optr + 4)
          (fun x h1 h2 => flac_loop_outside s l r n _ _ _ x (by omega))]
        rw [load32_store32]
        exact Nat.mod_eq_of_lt (s32_bits_lt _)
    | succ j =>
      have := ih (i + 1) (optr + 8)
        (store32 (store32 out optr (s32_bits (l i * 2 ^ s))) (optr + 4)
          (s32_bits (r i * 2 ^ s))) j (by omega)
      have e1 : optr + 8 * (j + 1) = optr + 8 + 8 * j := by ring
      have e2 : i + (j + 1) = i + 1 + j := by ring
      rw [e1, e2]
      exact this

theorem write_cb_body_mem (bps s : Nat) (hb : (bps = 16 ∧ s = 16) ∨ (bps = 24 ∧ s = 8))
    (l r : Nat → Int) (frames i : Nat) (w : World) :
    (write_cb_body bps l r frames i w).outputbuf.mem =
      flac_loop s l r (flac_span frames w) i w.outputbuf.writep w.outputbuf.mem := by
  rcases hb with ⟨h1, h2⟩ | ⟨h1, h2⟩
  · subst h1; subst h2; rfl
  · subst h1; subst h2; rfl

theorem write_cb_body_writep (bps : Nat) (l r : Nat → Int) (frames i : Nat) (w : World) :
    (write_cb_body bps l r frames i w).outputbuf.writep =
      (w.outputbuf.writep + flac_span frames w * 8) % w.outputbuf.size := rfl

theorem write_cb_body_mem_unsupported (bps : Nat) (h16 : bps ≠ 16) (h24 : bps ≠ 24)
    (l r : Nat → Int) (frames i : Nat) (w : World) :
    (write_cb_body bps l r frames i w).outputbuf.mem = w.outputbuf.mem := by
  unfold write_cb_body
  dsimp only
  rw [if_neg h16, if_neg h24]
  rfl

/-! ### `write_cb`: room in the output ring -/

theorem mod_wrap (a c : Nat) (h1 : c ≤ a) (h2 : a < 2 * c) : a % c = a - c := by
  rw [Nat.mod_eq_sub_mod h1]
  exact Nat.mod_eq_of_lt (by omega)

/-- With at least `8 * B` bytes of space in an 8-aligned ring, either the
`B` frames fit before the wrap point, or the contiguous span is the whole
tail of the ring and the rest fits at its start, below the read pointer. -/
theorem room_split (b : buffer) (hwf : b.wf) (h8s : 8 ∣ b.size) (h8r : 8 ∣ b.readp)
    (h8w : 8 ∣ b.writep) (B : Nat) (hroom : 8 * B ≤ _buf_space b) :
    (B ≤ min (_buf_space b) (_buf_cont_write b) / 8 ∧ b.writep + 8 * B ≤ b.size) ∨
    (min (_buf_space b) (_buf_cont_write b) / 8 < B ∧
      min (_buf_space b) (_buf_cont_write b) = b.size - b.writep ∧
      8 * (min (_buf_space b) (_buf_cont_write b) / 8) = b.size - b.writep ∧
      16 ≤ b.readp ∧ b.readp ≤ b.writep ∧
      8 * B - (b.size - b.writep) ≤ b.readp - 1) := by
  have hu := _buf_used_eq b hwf
  obtain ⟨hr, hw⟩ := hwf
  unfold _buf_cont_write
  unfold _buf_space at hroom ⊢
  generalize _buf_used b = u at hu hroom ⊢
  by_cases hle : b.readp ≤ b.writep
  · rw [if_pos hle] at hu
    omega
  · rw [if_neg hle] at hu
    omega

/-- The ring after a pass that has filled it up to the wrap point. -/
theorem room_after_wrap (b : buffer) (hr : b.readp < b.size) (h16 : 16 ≤ b.readp)
    (hw : b.writep = 0) :
    min (_buf_space b) (_buf_cont_write b) = b.readp - 1 := by
  have hu := _buf_used_eq b ⟨hr, by omega⟩
  unfold _buf_cont_write
  unfold _buf_space
  generalize _buf_used b = u at hu ⊢
  rw [if_neg (by omega)] at hu
  omega

theorem write_cb_loop_zero (bps : Nat) (l r : Nat → Int) (fuel i : Nat) (w : World) :
    write_cb_loop bps l r fuel 0 i w = some w := by
  cases fuel <;> simp [write_cb_loop]

theorem write_cb_loop_room (bps s : Nat) (hb : (bps = 16 ∧ s = 16) ∨ (bps = 24 ∧ s = 8))
    (l r : Nat → Int) (B : Nat) (w : World) (hwf : w.outputbuf.wf)
    (h8s : 8 ∣ w.outputbuf.size) (h8r : 8 ∣ w.outputbuf.readp) (h8w : 8 ∣ w.outputbuf.writep)
    (hroom : 8 * B ≤ _buf_space w.outputbuf) :
    ∃ w', (∀ fuel, 2 ≤ fuel → write_cb_loop bps l r fuel B 0 w = some w') ∧
      w'.outputbuf.writep = (w.outputbuf.writep + 8 * B) % w.outputbuf.size ∧
      (∀ i, i < B →
        load32 w'.outputbuf.mem ((w.outputbuf.writep + 8 * i) % w.outputbuf.size)
          = s32_bits (l i * 2 ^ s) ∧
        load32 w'.outputbuf.mem ((w.outputbuf.writep + 8 * i) % w.outputbuf.size + 4)
          = s32_bits (r i * 2 ^ s)) ∧
      (∀ x, (∀ i, i < B → x < (w.outputbuf.writep + 8 * i) % w.outputbuf.size ∨
          (w.outputbuf.writep + 8 * i) % w.outputbuf.size + 8 ≤ x) →
        w'.outputbuf.mem x = w.outputbuf.mem x) := by
  by_cases hB : B = 0
  · subst hB
    refine ⟨w, fun fuel _ => write_cb_loop_zero _ _ _ _ _ _, ?_,
      fun i hi => absurd hi (by omega), fun x _ => rfl⟩
    exact (Nat.mod_eq_of_lt hwf.2).symm
  · rcases room_split w.outputbuf hwf h8s h8r h8w B hroom with
      ⟨h1, h2⟩ | ⟨h1, h2, h3, h4, h5, h6⟩
    · have hf : flac_span B w = B := by
        unfold flac_span BYTES_PER_FRAME; omega
      refine ⟨write_cb_body bps l r B 0 w, ?_, ?_, ?_, ?_⟩
      · intro fuel hfuel
        obtain ⟨n, rfl⟩ : ∃ n, fuel = n + 1 := ⟨fuel - 1, by omega⟩
        unfold write_cb_loop
        rw [if_neg hB]
        dsimp only
        rw [hf, Nat.sub_self]
        exact write_cb_loop_zero _ _ _ _ _ _
      · rw [write_cb_body_writep, hf, Nat.mul_comm]
      · intro i hi
        have ha : (w.outputbuf.writep + 8 * i) % w.outputbuf.size = w.outputbuf.writep + 8 * i :=
          Nat.mod_eq_of_lt (by omega)
        rw [ha, write_cb_body_mem bps s hb, hf]
        have := flac_loop_word s l r B 0 w.outputbuf.writep w.outputbuf.mem i hi
        rw [Nat.zero_add] at this
        exact this
      · intro x hx
        rw [write_cb_body_mem bps s hb, hf]
        apply flac_loop_outside
        by_contra hcon
        have := hx ((x - w.outputbuf.writep) / 8) (by omega)
        rw [Nat.mod_eq_of_lt (by omega)] at this
        omega
    · obtain ⟨hrp, hwp⟩ := hwf
      have hf1 : flac_span B w
          = min (_buf_space w.outputbuf) (_buf_cont_write w.outputbuf) / 8 := by
        unfold flac_span BYTES_PER_FRAME; omega
      generalize hfd : min (_buf_space w.outputbuf) (_buf_cont_write w.outputbuf) / 8 = f1
        at h1 h3 hf1
      have hw1 : (write_cb_body bps l r B 0 w).outputbuf.writep = 0 := by
        rw [write_cb_body_writep, hf1]
        have : w.outputbuf.writep + f1 * 8 = w.outputbuf.size := by omega
        rw [this]
        exact Nat.mod_self _
      have hr1 : (write_cb_body bps l r B 0 w).outputbuf.readp = w.outputbuf.readp := rfl
      have hs1 : (write_cb_body bps l r B 0 w).outputbuf.size = w.outputbuf.size := rfl
      have hroom1 := room_after_wrap (write_cb_body bps l r B 0 w).outputbuf
        (by rw [hr1, hs1]; exact hrp) (by rw [hr1]; exact h4) hw1
      rw [hr1] at hroom1
      have hf2 : flac_span (B - f1) (write_cb_body bps l r B 0 w) = B - f1 := by
        unfold flac_span BYTES_PER_FRAME
        rw [hroom1]
        omega
      refine ⟨write_cb_body bps l r (B - f1) (0 + f1) (write_cb_body bps l r B 0 w),
        ?_, ?_, ?_, ?_⟩
      · intro fuel hfuel
        obtain ⟨n, rfl⟩ : ∃ n, fuel = n + 2 := ⟨fuel - 2, by omega⟩
        unfold write_cb_loop
        rw [if_neg hB]
        dsimp only
        rw [hf1]
        unfold write_cb_loop
        rw [if_neg (by omega)]
        dsimp only
        rw [hf2, Nat.sub_self]
        exact write_cb_loop_zero _ _ _ _ _ _
      · rw [write_cb_body_writep, hf2, hw1, hs1, Nat.zero_add]
        have e : w.outputbuf.writep + 8 * B = w.outputbuf.size + (B - f1) * 8 := by omega
        rw [e, Nat.add_mod_left]
      · intro i hi
        rw [write_cb_body_mem bps s hb, hf2, hw1, write_cb_body_mem bps s hb, hf1]
        by_cases hi1 : i < f1
        · have ha : (w.outputbuf.writep + 8 * i) % w.outputbuf.size
              = w.outputbuf.writep + 8 * i := Nat.mod_eq_of_lt (by omega)
          rw [ha]
          have := flac_loop_word s l r f1 0 w.outputbuf.writep w.outputbuf.mem i hi1
          rw [Nat.zero_add] at this
          rw [load32_congr _ (flac_loop s l r f1 0 w.outputbuf.writep w.outputbuf.mem)
              (w.outputbuf.writep + 8 * i)
              (fun x hx1 hx2 => flac_loop_outside s l r _ _ _ _ x (by omega)),
            load32_congr _ (flac_loop s l r f1 0 w.outputbuf.writep w.outputbuf.mem)
              (w.outputbuf.writep + 8 * i + 4)
              (fun x hx1 hx2 => flac_loop_outside s l r _ _ _ _ x (by omega))]
          exact this
        · have ha : (w.outputbuf.writep + 8 * i) % w.outputbuf.size = 0 + 8 * (i - f1) := by
            rw [mod_wrap _ _ (by omega) (by omega)]
            omega
          rw [ha]
          have := flac_loop_word s l r (B - f1) (0 + f1) 0
            (flac_loop s l r f1 0 w.outputbuf.writep w.outputbuf.mem) (i - f1) (by omega)
          have e : 0 + f1 + (i - f1) = i := by omega
          rw [e] at this
          exact this
      · intro x hx
        rw [write_cb_body_mem bps s hb, hf2, hw1, write_cb_body_mem bps s hb, hf1]
        have hx1 : x < w.outputbuf.writep ∨ w.outputbuf.writep + 8 * f1 ≤ x := by
          by_contra hcon
          have := hx ((x - w.outputbuf.writep) / 8) (by omega)
          rw [Nat.mod_eq_of_lt (by omega)] at this
          omega
        have hx2 : x < 0 ∨ 0 + 8 * (B - f1) ≤ x := by
          by_contra hcon
          have := hx (f1 + x / 8) (by omega)
          rw [mod_wrap _ _ (by omega) (by omega)] at this
          omega
        rw [flac_loop_outside s l r _ _ _ _ x hx2, flac_loop_outside s l r _ _ _ _ x hx1]

theorem write_cb_start_outputbuf (h : flac_frame_header) (w : World) :
    (write_cb_start h w).outputbuf = w.outputbuf := by
  unfold write_cb_start
  dsimp only
  split
  · rw [set_track_start_outputbuf]; rfl
  · rfl

/-- C8: FLAC `write_cb` on a frame of `blocksize` `B` with 16 or 24 bits per
sample (`s = 16`, resp. `s = 8`), when OUTPUTBUF has at least `8 * B` bytes of
space and its capacity and both pointers are multiples of 8: the frame loop
ends (two passes always suffice) and the write pointer has moved by `8 * B`
modulo the capacity; for every `i < B` the frame at `writep + 8 * i` (modulo
the capacity, so across the wrap point) is `(left[i] << s, right[i] << s)`
modulo `2^32`, where `right` is `left` when the frame has one channel; no byte
outside these `B` frames is written.  The single stereo 16-bit sample
`(0x1234, 0x5678)` of scenario S3 gives the frame `{0x12340000, 0x56780000}`. -/
theorem write_cb_frames (h : flac_frame_header) (buffer : Nat → Nat → Int) (w : World) (s : Nat)
    (hb : (h.bits_per_sample = 16 ∧ s = 16) ∨ (h.bits_per_sample = 24 ∧ s = 8))
    (hwf : w.outputbuf.wf) (h8s : 8 ∣ w.outputbuf.size) (h8r : 8 ∣ w.outputbuf.readp)
    (h8w : 8 ∣ w.outputbuf.writep) (hroom : 8 * h.blocksize ≤ _buf_space w.outputbuf) :
    (∃ w', (∀ fuel, 2 ≤ fuel → write_cb fuel h buffer w = some w') ∧
      w'.outputbuf.writep = (w.outputbuf.writep + 8 * h.blocksize) % w.outputbuf.size ∧
      (∀ i, i < h.blocksize →
        load32 w'.outputbuf.mem ((w.outputbuf.writep + 8 * i) % w.outputbuf.size)
          = s32_bits (buffer 0 i * 2 ^ s) ∧
        load32 w'.outputbuf.mem ((w.outputbuf.writep + 8 * i) % w.outputbuf.size + 4)
          = s32_bits (buffer (if h.channels > 1 then 1 else 0) i * 2 ^ s) ∧
        (h.channels = 1 →
          load32 w'.outputbuf.mem ((w.outputbuf.writep + 8 * i) % w.outputbuf.size + 4)
            = load32 w'.outputbuf.mem ((w.outputbuf.writep + 8 * i) % w.outputbuf.size))) ∧
      (∀ x, (∀ i, i < h.blocksize → x < (w.outputbuf.writep + 8 * i) % w.outputbuf.size ∨
          (w.outputbuf.writep + 8 * i) % w.outputbuf.size + 8 ≤ x) →
        w'.outputbuf.mem x = w.outputbuf.mem x)) ∧
    (∃ w', write_cb 2 S3_header S3_buffer S1_world = some w' ∧
      out_word S1_world w' 0 = 0x12340000 ∧ out_word S1_world w' 1 = 0x56780000) := by
  refine ⟨?_, ⟨_, rfl, by decide, by decide⟩⟩
  have e := write_cb_start_outputbuf h w
  obtain ⟨w1, p1, p2, p3, p4⟩ := write_cb_loop_room h.bits_per_sample s hb (buffer 0)
    (buffer (if h.channels > 1 then 1 else 0)) h.blocksize (write_cb_start h w)
    (by rw [e]; exact hwf) (by rw [e]; exact h8s) (by rw [e]; exact h8r) (by rw [e]; exact h8w)
    (by rw [e]; exact hroom)
  rw [e] at p2 p3 p4
  refine ⟨UNLOCK_O w1, ?_, p2, ?_, p4⟩
  · intro fuel hfuel
    unfold write_cb
    dsimp only
    rw [p1 fuel hfuel]
  · intro i hi
    obtain ⟨q1, q2⟩ := p3 i hi
    refine ⟨q1, q2, fun hc => ?_⟩
    have q1' : load32 (UNLOCK_O w1).outputbuf.mem
        ((w.outputbuf.writep + 8 * i) % w.outputbuf.size) = s32_bits (buffer 0 i * 2 ^ s) := q1
    have q2' : load32 (UNLOCK_O w1).outputbuf.mem
        ((w.outputbuf.writep + 8 * i) % w.outputbuf.size + 4)
        = s32_bits (buffer (if h.channels > 1 then 1 else 0) i * 2 ^ s) := q2
    rw [q1', q2', hc]
    rfl

/-- Witness of C8: a block of 3 frames written at offset 56 of the 64-byte
ring wraps after its first frame. -/
theorem write_cb_frames_witness :
    ∃ w', write_cb 2 { S3_header with blocksize := 3 } S3_buffer
        { S1_world with outputbuf := { S1_outputbuf with readp := 32, writep := 56 } }
        = some w' ∧
      w'.outputbuf.writep = 16 ∧
      load32 w'.outputbuf.mem 56 = 0x12340000 ∧ load32 w'.outputbuf.mem 60 = 0x56780000 ∧
      load32 w'.outputbuf.mem 0 = 0x12340000 ∧ load32 w'.outputbuf.mem 12 = 0x56780000 := by
  obtain ⟨⟨w', h1, h2, h3, _⟩, _⟩ := write_cb_frames { S3_header with blocksize := 3 } S3_buffer
    { S1_world with outputbuf := { S1_outputbuf with readp := 32, writep := 56 } } 16
    (Or.inl ⟨rfl, rfl⟩) (by decide) (by decide) (by decide) (by decide) (by decide)
  refine ⟨w', h1 2 (by decide), ?_, ?_, ?_, ?_, ?_⟩
  · rw [h2]; decide
  · exact (h3 0 (by decide)).1
  · exact (h3 0 (by decide)).2.1
  · exact (h3 1 (by decide)).1
  · exact (h3 2 (by decide)).2.1

theorem write_cb_loop_unsupported_mem (bps : Nat) (h16 : bps ≠ 16) (h24 : bps ≠ 24)
    (l r : Nat → Int) :
    ∀ (fuel frames i : Nat) (w w' : World), write_cb_loop bps l r fuel frames i w = some w' →
      w'.outputbuf.mem = w.outputbuf.mem := by
  intro fuel
  induction fuel with
  | zero =>
    intro frames i w w' h
    unfold write_cb_loop at h
    split at h
    · injection h with h; subst h; rfl
    · cases h
  | succ n ih =>
    intro frames i w w' h
    unfold write_cb_loop at h
    split at h
    · injection h with h; subst h; rfl
    · rw [ih _ _ _ _ h]
      exact write_cb_body_mem_unsupported bps h16 h24 l r frames i w

/-- C9 (code at the failing input): for a frame whose `bits_per_sample` is
neither 16 nor 24, `write_cb` writes nothing into OUTPUTBUF, yet on the frame
of one 8-bit sample it moves the write pointer from 0 to 8: the unwritten
bytes of that block become visible to the reader. -/
theorem write_cb_unsupported_bits :
    (∀ (fuel : Nat) (h : flac_frame_header) (buffer : Nat → Nat → Int) (w w' : World),
      h.bits_per_sample ≠ 16 → h.bits_per_sample ≠ 24 → write_cb fuel h buffer w = some w' →
      w'.outputbuf.mem = w.outputbuf.mem) ∧
    (∃ w', write_cb 1 S3_header8 S3_buffer S1_world = some w' ∧
      S3_header8.bits_per_sample = 8 ∧
      S1_world.outputbuf.writep = 0 ∧ w'.outputbuf.writep = 8 ∧
      _buf_used S1_world.outputbuf = 0 ∧ _buf_used w'.outputbuf = 8) := by
  constructor
  · intro fuel h buffer w w' h16 h24 hres
    obtain ⟨w1, h1, hw'⟩ := write_cb_some fuel h buffer w w' hres
    subst hw'
    show w1.outputbuf.mem = _
    rw [write_cb_loop_unsupported_mem _ h16 h24 _ _ _ _ _ _ _ h1, write_cb_start_outputbuf]
  · exact ⟨_, rfl, rfl, rfl, by decide, by decide, by decide⟩

/-- C10: the result of `flac_decode` depends on the library state alone, not
on the boolean returned by `process_single`: it is COMPLETE exactly for
`END_OF_STREAM`, ERROR exactly for states numerically greater, RUNNING exactly
for states numerically smaller; every state gives one of these three. -/
theorem flac_decode_state (ok : Bool) (state : Int) :
    (flac_decode ok state = DECODE_COMPLETE ↔ state = FLAC__STREAM_DECODER_END_OF_STREAM) ∧
    (flac_decode ok state = DECODE_ERROR ↔ FLAC__STREAM_DECODER_END_OF_STREAM < state) ∧
    (flac_decode ok state = DECODE_RUNNING ↔ state < FLAC__STREAM_DECODER_END_OF_STREAM) ∧
    flac_decode ok state = flac_decode (!ok) state ∧
    (flac_decode ok state = DECODE_COMPLETE ∨ flac_decode ok state = DECODE_ERROR ∨
      flac_decode ok state = DECODE_RUNNING) := by
  unfold flac_decode
  dsimp only
  by_cases h1 : state = FLAC__STREAM_DECODER_END_OF_STREAM
  · rw [if_pos h1]
    refine ⟨⟨fun _ => h1, fun _ => rfl⟩, ⟨fun h => (by cases h), fun h => ?_⟩,
      ⟨fun h => (by cases h), fun h => ?_⟩, rfl, Or.inl rfl⟩
    · omega
    · omega
  · rw [if_neg h1]
    by_cases h2 : state > FLAC__STREAM_DECODER_END_OF_STREAM
    · rw [if_pos h2]
      refine ⟨⟨fun h => (by cases h), fun h => absurd h h1⟩, ⟨fun _ => h2, fun _ => rfl⟩,
        ⟨fun h => (by cases h), fun h => ?_⟩, rfl, Or.inr (Or.inl rfl)⟩
      omega
    · rw [if_neg h2]
      refine ⟨⟨fun h => (by cases h), fun h => absurd h h1⟩,
        ⟨fun h => (by cases h), fun h => absurd h h2⟩, ⟨fun _ => ?_, fun _ => rfl⟩, rfl,
        Or.inr (Or.inr rfl)⟩
      omega

/-- Witness of C7 (amended): with 7 bytes of output space `pcm_decode` returns
RUNNING and moves neither pointer, and `vorbis_decode` returns RUNNING only
because the library of scenario S4 delivers data for a zero-length request. -/
theorem backpressure_per_frame_witness :
    min (_buf_space S6_full_world.outputbuf) (_buf_cont_write S6_full_world.outputbuf) < 8 ∧
    (∃ w', pcm_decode S1_pcm S6_full_world = some (DECODE_RUNNING, w') ∧
      w'.streambuf.readp = S6_full_world.streambuf.readp ∧
      w'.outputbuf.writep = S6_full_world.outputbuf.writep) ∧
    (∃ v' w', vorbis_decode S4_lib S4_vorbis S6_full_world = some (DECODE_RUNNING, v', w') ∧
      ∃ w2 : World, 0 < (ov_read_call S4_lib w2 0).n) := by
  obtain ⟨_, hp, hv⟩ := backpressure_per_frame
  refine ⟨by decide, ?_, ?_⟩
  · obtain ⟨w', h1, h2, h3, _⟩ := hp S1_pcm S6_full_world (by decide) (by decide) (by decide)
      (by decide) (by decide)
    exact ⟨w', h1, h2, h3⟩
  · refine ⟨_, _, rfl, ?_⟩
    exact (hv S4_lib S4_vorbis S6_full_world _ _ _ (by decide) rfl).2.2.2 rfl

/-! ### `read_cb` -/

theorem read_bytes_length (m : Nat → Nat) : ∀ (n a : Nat), (read_bytes m a n).length = n := by
  intro n
  induction n with
  | zero => intro a; rfl
  | succ k ih => intro a; simp [read_bytes, ih]

theorem read_bytes_get (m : Nat → Nat) :
    ∀ (n a i : Nat), i < n → (read_bytes m a n)[i]? = some (rd8 m (a + i)) := by
  intro n
  induction n with
  | zero => intro a i h; omega
  | succ k ih =>
    intro a i h
    cases i with
    | zero => simp [read_bytes]
    | succ j =>
      simp only [read_bytes, List.getElem?_cons_succ]
      rw [ih (a + 1) j (by omega)]
      congr 2
      omega

theorem read_bytes_append (m : Nat → Nat) :
    ∀ (n a k : Nat), read_bytes m a (n + k) = read_bytes m a n ++ read_bytes m (a + n) k := by
  intro n
  induction n with
  | zero => intro a k; simp [read_bytes]
  | succ j ih =>
    intro a k
    have e : j + 1 + k = (j + k) + 1 := by omega
    rw [e]
    simp only [read_bytes, List.cons_append]
    rw [ih (a + 1) k]
    have e2 : a + 1 + j = a + (j + 1) := by omega
    rw [e2]

theorem cont_read_zero_iff (b : buffer) (h : b.wf) :
    min (_buf_used b) (_buf_cont_read b) = 0 ↔ _buf_used b = 0 := by
  unfold _buf_cont_read
  obtain ⟨hr, _⟩ := h
  omega

/-- C11 (as stated): with a request of zero bytes and the upstream
disconnected, `read_cb` returns END_OF_STREAM although STREAMBUF still holds
four unread bytes. -/
theorem read_cb_end_counterexample :
    ¬ (∀ (want : Nat) (w : World), w.streambuf.wf →
      ((read_cb want w).1 = FLAC__StreamDecoderReadStatus.END_OF_STREAM ↔
        (w.stream.state ≤ DISCONNECT ∧
          min (_buf_used w.streambuf) (_buf_cont_read w.streambuf) = 0))) := by
  intro h
  have h1 := h 0 { S1_world with stream := { state := DISCONNECT } } (by decide)
  revert h1
  decide

/-- C11 (amended): FLAC `read_cb`, for every STREAMBUF state, stream state and
requested count `want`, copies `n = min(used, contiguous read span, want)`
bytes, which are the next `n` unread bytes at the read pointer in ring order
(a following call continues right after them), sets `*want` to `n ≤ want`,
advances the read pointer by `n` and leaves the ring contents alone.  It
returns END_OF_STREAM if and only if the upstream is disconnected
(`stream.state ≤ DISCONNECT`) and zero bytes were copied (`n = 0`), otherwise
CONTINUE; for a request `want > 0` that is exactly when the upstream is
disconnected and zero bytes were available in STREAMBUF. -/
theorem read_cb_copies (want : Nat) (w : World) :
    (read_cb want w).2.1 =
      read_bytes w.streambuf.mem w.streambuf.readp
        (min (min (_buf_used w.streambuf) (_buf_cont_read w.streambuf)) want) ∧
    (read_cb want w).2.1.length = (read_cb want w).2.2.1 ∧
    (∀ i, i < (read_cb want w).2.2.1 →
      (read_cb want w).2.1[i]? = some (rd8 w.streambuf.mem (w.streambuf.readp + i))) ∧
    (read_cb want w).2.2.1 = min (min (_buf_used w.streambuf) (_buf_cont_read w.streambuf)) want ∧
    (read_cb want w).2.2.1 ≤ want ∧
    (read_cb want w).2.2.1 ≤ w.streambuf.size - w.streambuf.readp ∧
    (read_cb want w).2.2.2.streambuf.readp =
      (w.streambuf.readp + (read_cb want w).2.2.1) % w.streambuf.size ∧
    (read_cb want w).2.2.2.streambuf.mem = w.streambuf.mem ∧
    (∀ want2, w.streambuf.readp + (read_cb want w).2.2.1 < w.streambuf.size →
      (read_cb want w).2.1 ++ (read_cb want2 (read_cb want w).2.2.2).2.1 =
        read_bytes w.streambuf.mem w.streambuf.readp
          ((read_cb want w).2.2.1 + (read_cb want2 (read_cb want w).2.2.2).2.2.1)) ∧
    ((read_cb want w).1 = FLAC__StreamDecoderReadStatus.END_OF_STREAM ↔
      (w.stream.state ≤ DISCONNECT ∧ (read_cb want w).2.2.1 = 0)) ∧
    ((read_cb want w).1 ≠ FLAC__StreamDecoderReadStatus.END_OF_STREAM →
      (read_cb want w).1 = FLAC__StreamDecoderReadStatus.CONTINUE) ∧
    (0 < want → w.streambuf.wf →
      ((read_cb want w).1 = FLAC__StreamDecoderReadStatus.END_OF_STREAM ↔
        (w.stream.state ≤ DISCONNECT ∧ _buf_used w.streambuf = 0))) := by
  have hn : (read_cb want w).2.2.1
      = min (min (_buf_used w.streambuf) (_buf_cont_read w.streambuf)) want := rfl
  have hc : (read_cb want w).2.1 = read_bytes w.streambuf.mem w.streambuf.readp
      (min (min (_buf_used w.streambuf) (_buf_cont_read w.streambuf)) want) := rfl
  have hst : (read_cb want w).1 =
      if (w.stream.state ≤ DISCONNECT ∧
          min (min (_buf_used w.streambuf) (_buf_cont_read w.streambuf)) want = 0) then
        FLAC__StreamDecoderReadStatus.END_OF_STREAM
      else FLAC__StreamDecoderReadStatus.CONTINUE := by
    unfold read_cb
    dsimp only
    simp only [decide_eq_true_eq]
    rfl
  have hend : (read_cb want w).1 = FLAC__StreamDecoderReadStatus.END_OF_STREAM ↔
      (w.stream.state ≤ DISCONNECT ∧ (read_cb want w).2.2.1 = 0) := by
    rw [hst, hn]
    split
    · next h => exact ⟨fun _ => h, fun _ => rfl⟩
    · next h => exact ⟨fun hh => (by cases hh), fun hh => absurd hh h⟩
  refine ⟨hc, ?_, ?_, hn, ?_, ?_, rfl, rfl, ?_, hend, ?_, ?_⟩
  · rw [hc, hn]; exact read_bytes_length _ _ _
  · intro i hi
    rw [hc]
    exact read_bytes_get _ _ _ _ (by rw [hn] at hi; exact hi)
  · rw [hn]; exact Nat.min_le_right _ _
  · rw [hn]
    exact Nat.le_trans (Nat.min_le_left _ _)
      (Nat.le_trans (Nat.min_le_right _ _) (_buf_cont_read_le _))
  · intro want2 hlt
    have h2 : (read_cb want2 (read_cb want w).2.2.2).2.1 =
        read_bytes w.streambuf.mem
          ((w.streambuf.readp + (read_cb want w).2.2.1) % w.streambuf.size)
          (read_cb want2 (read_cb want w).2.2.2).2.2.1 := rfl
    rw [h2, Nat.mod_eq_of_lt hlt, read_bytes_append]
    rfl
  · intro hne
    rw [hst] at hne ⊢
    split
    · next h => rw [if_pos h] at hne; exact absurd rfl hne
    · rfl
  · intro hw hwf
    rw [hend, hn]
    have := cont_read_zero_iff w.streambuf hwf
    constructor
    · rintro ⟨h1, h2⟩
      exact ⟨h1, this.mp (by omega)⟩
    · rintro ⟨h1, h2⟩
      exact ⟨h1, by rw [h2]; simp⟩

/-- Witness of C11 (amended): a request of 3 bytes on the stream of scenario
S1 copies `00 01 FF` and continues. -/
theorem read_cb_copies_witness :
    0 < 3 ∧ S1_world.streambuf.wf ∧
    (read_cb 3 S1_world).2.1 = [0x00, 0x01, 0xFF] ∧
    ((read_cb 3 S1_world).1 = FLAC__StreamDecoderReadStatus.END_OF_STREAM ↔
      (S1_world.stream.state ≤ DISCONNECT ∧ _buf_used S1_world.streambuf = 0)) := by
  refine ⟨by decide, by decide, by decide, ?_⟩
  exact (read_cb_copies 3 S1_world).2.2.2.2.2.2.2.2.2.2.2 (by decide) (by decide)

/-! ### `vorbis_decode`: the backward walk -/

theorem rd_s16_congr (m m' : Nat → Nat) (a : Nat)
    (h : ∀ x, a ≤ x → x < a + 2 → m x = m' x) : rd_s16 m a = rd_s16 m' a := by
  unfold rd_s16 load16 rd8
  rw [h a (by omega) (by omega), h (a + 1) (by omega) (by omega)]

theorem vorbis_loop2_walk :
    ∀ (count wp : Nat) (mem : Nat → Nat),
      (∀ k, k < count →
        load32 (vorbis_loop2 count (wp + 2 * count) (wp + 4 * count) mem) (wp + 4 * k)
          = s32_bits (rd_s16 mem (wp + 2 * k) * 2 ^ 16)) ∧
      (∀ x, x < wp ∨ wp + 4 * count ≤ x →
        vorbis_loop2 count (wp + 2 * count) (wp + 4 * count) mem x = mem x) := by
  intro count
  induction count with
  | zero =>
    intro wp mem
    exact ⟨fun k hk => absurd hk (by omega), fun x _ => rfl⟩
  | succ n ih =>
    intro wp mem
    have e1 : wp + 2 * (n + 1) - 2 = wp + 2 * n := by omega
    have e2 : wp + 4 * (n + 1) - 4 = wp + 4 * n := by omega
    simp only [vorbis_loop2, e1, e2]
    obtain ⟨ih1, ih2⟩ := ih wp
      (store32 mem (wp + 4 * n) (s32_bits (rd_s16 mem (wp + 2 * n) * 2 ^ 16)))
    constructor
    · intro k hk
      by_cases hkn : k < n
      · rw [ih1 k hkn]
        rw [rd_s16_congr _ mem (wp + 2 * k)
          (fun x h1 h2 => store32_outside mem _ _ x (by omega))]
      · have hk' : k = n := by omega
        subst hk'
        rw [load32_congr _ _ (wp + 4 * k) (fun x h1 h2 => ih2 x (by omega)), load32_store32]
        exact Nat.mod_eq_of_lt (s32_bits_lt _)
    · intro x hx
      rw [ih2 x (by omega)]
      exact store32_outside mem _ _ x (by omega)

theorem vorbis_loop1_walk :
    ∀ (count wp : Nat) (mem : Nat → Nat),
      (∀ i, i < count →
        load32 (vorbis_loop1 count (wp + 2 * count) (wp + 8 * count) mem) (wp + 8 * i)
          = s32_bits (rd_s16 mem (wp + 2 * i) * 2 ^ 16) ∧
        load32 (vorbis_loop1 count (wp + 2 * count) (wp + 8 * count) mem) (wp + 8 * i + 4)
          = s32_bits (rd_s16 mem (wp + 2 * i) * 2 ^ 16)) ∧
      (∀ x, x < wp ∨ wp + 8 * count ≤ x →
        vorbis_loop1 count (wp + 2 * count) (wp + 8 * count) mem x = mem x) := by
  intro count
  induction count with
  | zero =>
    intro wp mem
    exact ⟨fun k hk => absurd hk (by omega), fun x _ => rfl⟩
  | succ n ih =>
    intro wp mem
    have e1 : wp + 2 * (n + 1) - 2 = wp + 2 * n := by omega
    have e2 : wp + 8 * (n + 1) - 4 = wp + 8 * n + 4 := by omega
    have e3 : wp + 8 * n + 4 - 4 = wp + 8 * n := by omega
    simp only [vorbis_loop1, e1, e2, e3]
    have hsame : rd_s16 (store32 mem (wp + 8 * n + 4)
        (s32_bits (rd_s16 mem (wp + 2 * n) * 2 ^ 16))) (wp + 2 * n)
        = rd_s16 mem (wp + 2 * n) :=
      rd_s16_congr _ mem (wp + 2 * n) (fun x h1 h2 => store32_outside mem _ _ x (by omega))
    rw [hsame]
    obtain ⟨ih1, ih2⟩ := ih wp
      (store32 (store32 mem (wp + 8 * n + 4) (s32_bits (rd_s16 mem (wp + 2 * n) * 2 ^ 16)))
        (wp + 8 * n) (s32_bits (rd_s16 mem (wp + 2 * n) * 2 ^ 16)))
    constructor
    · intro i hi
      by_cases hin : i < n
      · obtain ⟨q1, q2⟩ := ih1 i hin
        rw [q1, q2]
        have : rd_s16 (store32 (store32 mem (wp + 8 * n + 4)
            (s32_bits (rd_s16 mem (wp + 2 * n) * 2 ^ 16)))
            (wp + 8 * n) (s32_bits (rd_s16 mem (wp + 2 * n) * 2 ^ 16))) (wp + 2 * i)
            = rd_s16 mem (wp + 2 * i) :=
          rd_s16_congr _ mem (wp + 2 * i) (fun x h1 h2 => by
            rw [store32_outside _ _ _ x (by omega), store32_outside _ _ _ x (by omega)])
        rw [this]
        exact ⟨rfl, rfl⟩
      · have hi' : i = n := by omega
        subst hi'
        constructor
        · rw [load32_congr _ _ (wp + 8 * i) (fun x h1 h2 => ih2 x (by omega)), load32_store32]
          exact Nat.mod_eq_of_lt (s32_bits_lt _)
        · rw [load32_congr _ _ (wp + 8 * i + 4) (fun x h1 h2 => ih2 x (by omega)),
            load32_store32_disjoint _ _ _ _ (by omega), load32_store32]
          exact Nat.mod_eq_of_lt (s32_bits_lt _)
    · intro x hx
      rw [ih2 x (by omega), store32_outside _ _ _ x (by omega),
        store32_outside _ _ _ x (by omega)]

theorem run_reads_total :
    ∀ (rs : List (Nat × Nat)) (w : World), (∀ q, q ∈ rs → q.1 ≠ 0) →
      ∃ w1, run_reads rs w = some w1 := by
  intro rs
  induction rs with
  | nil => intro w _; exact ⟨w, rfl⟩
  | cons a rest ih =>
    intro w h
    obtain ⟨size, nmemb⟩ := a
    have hs : size ≠ 0 := h (size, nmemb) (List.mem_cons_self _ _)
    unfold run_reads
    unfold _read_cb
    dsimp only
    rw [if_neg hs]
    exact ih _ (fun q hq => h q (List.mem_cons_of_mem _ hq))

theorem tdiv_frames (n c : Int) (hc : c = 1 ∨ c = 2) (hn : 0 < n) (hb : n < 2 ^ 32) :
    s32_bits (Int.tdiv (Int.tdiv n 2) c) = n.toNat / 2 / c.toNat ∧ s32_bits c = c.toNat := by
  obtain ⟨m, rfl⟩ := Int.eq_ofNat_of_zero_le (Int.le_of_lt hn)
  have h2 : Int.tdiv (m : Int) 2 = ((m / 2 : Nat) : Int) := (Int.ofNat_tdiv m 2).symm
  unfold s32_bits
  rcases hc with h | h
  · subst h
    have h3 : Int.tdiv ((m / 2 : Nat) : Int) 1 = ((m / 2 / 1 : Nat) : Int) :=
      (Int.ofNat_tdiv (m / 2) 1).symm
    rw [h2, h3]
    refine ⟨?_, rfl⟩
    rw [Int.emod_eq_of_lt (by omega) (by omega)]
    rfl
  · subst h
    have h3 : Int.tdiv ((m / 2 : Nat) : Int) 2 = ((m / 2 / 2 : Nat) : Int) :=
      (Int.ofNat_tdiv (m / 2) 2).symm
    rw [h2, h3]
    refine ⟨?_, rfl⟩
    rw [Int.emod_eq_of_lt (by omega) (by omega)]
    rfl

theorem vorbis_frames_mul_le (w : World) :
    vorbis_frames w * 8 ≤ min (_buf_space w.outputbuf) (_buf_cont_write w.outputbuf) := by
  unfold vorbis_frames BYTES_PER_FRAME
  exact Nat.div_mul_le_self _ _

theorem _buf_space_le (b : buffer) : _buf_space b ≤ b.size - 1 := by
  unfold _buf_space
  omega

theorem vorbis_frames_small (w : World) (hsz : w.outputbuf.size ≤ 2 ^ 32) :
    vorbis_frames w * 8 < 2 ^ 32 := by
  have h1 := vorbis_frames_mul_le w
  have h2 := _buf_space_le w.outputbuf
  have h3 : min (_buf_space w.outputbuf) (_buf_cont_write w.outputbuf)
      ≤ _buf_space w.outputbuf := Nat.min_le_left _ _
  by_cases h0 : w.outputbuf.size = 0
  · have : _buf_space w.outputbuf = 0 := by omega
    omega
  · omega

theorem vorbis_request_eq (v : vorbis) (w : World) (hc : v.channels = 1 ∨ v.channels = 2)
    (hsz : w.outputbuf.size ≤ 2 ^ 32) :
    vorbis_request v w = ((vorbis_frames w * 2 * v.channels.toNat : Nat) : Int) := by
  have hf := vorbis_frames_small w hsz
  unfold vorbis_request vorbis_bytes
  have hs : s32_bits v.channels = v.channels.toNat := by
    rcases hc with h | h <;> rw [h] <;> rfl
  rw [hs]
  have hlt : vorbis_frames w * 2 * v.channels.toNat < 2 ^ 31 := by
    rcases hc with h | h <;> rw [h] <;> simp <;> omega
  unfold u32 to_int
  rw [Nat.mod_eq_of_lt (by omega), Nat.mod_eq_of_lt (by omega), if_pos hlt]

theorem vorbis_out_frames_le (lib : vorbis_lib) (v : vorbis) (w : World)
    (hc : v.channels = 1 ∨ v.channels = 2) (hsz : w.outputbuf.size ≤ 2 ^ 32)
    (hle : vorbis_n lib v w ≤ vorbis_request v w) :
    vorbis_out_frames lib v w ≤ vorbis_frames w := by
  rw [vorbis_request_eq v w hc hsz] at hle
  unfold vorbis_out_frames
  rcases hc with h | h
  · rw [h] at hle ⊢
    simp at hle ⊢
    omega
  · rw [h] at hle ⊢
    simp at hle ⊢
    omega

theorem vorbis_decode_read_mem (lib : vorbis_lib) (v : vorbis) (frames : Nat) (w : World)
    (r : decode_state) (v' : vorbis) (w' : World)
    (h : vorbis_decode_read lib v frames w = some (r, v', w'))
    (hn : 0 < (ov_read_call lib w (vorbis_bytes frames v.channels)).n) :
    w'.outputbuf.mem =
      if v.channels = 2 then
        vorbis_loop2
          (u32 (s32_bits (Int.tdiv (Int.tdiv
            (ov_read_call lib w (vorbis_bytes frames v.channels)).n 2) v.channels)
              * s32_bits v.channels))
          (w.outputbuf.writep + 2 * u32 (s32_bits (Int.tdiv (Int.tdiv
            (ov_read_call lib w (vorbis_bytes frames v.channels)).n 2) v.channels)
              * s32_bits v.channels))
          (w.outputbuf.writep + 4 * u32 (s32_bits (Int.tdiv (Int.tdiv
            (ov_read_call lib w (vorbis_bytes frames v.channels)).n 2) v.channels) * 2))
          (store_bytes w.outputbuf.mem w.outputbuf.writep
            (ov_read_call lib w (vorbis_bytes frames v.channels)).data)
      else if v.channels = 1 then
        vorbis_loop1
          (u32 (s32_bits (Int.tdiv (Int.tdiv
            (ov_read_call lib w (vorbis_bytes frames v.channels)).n 2) v.channels)
              * s32_bits v.channels))
          (w.outputbuf.writep + 2 * u32 (s32_bits (Int.tdiv (Int.tdiv
            (ov_read_call lib w (vorbis_bytes frames v.channels)).n 2) v.channels)
              * s32_bits v.channels))
          (w.outputbuf.writep + 4 * u32 (s32_bits (Int.tdiv (Int.tdiv
            (ov_read_call lib w (vorbis_bytes frames v.channels)).n 2) v.channels) * 2))
          (store_bytes w.outputbuf.mem w.outputbuf.writep
            (ov_read_call lib w (vorbis_bytes frames v.channels)).data)
      else
        store_bytes w.outputbuf.mem w.outputbuf.writep
          (ov_read_call lib w (vorbis_bytes frames v.channels)).data := by
  unfold vorbis_decode_read at h
  dsimp only at h
  split at h
  · cases h
  · next w1 h1 =>
    obtain ⟨a1, _⟩ := run_reads_rest _ _ _ h1
    have a1' : w1.outputbuf = w.outputbuf := a1
    rw [if_pos hn] at h
    split at h
    · cases h
    · injection h with h
      injection h with _ h
      injection h with _ h
      subst h
      show (if v.channels = 2 then _ else if v.channels = 1 then _ else _) = _
      rw [a1']

theorem vorbis_decode_read_total (lib : vorbis_lib) (v : vorbis) (frames : Nat) (w : World)
    (hreads : ∀ q, q ∈ (ov_read_call lib w (vorbis_bytes frames v.channels)).reads → q.1 ≠ 0)
    (hch : 0 < (ov_read_call lib w (vorbis_bytes frames v.channels)).n → v.channels ≠ 0) :
    ∃ r w', vorbis_decode_read lib v frames w = some (r, v, w') := by
  obtain ⟨w1, h1⟩ := run_reads_total _ (w.emit (Event.ov_read (vorbis_bytes frames v.channels)))
    hreads
  unfold vorbis_decode_read
  dsimp only
  rw [h1]
  dsimp only
  by_cases hn : 0 < (ov_read_call lib w (vorbis_bytes frames v.channels)).n
  · rw [if_pos hn, if_neg (hch hn)]
    exact ⟨_, _, rfl⟩
  · rw [if_neg hn]
    split <;> exact ⟨_, _, rfl⟩

/-- C12: Vorbis in-place expansion equals expansion into a separate buffer.
For one or two channels, when the library has placed `n > 0` bytes (at most
the requested length) of 16-bit samples at the OUTPUTBUF write pointer and
`F = n / 2 / channels`, the call returns RUNNING and afterwards every 32-bit
word `j < 2F` at the original write pointer equals word `j` of the
separate-buffer expansion of the samples as the library stored them: for
stereo word `k` is sample `k` shifted left by 16, for mono words `2i` and
`2i+1` are both sample `i` shifted left by 16.  The words are those of the
original samples, so no sample is overwritten before it has been read; no
byte outside the `8F` bytes is changed by the walk; the write pointer advances
by `8F`.  In scenario S4 the single mono sample `0x7FFF` gives the frame
`{0x7FFF0000, 0x7FFF0000}` at the original write pointer and an advance of 8. -/
theorem vorbis_expand_in_place (lib : vorbis_lib) (v : vorbis) (w : World)
    (hc : v.channels = 1 ∨ v.channels = 2)
    (hreads : ∀ q, q ∈ (ov_read_call lib w (vorbis_request v w)).reads → q.1 ≠ 0)
    (hn : 0 < vorbis_n lib v w) (hle : vorbis_n lib v w ≤ vorbis_request v w)
    (hsz : w.outputbuf.size ≤ 2 ^ 32) :
    (∃ w', vorbis_decode_read lib v (vorbis_frames w) w = some (DECODE_RUNNING, v, w') ∧
      (∀ j, j < 2 * vorbis_out_frames lib v w →
        load32 w'.outputbuf.mem (w.outputbuf.writep + 4 * j)
          = expand_separate v.channels (vorbis_sample lib v w) j) ∧
      (v.channels = 2 → ∀ k, k < 2 * vorbis_out_frames lib v w →
        load32 w'.outputbuf.mem (w.outputbuf.writep + 4 * k)
          = s32_bits (vorbis_sample lib v w k * 2 ^ 16)) ∧
      (v.channels = 1 → ∀ i, i < vorbis_out_frames lib v w →
        load32 w'.outputbuf.mem (w.outputbuf.writep + 4 * (2 * i))
          = s32_bits (vorbis_sample lib v w i * 2 ^ 16) ∧
        load32 w'.outputbuf.mem (w.outputbuf.writep + 4 * (2 * i + 1))
          = s32_bits (vorbis_sample lib v w i * 2 ^ 16)) ∧
      (∀ x, x < w.outputbuf.writep ∨ w.outputbuf.writep + 8 * vorbis_out_frames lib v w ≤ x →
        w'.outputbuf.mem x = vorbis_lib_mem lib v w x) ∧
      w'.outputbuf.writep =
        (w.outputbuf.writep + 8 * vorbis_out_frames lib v w) % w.outputbuf.size) ∧
    (∃ v' w', vorbis_decode S4_lib S4_vorbis S1_world = some (DECODE_RUNNING, v', w') ∧
      load32 w'.outputbuf.mem S1_world.outputbuf.writep = 0x7FFF0000 ∧
      load32 w'.outputbuf.mem (S1_world.outputbuf.writep + 4) = 0x7FFF0000 ∧
      w'.outputbuf.writep = S1_world.outputbuf.writep + 8) := by
  refine ⟨?_, ⟨_, _, rfl, by decide, by decide, by decide⟩⟩
  have hreq := vorbis_request_eq v w hc hsz
  have hFle := vorbis_out_frames_le lib v w hc hsz hle
  have hfs := vorbis_frames_small w hsz
  have hn32 : vorbis_n lib v w < 2 ^ 32 := by
    have : vorbis_frames w * 2 * v.channels.toNat < 2 ^ 31 := by
      rcases hc with h | h <;> rw [h] <;> simp <;> omega
    omega
  obtain ⟨hF, hcs⟩ := tdiv_frames (vorbis_n lib v w) v.channels hc hn hn32
  have hF' : s32_bits (Int.tdiv (Int.tdiv (vorbis_n lib v w) 2) v.channels)
      = vorbis_out_frames lib v w := hF
  have hch0 : v.channels ≠ 0 := by rcases hc with h | h <;> rw [h] <;> decide
  obtain ⟨r, w', hres⟩ := vorbis_decode_read_total lib v (vorbis_frames w) w hreads
    (fun _ => hch0)
  obtain ⟨hr, hwp⟩ := (vorbis_decode_read_result lib v (vorbis_frames w) w r v w' hres).1 hn
  have hmem := vorbis_decode_read_mem lib v (vorbis_frames w) w r v w' hres hn
  subst hr
  have hn' : (ov_read_call lib w (vorbis_bytes (vorbis_frames w) v.channels)).n
      = vorbis_n lib v w := rfl
  have hM : store_bytes w.outputbuf.mem w.outputbuf.writep
      (ov_read_call lib w (vorbis_bytes (vorbis_frames w) v.channels)).data
      = vorbis_lib_mem lib v w := rfl
  rw [hn', hF'] at hwp hmem
  rw [hM] at hmem
  have h8 : u32 (vorbis_out_frames lib v w * BYTES_PER_FRAME)
      = 8 * vorbis_out_frames lib v w := by
    unfold u32 BYTES_PER_FRAME
    rw [Nat.mod_eq_of_lt (by omega)]
    omega
  have h2 : u32 (vorbis_out_frames lib v w * 2) = 2 * vorbis_out_frames lib v w := by
    unfold u32
    rw [Nat.mod_eq_of_lt (by omega)]
    omega
  rw [h8] at hwp
  rw [h2] at hmem
  have key : (v.channels = 2 → ∀ k, k < 2 * vorbis_out_frames lib v w →
        load32 w'.outputbuf.mem (w.outputbuf.writep + 4 * k)
          = s32_bits (vorbis_sample lib v w k * 2 ^ 16)) ∧
      (v.channels = 1 → ∀ i, i < vorbis_out_frames lib v w →
        load32 w'.outputbuf.mem (w.outputbuf.writep + 4 * (2 * i))
          = s32_bits (vorbis_sample lib v w i * 2 ^ 16) ∧
        load32 w'.outputbuf.mem (w.outputbuf.writep + 4 * (2 * i + 1))
          = s32_bits (vorbis_sample lib v w i * 2 ^ 16)) ∧
      (∀ x, x < w.outputbuf.writep ∨ w.outputbuf.writep + 8 * vorbis_out_frames lib v w ≤ x →
        w'.outputbuf.mem x = vorbis_lib_mem lib v w x) := by
    rcases hc with h | h
    · have hcnt : u32 (vorbis_out_frames lib v w * s32_bits v.channels)
          = vorbis_out_frames lib v w := by
        rw [hcs, h]
        unfold u32
        simp only [Int.toNat_one, Nat.mul_one]
        exact Nat.mod_eq_of_lt (by omega)
      rw [hcnt, if_neg (by rw [h]; decide), if_pos h] at hmem
      have e : w.outputbuf.writep + 4 * (2 * vorbis_out_frames lib v w)
          = w.outputbuf.writep + 8 * vorbis_out_frames lib v w := by omega
      rw [e] at hmem
      obtain ⟨q1, q2⟩ := vorbis_loop1_walk (vorbis_out_frames lib v w) w.outputbuf.writep
        (vorbis_lib_mem lib v w)
      rw [← hmem] at q1 q2
      refine ⟨fun h2 => ?_, fun _ i hi => ?_, q2⟩
      · rw [h] at h2; exact absurd h2 (by decide)
      · have := q1 i hi
        have e0 : w.outputbuf.writep + 4 * (2 * i) = w.outputbuf.writep + 8 * i := by omega
        have e1 : w.outputbuf.writep + 4 * (2 * i + 1) = w.outputbuf.writep + 8 * i + 4 := by
          omega
        rw [e0, e1]
        exact this
    · have hcnt : u32 (vorbis_out_frames lib v w * s32_bits v.channels)
          = 2 * vorbis_out_frames lib v w := by
        rw [hcs, h]
        exact h2
      rw [hcnt, if_pos h] at hmem
      obtain ⟨q1, q2⟩ := vorbis_loop2_walk (2 * vorbis_out_frames lib v w) w.outputbuf.writep
        (vorbis_lib_mem lib v w)
      rw [← hmem] at q1 q2
      refine ⟨fun _ k hk => q1 k hk, fun h1 => ?_, fun x hx => q2 x (by omega)⟩
      rw [h] at h1; exact absurd h1 (by decide)
  obtain ⟨k2, k1, kout⟩ := key
  refine ⟨w', hres, ?_, k2, k1, kout, hwp⟩
  intro j hj
  unfold expand_separate
  rcases hc with h | h
  · rw [if_neg (by rw [h]; decide)]
    obtain ⟨a, b⟩ := k1 h (j / 2) (by omega)
    rcases Nat.mod_two_eq_zero_or_one j with hj0 | hj1
    · have : j = 2 * (j / 2) := by omega
      rw [this] at a ⊢
      simp only [Nat.mul_div_cancel_left _ (by decide : 0 < 2)] at a ⊢
      exact a
    · have : j = 2 * (j / 2) + 1 := by omega
      have e : (2 * (j / 2) + 1) / 2 = j / 2 := by omega
      rw [this, e]
      exact b
  · rw [if_pos h]
    exact k2 h j hj

/-- Witness of C12: two stereo frames `(1, -2)`, `(3, -4)` stored by the
library as 8 bytes are expanded in place to four words. -/
theorem vorbis_expand_in_place_witness :
    0 < vorbis_n stereo_lib { channels := 2 } S1_world ∧
    vorbis_n stereo_lib { channels := 2 } S1_world
      ≤ vorbis_request { channels := 2 } S1_world ∧
    vorbis_out_frames stereo_lib { channels := 2 } S1_world = 2 ∧
    ∃ w', vorbis_decode_read stereo_lib { channels := 2 } (vorbis_frames S1_world) S1_world
        = some (DECODE_RUNNING, { channels := 2 }, w') ∧
      load32 w'.outputbuf.mem 0 = 0x00010000 ∧ load32 w'.outputbuf.mem 4 = 0xFFFE0000 ∧
      load32 w'.outputbuf.mem 8 = 0x00030000 ∧ load32 w'.outputbuf.mem 12 = 0xFFFC0000 ∧
      w'.outputbuf.writep = 16 := by
  refine ⟨by decide, by decide, by decide, ?_⟩
  obtain ⟨⟨w', h1, _, h2, _, _, h3⟩, _⟩ :=
    vorbis_expand_in_place stereo_lib { channels := 2 } S1_world (Or.inr rfl)
      (fun q hq => absurd hq (List.not_mem_nil q)) (by decide) (by decide) (by decide)
  refine ⟨w', h1, ?_, ?_, ?_, ?_, ?_⟩
  · exact (h2 rfl 0 (by decide)).trans (by decide)
  · exact (h2 rfl 1 (by decide)).trans (by decide)
  · exact (h2 rfl 2 (by decide)).trans (by decide)
  · exact (h2 rfl 3 (by decide)).trans (by decide)
  · rw [h3]; decide

/-! ### `vorbis_decode`: the paths after the open -/

theorem ov_read_calls_append (a b : List Event) :
    ov_read_calls (a ++ b) = ov_read_calls a ++ ov_read_calls b := by
  unfold ov_read_calls
  exact List.filterMap_append _ _ _

theorem vorbis_decode_early (lib : vorbis_lib) (v : vorbis) (w : World)
    (hc : vorbis_frames w = 0 ∧ w.stream.state ≤ DISCONNECT) :
    vorbis_decode lib v w
      = some (DECODE_COMPLETE, v, UNLOCK_S (UNLOCK_O (LOCK_O (LOCK_S w)))) := by
  unfold vorbis_decode
  dsimp only
  have h : vorbis_frames (LOCK_O (LOCK_S w)) = 0 ∧
      decide ((LOCK_O (LOCK_S w)).stream.state ≤ DISCONNECT) = true := by
    refine ⟨hc.1, ?_⟩
    have : (LOCK_O (LOCK_S w)).stream.state ≤ DISCONNECT := hc.2
    simpa using this
  rw [if_pos h]

theorem vorbis_decode_old_stream (lib : vorbis_lib) (v : vorbis) (w : World)
    (hc : ¬ (vorbis_frames w = 0 ∧ w.stream.state ≤ DISCONNECT))
    (hn : w.decode.new_stream = false) :
    vorbis_decode lib v w = vorbis_decode_read lib v (vorbis_frames w) (LOCK_O (LOCK_S w)) := by
  unfold vorbis_decode
  dsimp only
  have h : ¬ (vorbis_frames (LOCK_O (LOCK_S w)) = 0 ∧
      decide ((LOCK_O (LOCK_S w)).stream.state ≤ DISCONNECT) = true) := by
    intro hh
    apply hc
    refine ⟨hh.1, ?_⟩
    have := hh.2
    simpa using this
  have hn' : ¬ ((LOCK_O (LOCK_S w)).decode.new_stream = true) := by
    show ¬ (w.decode.new_stream = true)
    rw [hn]; decide
  rw [if_neg h, if_neg hn']
  rfl

theorem vorbis_decode_new_stream (lib : vorbis_lib) (v : vorbis) (w w1 : World)
    (hc : ¬ (vorbis_frames w = 0 ∧ w.stream.state ≤ DISCONNECT))
    (hn : w.decode.new_stream = true)
    (h1 : run_reads (lib.ov_open_callbacks w.streambuf).reads
      ((LOCK_O (LOCK_S w)).emit Event.ov_open_callbacks) = some w1) :
    vorbis_decode lib v w =
      if (lib.ov_open_callbacks w.streambuf).err < 0 then
        some (DECODE_COMPLETE, v, UNLOCK_S (UNLOCK_O w1))
      else if (lib.ov_open_callbacks w.streambuf).info.channels > 2 then
        some (DECODE_ERROR, { v with channels := (lib.ov_open_callbacks w.streambuf).info.channels },
          UNLOCK_S (UNLOCK_O (set_track_start
            (s32_bits (lib.ov_open_callbacks w.streambuf).info.rate) (w1.emit Event.ov_info))))
      else
        vorbis_decode_read lib
          { v with channels := (lib.ov_open_callbacks w.streambuf).info.channels }
          (vorbis_frames w)
          (set_track_start (s32_bits (lib.ov_open_callbacks w.streambuf).info.rate)
            (w1.emit Event.ov_info)) := by
  unfold vorbis_decode
  dsimp only
  have h : ¬ (vorbis_frames (LOCK_O (LOCK_S w)) = 0 ∧
      decide ((LOCK_O (LOCK_S w)).stream.state ≤ DISCONNECT) = true) := by
    intro hh
    apply hc
    refine ⟨hh.1, ?_⟩
    have := hh.2
    simpa using this
  have hn' : (LOCK_O (LOCK_S w)).decode.new_stream = true := hn
  have h1' : run_reads (lib.ov_open_callbacks (LOCK_O (LOCK_S w)).streambuf).reads
      ((LOCK_O (LOCK_S w)).emit Event.ov_open_callbacks) = some w1 := h1
  rw [if_neg h, if_pos hn', h1']
  rfl

/-- C13: on the first decode of a track (`new_stream` true, the call reaches
the open, and the library's open succeeds), a stream whose info reports more
than two channels makes `vorbis_decode` return ERROR; the library's read is
not called and OUTPUTBUF, write pointer included, is left as it was.  The
header with 5 channels of scenario S5 is rejected this way. -/
theorem vorbis_rejects_channels (lib : vorbis_lib) (v : vorbis) (w : World)
    (hc : ¬ (vorbis_frames w = 0 ∧ w.stream.state ≤ DISCONNECT))
    (hn : w.decode.new_stream = true)
    (hreads : ∀ q, q ∈ (lib.ov_open_callbacks w.streambuf).reads → q.1 ≠ 0)
    (herr : 0 ≤ (lib.ov_open_callbacks w.streambuf).err)
    (hch : 2 < (lib.ov_open_callbacks w.streambuf).info.channels) :
    (∃ v' w', vorbis_decode lib v w = some (DECODE_ERROR, v', w') ∧
      ov_read_calls w'.trace = ov_read_calls w.trace ∧
      w'.outputbuf.writep = w.outputbuf.writep ∧
      w'.outputbuf = w.outputbuf) ∧
    (∃ v' w', vorbis_decode S5_lib S4_vorbis S1_world = some (DECODE_ERROR, v', w') ∧
      v'.channels = 5 ∧ w'.outputbuf.writep = S1_world.outputbuf.writep) := by
  refine ⟨?_, ⟨_, _, rfl, rfl, rfl⟩⟩
  obtain ⟨w1, h1⟩ := run_reads_total _ ((LOCK_O (LOCK_S w)).emit Event.ov_open_callbacks) hreads
  have hd := vorbis_decode_new_stream lib v w w1 hc hn h1
  rw [if_neg (by omega), if_pos hch] at hd
  obtain ⟨_, _, _, _, pbuf⟩ := vorbis_open_publish _
    (s32_bits (lib.ov_open_callbacks w.streambuf).info.rate) w w1 h1
  obtain ⟨_, _, _, _, a5, _⟩ := run_reads_rest _ _ _ h1
  have a5' : w1.trace = ((w.trace ++ [Event.lock_S]) ++ [Event.lock_O])
      ++ [Event.ov_open_callbacks] := a5
  refine ⟨_, _, hd, ?_, congrArg buffer.writep pbuf, pbuf⟩
  show ov_read_calls (((set_track_start _ (w1.emit Event.ov_info)).trace ++ [Event.unlock_O])
    ++ [Event.unlock_S]) = _
  rw [set_track_start_trace]
  have e3 : (w1.emit Event.ov_info).trace = w1.trace ++ [Event.ov_info] := rfl
  rw [e3, a5']
  split <;> simp [ov_read_calls_append, ov_read_calls]

/-- Witness of C13: the 5-channel header of scenario S5. -/
theorem vorbis_rejects_channels_witness :
    S1_world.decode.new_stream = true ∧
    2 < (S5_lib.ov_open_callbacks S1_world.streambuf).info.channels ∧
    ∃ v' w', vorbis_decode S5_lib S4_vorbis S1_world = some (DECODE_ERROR, v', w') ∧
      ov_read_calls w'.trace = ov_read_calls S1_world.trace := by
  refine ⟨rfl, by decide, ?_⟩
  obtain ⟨⟨v', w', h1, h2, _⟩, _⟩ := vorbis_rejects_channels S5_lib S4_vorbis S1_world
    (by decide) rfl (by decide) (by decide) (by decide)
  exact ⟨v', w', h1, h2⟩

/-- C14: how `vorbis_decode` maps the library's read result `n`.  Every call
that reaches `ov_read` continues with `vorbis_decode_read` (directly when
`new_stream` is false, after a successful open with at most two channels
otherwise).  There, when no callback or frame division divides by zero, the
call returns: for `n = 0` COMPLETE, for `n < 0` COMPLETE as well (never
ERROR), in both cases with the OUTPUTBUF write pointer unchanged; for `n > 0`
RUNNING with the write pointer advanced by `(n / 2 / channels) * 8` (32-bit
product, around the ring), which for one or two channels and `n` within the
requested length is `8 * (n / 2 / channels)` without wrap. -/
theorem vorbis_read_result_mapping :
    (∀ (lib : vorbis_lib) (v : vorbis) (w : World),
      ¬ (vorbis_frames w = 0 ∧ w.stream.state ≤ DISCONNECT) → w.decode.new_stream = false →
      vorbis_decode lib v w
        = vorbis_decode_read lib v (vorbis_frames w) (LOCK_O (LOCK_S w))) ∧
    (∀ (lib : vorbis_lib) (v : vorbis) (w w1 : World),
      ¬ (vorbis_frames w = 0 ∧ w.stream.state ≤ DISCONNECT) → w.decode.new_stream = true →
      run_reads (lib.ov_open_callbacks w.streambuf).reads
        ((LOCK_O (LOCK_S w)).emit Event.ov_open_callbacks) = some w1 →
      0 ≤ (lib.ov_open_callbacks w.streambuf).err →
      (lib.ov_open_callbacks w.streambuf).info.channels ≤ 2 →
      vorbis_decode lib v w =
        vorbis_decode_read lib
          { v with channels := (lib.ov_open_callbacks w.streambuf).info.channels }
          (vorbis_frames w)
          (set_track_start (s32_bits (lib.ov_open_callbacks w.streambuf).info.rate)
            (w1.emit Event.ov_info))) ∧
    (∀ (lib : vorbis_lib) (v : vorbis) (frames : Nat) (w : World),
      (∀ q, q ∈ (ov_read_call lib w (vorbis_bytes frames v.channels)).reads → q.1 ≠ 0) →
      (0 < (ov_read_call lib w (vorbis_bytes frames v.channels)).n → v.channels ≠ 0) →
      ∃ r w', vorbis_decode_read lib v frames w = some (r, v, w') ∧
        ov_read_calls w'.trace = ov_read_calls w.trace ++ [vorbis_bytes frames v.channels] ∧
        ((ov_read_call lib w (vorbis_bytes frames v.channels)).n = 0 →
          r = DECODE_COMPLETE ∧ w'.outputbuf.writep = w.outputbuf.writep) ∧
        ((ov_read_call lib w (vorbis_bytes frames v.channels)).n < 0 →
          r = DECODE_COMPLETE ∧ r ≠ DECODE_ERROR ∧ w'.outputbuf.writep = w.outputbuf.writep) ∧
        (0 < (ov_read_call lib w (vorbis_bytes frames v.channels)).n →
          r = DECODE_RUNNING ∧
          w'.outputbuf.writep =
            (w.outputbuf.writep +
              u32 (s32_bits (Int.tdiv (Int.tdiv
                (ov_read_call lib w (vorbis_bytes frames v.channels)).n 2) v.channels)
                  * BYTES_PER_FRAME)) % w.outputbuf.size)) ∧
    (∀ (lib : vorbis_lib) (v : vorbis) (w : World) (r : decode_state) (w' : World),
      vorbis_decode_read lib v (vorbis_frames w) w = some (r, v, w') →
      v.channels = 1 ∨ v.channels = 2 → w.outputbuf.size ≤ 2 ^ 32 →
      0 < vorbis_n lib v w → vorbis_n lib v w ≤ vorbis_request v w →
      r = DECODE_RUNNING ∧
      w'.outputbuf.writep =
        (w.outputbuf.writep + (vorbis_n lib v w).toNat / 2 / v.channels.toNat * 8)
          % w.outputbuf.size ∧
      (vorbis_n lib v w).toNat / 2 / v.channels.toNat * 8
        ≤ w.outputbuf.size - w.outputbuf.writep) := by
  refine ⟨vorbis_decode_old_stream, ?_, ?_, ?_⟩
  · intro lib v w w1 hc hn h1 herr hch
    rw [vorbis_decode_new_stream lib v w w1 hc hn h1, if_neg (by omega), if_neg (by omega)]
  · intro lib v frames w hreads hch
    obtain ⟨r, w', hres⟩ := vorbis_decode_read_total lib v frames w hreads hch
    obtain ⟨h1, h2⟩ := vorbis_decode_read_result lib v frames w r v w' hres
    obtain ⟨_, _, _, c4, _⟩ := vorbis_decode_read_rest lib v frames w r v w' hres
    refine ⟨r, w', hres, ?_, fun h0 => h2 (by omega), fun hneg => ?_, h1⟩
    · rw [c4, ov_read_calls_append]
      simp [ov_read_calls]
    · obtain ⟨a, b⟩ := h2 (by omega)
      exact ⟨a, by rw [a]; decide, b⟩
  · intro lib v w r w' hres hc hsz hn hle
    have hreq := vorbis_request_eq v w hc hsz
    have hFle := vorbis_out_frames_le lib v w hc hsz hle
    have hfs := vorbis_frames_small w hsz
    have hn32 : vorbis_n lib v w < 2 ^ 32 := by
      have : vorbis_frames w * 2 * v.channels.toNat < 2 ^ 31 := by
        rcases hc with h | h <;> rw [h] <;> simp <;> omega
      omega
    obtain ⟨hF, _⟩ := tdiv_frames (vorbis_n lib v w) v.channels hc hn hn32
    obtain ⟨hr, hwp⟩ := (vorbis_decode_read_result lib v (vorbis_frames w) w r v w' hres).1 hn
    have hn' : (ov_read_call lib w (vorbis_bytes (vorbis_frames w) v.channels)).n
        = vorbis_n lib v w := rfl
    rw [hn', hF] at hwp
    have hFle' : (vorbis_n lib v w).toNat / 2 / v.channels.toNat ≤ vorbis_frames w := hFle
    have h8 : u32 ((vorbis_n lib v w).toNat / 2 / v.channels.toNat * BYTES_PER_FRAME)
        = (vorbis_n lib v w).toNat / 2 / v.channels.toNat * 8 := by
      unfold u32 BYTES_PER_FRAME
      exact Nat.mod_eq_of_lt (by omega)
    rw [h8] at hwp
    refine ⟨hr, hwp, ?_⟩
    have h1 := vorbis_frames_mul_le w
    have h2 : min (_buf_space w.outputbuf) (_buf_cont_write w.outputbuf)
        ≤ _buf_cont_write w.outputbuf := Nat.min_le_right _ _
    have h3 := _buf_cont_write_le w.outputbuf
    omega

/-- Witness of C14: the positive read of scenario S4 advances the write
pointer by one frame. -/
theorem vorbis_read_result_mapping_witness :
    0 < vorbis_n S4_lib { channels := 1 } S1_world ∧
    ∃ w', vorbis_decode_read S4_lib { channels := 1 } (vorbis_frames S1_world) S1_world
        = some (DECODE_RUNNING, { channels := 1 }, w') ∧
      w'.outputbuf.writep = 8 := by
  refine ⟨by decide, ?_⟩
  obtain ⟨_, _, _, h4⟩ := vorbis_read_result_mapping
  refine ⟨_, rfl, ?_⟩
  rw [(h4 S4_lib { channels := 1 } S1_world _ _ rfl (Or.inl rfl) (by decide) (by decide)
    (by decide)).2.1]
  decide

/-- C15 (as stated): when the library's open fails with a negative value on
the first decode of a track, `vorbis_decode` does not return ERROR. -/
theorem vorbis_open_failure_counterexample :
    ¬ (∀ (lib : vorbis_lib) (v : vorbis) (w : World),
      ¬ (vorbis_frames w = 0 ∧ w.stream.state ≤ DISCONNECT) → w.decode.new_stream = true →
      (lib.ov_open_callbacks w.streambuf).err < 0 →
      ∃ v' w', vorbis_decode lib v w = some (DECODE_ERROR, v', w')) := by
  intro h
  obtain ⟨v', w', h1⟩ := h failing_open_lib S4_vorbis S1_world (by decide) rfl (by decide)
  have h2 : vorbis_decode failing_open_lib S4_vorbis S1_world
      = some (DECODE_COMPLETE, S4_vorbis, UNLOCK_S (UNLOCK_O
          (({ (LOCK_O (LOCK_S S1_world)) with
              streambuf := _buf_inc_readp S1_world.streambuf 4 } : World).emit
            Event.ov_open_callbacks))) := rfl
  rw [h2] at h1
  injection h1 with h1
  injection h1 with h1 _
  cases h1

/-- C15 (amended): when the Vorbis library fails to open the stream on the
first decode of a track (`ov_open_callbacks` returns a negative value),
`vorbis_decode` returns COMPLETE, ending the track: nothing is published
(`new_stream` stays true, `next_sample_rate` and `track_start` are unchanged),
`ov_read` is not called, OUTPUTBUF is unchanged and the `channels` variable
keeps its value.  ERROR is returned by `vorbis_decode` only for a stream with
more than two channels: a call of any library in any state returns ERROR
exactly when it reaches the open on a new stream, the open succeeds and the
header declares more than two channels. -/
theorem vorbis_open_failure (lib : vorbis_lib) (v : vorbis) (w : World)
    (hc : ¬ (vorbis_frames w = 0 ∧ w.stream.state ≤ DISCONNECT))
    (hn : w.decode.new_stream = true)
    (hreads : ∀ q, q ∈ (lib.ov_open_callbacks w.streambuf).reads → q.1 ≠ 0)
    (herr : (lib.ov_open_callbacks w.streambuf).err < 0) :
    (∃ w', vorbis_decode lib v w = some (DECODE_COMPLETE, v, w') ∧
      w'.decode.new_stream = true ∧ w'.output = w.output ∧ w'.outputbuf = w.outputbuf ∧
      ov_read_calls w'.trace = ov_read_calls w.trace ∧
      checkfade_calls w'.trace = checkfade_calls w.trace) ∧
    (∀ (lib0 : vorbis_lib) (v0 : vorbis) (w0 : World) (r : decode_state) (v' : vorbis)
      (w' : World), vorbis_decode lib0 v0 w0 = some (r, v', w') →
      (r = DECODE_ERROR ↔
        (¬ (vorbis_frames w0 = 0 ∧ w0.stream.state ≤ DISCONNECT) ∧
          w0.decode.new_stream = true ∧
          0 ≤ (lib0.ov_open_callbacks w0.streambuf).err ∧
          2 < (lib0.ov_open_callbacks w0.streambuf).info.channels))) := by
  constructor
  · obtain ⟨w1, h1⟩ :=
      run_reads_total _ ((LOCK_O (LOCK_S w)).emit Event.ov_open_callbacks) hreads
    have hd := vorbis_decode_new_stream lib v w w1 hc hn h1
    rw [if_pos herr] at hd
    obtain ⟨a1, a2, a3, _, a5, _⟩ := run_reads_rest _ _ _ h1
    have a5' : w1.trace = ((w.trace ++ [Event.lock_S]) ++ [Event.lock_O])
        ++ [Event.ov_open_callbacks] := a5
    have a3' : w1.decode = w.decode := a3
    refine ⟨_, hd, ?_, a2, a1, ?_, ?_⟩
    · show w1.decode.new_stream = true
      rw [a3']; exact hn
    · show ov_read_calls ((w1.trace ++ [Event.unlock_O]) ++ [Event.unlock_S]) = _
      rw [a5']
      simp [ov_read_calls_append, ov_read_calls]
    · show checkfade_calls ((w1.trace ++ [Event.unlock_O]) ++ [Event.unlock_S]) = _
      rw [a5']
      simp [checkfade_calls_append, checkfade_calls]
  · intro lib0 v0 w0 r v' w' h
    have hread : ∀ (v1 : vorbis) (frames : Nat) (w1 : World),
        vorbis_decode_read lib0 v1 frames w1 = some (r, v', w') → r ≠ DECODE_ERROR := by
      intro v1 frames w1 h1 he
      obtain ⟨b1, b2⟩ := vorbis_decode_read_result lib0 v1 frames w1 r v' w' h1
      by_cases hp : 0 < (ov_read_call lib0 w1 (vorbis_bytes frames v1.channels)).n
      · rw [(b1 hp).1] at he; cases he
      · rw [(b2 (Int.not_lt.mp hp)).1] at he; cases he
    rcases vorbis_decode_cases lib0 v0 w0 r v' w' h with
      ⟨c1, c2, c3, _⟩ | ⟨c1, c2, w1, _, c4⟩ | ⟨c1, c2, c3⟩
    · constructor
      · intro he; rw [c3] at he; cases he
      · intro hh; exact absurd ⟨c1, c2⟩ hh.1
    · rcases c4 with ⟨d1, d2, _⟩ | ⟨d1, d2, d3, _⟩ | ⟨d1, d2, d3⟩
      · constructor
        · intro he; rw [d2] at he; cases he
        · intro hh; omega
      · exact ⟨fun _ => ⟨c1, c2, d1, d2⟩, fun _ => d3⟩
      · constructor
        · intro he; exact absurd he (hread _ _ _ d3)
        · intro hh; omega
    · constructor
      · intro he; exact absurd he (hread _ _ _ c3)
      · intro hh
        have := hh.2.1
        rw [c2] at this
        cases this

/-- Witness of C15 (amended): the failing open on the state of scenario S1
returns COMPLETE, and the ERROR of scenario S5 on the same state comes from a
successful open that declares more than two channels. -/
theorem vorbis_open_failure_witness :
    S1_world.decode.new_stream = true ∧
    (failing_open_lib.ov_open_callbacks S1_world.streambuf).err < 0 ∧
    (∃ w', vorbis_decode failing_open_lib S4_vorbis S1_world
        = some (DECODE_COMPLETE, S4_vorbis, w') ∧ w'.decode.new_stream = true) ∧
    (∃ v' w', vorbis_decode S5_lib S4_vorbis S1_world = some (DECODE_ERROR, v', w')) ∧
    0 ≤ (S5_lib.ov_open_callbacks S1_world.streambuf).err ∧
    2 < (S5_lib.ov_open_callbacks S1_world.streambuf).info.channels := by
  obtain ⟨⟨w', h1, h2, _⟩, h3⟩ := vorbis_open_failure failing_open_lib S4_vorbis S1_world
    (by decide) rfl (by decide) (by decide)
  have hs : ∃ v' w', vorbis_decode S5_lib S4_vorbis S1_world = some (DECODE_ERROR, v', w') :=
    ⟨_, _, rfl⟩
  obtain ⟨v5, w5, h5⟩ := hs
  obtain ⟨_, _, h6, h7⟩ := (h3 S5_lib S4_vorbis S1_world DECODE_ERROR v5 w5 h5).mp rfl
  exact ⟨rfl, by decide, ⟨w', h1, h2⟩, ⟨v5, w5, h5⟩, h6, h7⟩

/-- C16: `pcm_open` derives the configuration from the start-stream codes.
For a size code `'0'..'2'`, a rate code with index `rate - '0'` in `0..14`, a
channel code `'1'..'2'` and any endianness code it sets
`sample_size = size - '0' + 1` (1, 2 or 3), `sample_rate` to entry
`rate - '0'` of the table (index 3 gives 44100), `channels = chan - '0'`,
`bigendian = (endianness == '0')`, and calls `buf_adjust` on STREAMBUF with
`channels * sample_size`, which becomes the alignment (6 for 24-bit stereo);
`pcm_close` calls `buf_adjust` with 1, restoring the alignment to 1. -/
theorem pcm_open_config (size rate chan endianness : Nat) (w : World)
    (hs : 48 ≤ size ∧ size ≤ 50) (hr : 48 ≤ rate ∧ rate ≤ 62) (hc : 49 ≤ chan ∧ chan ≤ 50) :
    sample_rates = [11025, 22050, 32000, 44100, 48000, 8000, 12000, 16000, 24000, 96000,
      88200, 176400, 192000, 352800, 384000] ∧
    ∃ p w1, pcm_open size rate chan endianness w = some (p, w1) ∧
      p.sample_size = size - 48 + 1 ∧
      (p.sample_size = 1 ∨ p.sample_size = 2 ∨ p.sample_size = 3) ∧
      sample_rates.get? (rate - 48) = some p.sample_rate ∧
      (rate = 51 → p.sample_rate = 44100) ∧
      p.channels = chan - 48 ∧
      p.bigendian = decide (endianness = 48) ∧
      w1.streambuf = buf_adjust w.streambuf (p.channels * p.sample_size) ∧
      w1.streambuf.align = p.channels * p.sample_size ∧
      (size = 50 → chan = 50 → w1.streambuf.align = 6) ∧
      w1.outputbuf = w.outputbuf ∧ w1.output = w.output ∧ w1.decode = w.decode ∧
      (pcm_close w1).streambuf = buf_adjust w1.streambuf 1 ∧
      (pcm_close w1).streambuf.align = 1 := by
  refine ⟨rfl, ?_⟩
  have hlt : rate - 48 < sample_rates.length := by
    have : sample_rates.length = 15 := rfl
    omega
  obtain ⟨sr, hsr⟩ : ∃ sr, sample_rates.get? (rate - 48) = some sr :=
    ⟨_, List.get?_eq_get hlt⟩
  have hopen : pcm_open size rate chan endianness w =
      some ({ sample_size := (((size : Int) - 48 + 1) % 2 ^ 32).toNat, sample_rate := sr,
              channels := (((chan : Int) - 48) % 2 ^ 32).toNat,
              bigendian := decide (endianness = 48) },
            { w with streambuf := buf_adjust w.streambuf (u32 ((((size : Int) - 48 + 1) % 2 ^ 32).toNat * (((chan : Int) - 48) % 2 ^ 32).toNat)) }) := by
    unfold pcm_open
    dsimp only
    rw [if_neg (by omega), hsr]
  have hss : (((size : Int) - 48 + 1) % 2 ^ 32).toNat = size - 48 + 1 := by
    rw [Int.emod_eq_of_lt (by omega) (by omega)]
    omega
  have hch : (((chan : Int) - 48) % 2 ^ 32).toNat = chan - 48 := by
    rw [Int.emod_eq_of_lt (by omega) (by omega)]
    omega
  rw [hss, hch] at hopen
  have hprod : u32 ((size - 48 + 1) * (chan - 48)) = (chan - 48) * (size - 48 + 1) := by
    unfold u32
    have h1 : size - 48 + 1 ≤ 3 := by omega
    have h2 : chan - 48 ≤ 2 := by omega
    have h3 : (size - 48 + 1) * (chan - 48) ≤ 3 * 2 := Nat.mul_le_mul h1 h2
    rw [Nat.mod_eq_of_lt (by omega), Nat.mul_comm]
  rw [hprod] at hopen
  refine ⟨_, _, hopen, rfl, by dsimp only; omega, hsr, ?_, rfl, rfl, rfl, rfl, ?_, rfl, rfl,
    rfl, rfl, rfl⟩
  · intro h51
    subst h51
    have e : sample_rates.get? (51 - 48) = some 44100 := rfl
    rw [e] at hsr
    injection hsr with hsr
    exact hsr.symm
  · intro h1 h2
    subst h1; subst h2
    rfl

/-- Witness of C16: the codes `'2', '3', '2', '0'` give 24-bit big-endian
stereo at 44100 Hz with alignment 6. -/
theorem pcm_open_config_witness :
    ∃ p w1, pcm_open 50 51 50 48 S1_world = some (p, w1) ∧
      p.sample_size = 3 ∧ p.sample_rate = 44100 ∧ p.channels = 2 ∧ p.bigendian = true ∧
      w1.streambuf.align = 6 ∧ (pcm_close w1).streambuf.align = 1 := by
  obtain ⟨_, p, w1, h1, h2, _, _, h5, h6, h7, _, _, h10, _, _, _, _, h15⟩ :=
    pcm_open_config 50 51 50 48 S1_world (by decide) (by decide) (by decide)
  exact ⟨p, w1, h1, h2, h5 rfl, h6, h7, h10 rfl rfl, h15⟩

/-! ### Lock events of one call -/

theorem pcm_decode_added (p : pcm) (w : World) (r : decode_state) (w' : World)
    (h : pcm_decode p w = some (r, w')) :
    ∃ mid, w'.trace = w.trace ++ ([Event.lock_S, Event.lock_O] ++ mid
        ++ [Event.unlock_O, Event.unlock_S]) ∧
      (mid = [] ∨ mid = [Event.checkfade true]) := by
  rcases pcm_decode_cases p w r w' h with ⟨_, hw⟩ | ⟨_, hw⟩
  · subst hw
    refine ⟨[], ?_, Or.inl rfl⟩
    show (((w.trace ++ [Event.lock_S]) ++ [Event.lock_O]) ++ [Event.unlock_O])
      ++ [Event.unlock_S] = _
    simp
  · subst hw
    rw [pcm_decode_run_trace]
    split
    · rw [set_track_start_trace]
      split
      · refine ⟨[Event.checkfade true], ?_, Or.inr rfl⟩
        show (((w.trace ++ [Event.lock_S]) ++ [Event.lock_O]) ++ [Event.checkfade true])
          ++ [Event.unlock_O, Event.unlock_S] = _
        simp
      · refine ⟨[], ?_, Or.inl rfl⟩
        show ((w.trace ++ [Event.lock_S]) ++ [Event.lock_O])
          ++ [Event.unlock_O, Event.unlock_S] = _
        simp
    · refine ⟨[], ?_, Or.inl rfl⟩
      show ((w.trace ++ [Event.lock_S]) ++ [Event.lock_O])
        ++ [Event.unlock_O, Event.unlock_S] = _
      simp

theorem lock_events_append (a b : List Event) :
    lock_events (a ++ b) = lock_events a ++ lock_events b := by
  unfold lock_events
  exact List.filter_append _ _

theorem vorbis_decode_added (lib : vorbis_lib) (v : vorbis) (w : World) (r : decode_state)
    (v' : vorbis) (w' : World) (h : vorbis_decode lib v w = some (r, v', w')) :
    ∃ mid, w'.trace = w.trace ++ ([Event.lock_S, Event.lock_O] ++ mid
        ++ [Event.unlock_O, Event.unlock_S]) ∧ lock_events mid = [] := by
  rcases vorbis_decode_cases lib v w r v' w' h with
    ⟨_, _, _, _, hw⟩ | ⟨_, _, w1, h1, hB⟩ | ⟨_, _, hC⟩
  · subst hw
    refine ⟨[], ?_, rfl⟩
    show (((w.trace ++ [Event.lock_S]) ++ [Event.lock_O]) ++ [Event.unlock_O])
      ++ [Event.unlock_S] = _
    simp
  · obtain ⟨_, _, _, _, a5, _⟩ := run_reads_rest _ _ _ h1
    have a5' : w1.trace = ((w.trace ++ [Event.lock_S]) ++ [Event.lock_O])
        ++ [Event.ov_open_callbacks] := a5
    have e3 : (w1.emit Event.ov_info).trace = w1.trace ++ [Event.ov_info] := rfl
    rcases hB with ⟨_, _, _, hw⟩ | ⟨_, _, _, _, hw⟩ | ⟨_, _, hread⟩
    · subst hw
      refine ⟨[Event.ov_open_callbacks], ?_, rfl⟩
      show (w1.trace ++ [Event.unlock_O]) ++ [Event.unlock_S] = _
      rw [a5']
      simp
    · subst hw
      by_cases hf : w.output.fade_mode ≠ 0
      · refine ⟨[Event.ov_open_callbacks, Event.ov_info, Event.checkfade true], ?_, rfl⟩
        show ((set_track_start _ (w1.emit Event.ov_info)).trace ++ [Event.unlock_O])
          ++ [Event.unlock_S] = _
        obtain ⟨_, a2, _⟩ := run_reads_rest _ _ _ h1
        have a2' : (w1.emit Event.ov_info).output = w.output := a2
        rw [set_track_start_trace, a2', if_pos hf, e3, a5']
        simp
      · refine ⟨[Event.ov_open_callbacks, Event.ov_info], ?_, rfl⟩
        show ((set_track_start _ (w1.emit Event.ov_info)).trace ++ [Event.unlock_O])
          ++ [Event.unlock_S] = _
        obtain ⟨_, a2, _⟩ := run_reads_rest _ _ _ h1
        have a2' : (w1.emit Event.ov_info).output = w.output := a2
        rw [set_track_start_trace, a2', if_neg hf, e3, a5']
        simp
    · obtain ⟨_, _, _, c4, _⟩ := vorbis_decode_read_rest _ _ _ _ _ _ _ hread
      obtain ⟨_, a2, _⟩ := run_reads_rest _ _ _ h1
      have a2' : (w1.emit Event.ov_info).output = w.output := a2
      by_cases hf : w.output.fade_mode ≠ 0
      · refine ⟨[Event.ov_open_callbacks, Event.ov_info, Event.checkfade true,
          Event.ov_read (vorbis_bytes (vorbis_frames w)
            (lib.ov_open_callbacks w.streambuf).info.channels)], ?_, rfl⟩
        rw [c4, set_track_start_trace, a2', if_pos hf, e3, a5']
        simp
      · refine ⟨[Event.ov_open_callbacks, Event.ov_info,
          Event.ov_read (vorbis_bytes (vorbis_frames w)
            (lib.ov_open_callbacks w.streambuf).info.channels)], ?_, rfl⟩
        rw [c4, set_track_start_trace, a2', if_neg hf, e3, a5']
        simp
  · obtain ⟨_, _, _, c4, _⟩ := vorbis_decode_read_rest _ _ _ _ _ _ _ hC
    refine ⟨[Event.ov_read (vorbis_bytes (vorbis_frames w) v.channels)], ?_, rfl⟩
    rw [c4]
    show ((w.trace ++ [Event.lock_S]) ++ [Event.lock_O]) ++ _ = _
    simp

/-- C17: lock discipline of `pcm_decode` and `vorbis_decode`.  On every
return path (RUNNING, every early COMPLETE, ERROR) the mutex operations the
call adds to the record are exactly: lock STREAMBUF, lock OUTPUTBUF, unlock
OUTPUTBUF, unlock STREAMBUF, with the lock pair first and the unlock pair last
among all calls it makes.  So STREAMBUF is acquired first and OUTPUTBUF second
(never OUTPUTBUF while STREAMBUF is not held), OUTPUTBUF is released before
STREAMBUF, each mutex is acquired once and none is held on return. -/
theorem lock_discipline :
    (∀ (p : pcm) (w : World) (r : decode_state) (w' : World),
      pcm_decode p w = some (r, w') →
      ∃ mid, w'.trace = w.trace ++ ([Event.lock_S, Event.lock_O] ++ mid
          ++ [Event.unlock_O, Event.unlock_S]) ∧ lock_events mid = [] ∧
        lock_events ([Event.lock_S, Event.lock_O] ++ mid ++ [Event.unlock_O, Event.unlock_S])
          = [Event.lock_S, Event.lock_O, Event.unlock_O, Event.unlock_S]) ∧
    (∀ (lib : vorbis_lib) (v : vorbis) (w : World) (r : decode_state) (v' : vorbis)
      (w' : World), vorbis_decode lib v w = some (r, v', w') →
      ∃ mid, w'.trace = w.trace ++ ([Event.lock_S, Event.lock_O] ++ mid
          ++ [Event.unlock_O, Event.unlock_S]) ∧ lock_events mid = [] ∧
        lock_events ([Event.lock_S, Event.lock_O] ++ mid ++ [Event.unlock_O, Event.unlock_S])
          = [Event.lock_S, Event.lock_O, Event.unlock_O, Event.unlock_S]) := by
  constructor
  · intro p w r w' h
    obtain ⟨mid, h1, h2⟩ := pcm_decode_added p w r w' h
    have hm : lock_events mid = [] := by
      rcases h2 with h2 | h2 <;> rw [h2] <;> rfl
    refine ⟨mid, h1, hm, ?_⟩
    rw [lock_events_append, lock_events_append, hm]
    rfl
  · intro lib v w r v' w' h
    obtain ⟨mid, h1, hm⟩ := vorbis_decode_added lib v w r v' w' h
    refine ⟨mid, h1, hm, ?_⟩
    rw [lock_events_append, lock_events_append, hm]
    rfl

/-- Witness of C17: the lock events of the PCM call of scenario S1 and of the
rejected Vorbis open of scenario S5. -/
theorem lock_discipline_witness :
    (∃ w', pcm_decode S1_pcm S1_opened = some (DECODE_RUNNING, w') ∧
      lock_events w'.trace = [Event.lock_S, Event.lock_O, Event.unlock_O, Event.unlock_S]) ∧
    (∃ v' w', vorbis_decode S5_lib S4_vorbis S1_world = some (DECODE_ERROR, v', w') ∧
      lock_events w'.trace = [Event.lock_S, Event.lock_O, Event.unlock_O, Event.unlock_S]) := by
  obtain ⟨hp, hv⟩ := lock_discipline
  constructor
  · refine ⟨_, rfl, ?_⟩
    obtain ⟨mid, h1, _, h3⟩ := hp S1_pcm S1_opened _ _ rfl
    rw [h1, lock_events_append, h3]
    rfl
  · refine ⟨_, _, rfl, ?_⟩
    obtain ⟨mid, h1, _, h3⟩ := hv S5_lib S4_vorbis S1_world _ _ _ rfl
    rw [h1, lock_events_append, h3]
    rfl

/-! ### `next_param` and the `-b` option -/

theorem strchr_none (c : Char) : ∀ (s : List Char), c ∉ s → strchr c s = none := by
  intro s
  induction s with
  | nil => intro _; rfl
  | cons x xs ih =>
    intro h
    have hx : x ≠ c := fun e => h (by rw [e]; exact List.mem_cons_self _ _)
    have hxs : c ∉ xs := fun e => h (List.mem_cons_of_mem _ e)
    unfold strchr
    rw [if_neg hx, ih hxs]

theorem strchr_split (c : Char) :
    ∀ (s o : List Char), c ∉ s → strchr c (s ++ c :: o) = some (s, o) := by
  intro s
  induction s with
  | nil =>
    intro o _
    show strchr c (c :: o) = _
    unfold strchr
    rw [if_pos rfl]
  | cons x xs ih =>
    intro o h
    have hx : x ≠ c := fun e => h (by rw [e]; exact List.mem_cons_self _ _)
    have hxs : c ∉ xs := fun e => h (List.mem_cons_of_mem _ e)
    show strchr c (x :: (xs ++ c :: o)) = _
    unfold strchr
    rw [if_neg hx, ih o hxs]

/-- With no string left and no new source, `next_param` returns `NULL`. -/
theorem next_param_null (c : Char) : next_param none c none = (none, none) := rfl

theorem next_param_last (src : Option (List Char)) (c : Char) (str : Option (List Char))
    (f : List Char) (hsrc : src = some f ∨ (src = none ∧ str = some f)) (hc : c ∉ f) :
    next_param src c str = (if f = [] then none else some f, none) := by
  have hs := strchr_none c f hc
  rcases hsrc with h | ⟨h1, h2⟩
  · subst h
    unfold next_param
    dsimp only
    rw [hs]
    cases f with
    | nil => rfl
    | cons x xs => simp
  · subst h1; subst h2
    unfold next_param
    dsimp only
    rw [hs]
    cases f with
    | nil => rfl
    | cons x xs => simp

theorem next_param_field (src : Option (List Char)) (c : Char) (str : Option (List Char))
    (f rest : List Char)
    (hsrc : src = some (f ++ c :: rest) ∨ (src = none ∧ str = some (f ++ c :: rest)))
    (hc : c ∉ f) :
    next_param src c str = (if f = [] then none else some f, some rest) := by
  have hs := strchr_split c f rest hc
  rcases hsrc with h | ⟨h1, h2⟩
  · subst h
    unfold next_param
    dsimp only
    rw [hs]
    cases f with
    | nil => rfl
    | cons x xs => simp
  · subst h1; subst h2
    unfold next_param
    dsimp only
    rw [hs]
    cases f with
    | nil => rfl
    | cons x xs => simp

/-- C18: the buffer-size option `-b <stream>:<output>`.  For an option value
`s:o` (no colon inside `s` or `o`) the successive `next_param` calls with
separator `':'` return `s`, then `o`, each replaced by NULL when empty, and
NULL on every later call; for a value `s` without colon they return `s` (or
NULL when empty) and then NULL.  `main` sets `stream_buf_size = atoi(s) * 1024`
when the first field is non-empty and `output_buf_size = atoi(o) * 1024` when
the second is, as stored in an `unsigned`, and leaves the value it had (the
default `STREAMBUF_SIZE` / `OUTPUTBUF_SIZE`) for an empty or missing field:
`":4096"` changes only the output size, `"2048"` only the stream size. -/
theorem next_param_buffer_sizes :
    (∀ (s o : List Char) (str : Option (List Char)), ':' ∉ s → ':' ∉ o →
      next_param (some (s ++ ':' :: o)) ':' str = (if s = [] then none else some s, some o) ∧
      next_param none ':' (some o) = (if o = [] then none else some o, none) ∧
      next_param none ':' none = (none, none)) ∧
    (∀ (s : List Char) (str : Option (List Char)), ':' ∉ s →
      next_param (some s) ':' str = (if s = [] then none else some s, none) ∧
      next_param none ':' none = (none, none)) ∧
    (∀ (atoi : List Char → Int) (s o : List Char) (str : Option (List Char)) (sz : buf_sizes),
      ':' ∉ s → ':' ∉ o →
      (main_case_b atoi (s ++ ':' :: o) str sz).1.stream_buf_size =
        (if s = [] then sz.stream_buf_size else s32_bits (atoi s * 1024)) ∧
      (main_case_b atoi (s ++ ':' :: o) str sz).1.output_buf_size =
        (if o = [] then sz.output_buf_size else s32_bits (atoi o * 1024))) ∧
    (∀ (atoi : List Char → Int) (s : List Char) (str : Option (List Char)) (sz : buf_sizes),
      ':' ∉ s →
      (main_case_b atoi s str sz).1.stream_buf_size =
        (if s = [] then sz.stream_buf_size else s32_bits (atoi s * 1024)) ∧
      (main_case_b atoi s str sz).1.output_buf_size = sz.output_buf_size) ∧
    (∀ (atoi : List Char → Int) (s : List Char), 0 ≤ atoi s * 1024 → atoi s * 1024 < 2 ^ 32 →
      (s32_bits (atoi s * 1024) : Int) = atoi s * 1024) ∧
    (main_case_b atoi_digits [':', '4', '0', '9', '6'] none default_sizes).1.stream_buf_size
      = STREAMBUF_SIZE ∧
    (main_case_b atoi_digits [':', '4', '0', '9', '6'] none default_sizes).1.output_buf_size
      = 4096 * 1024 ∧
    (main_case_b atoi_digits ['2', '0', '4', '8'] none default_sizes).1.stream_buf_size
      = 2048 * 1024 ∧
    (main_case_b atoi_digits ['2', '0', '4', '8'] none default_sizes).1.output_buf_size
      = OUTPUTBUF_SIZE := by
  have h1 : ∀ (s o : List Char) (str : Option (List Char)), ':' ∉ s → ':' ∉ o →
      next_param (some (s ++ ':' :: o)) ':' str = (if s = [] then none else some s, some o) ∧
      next_param none ':' (some o) = (if o = [] then none else some o, none) ∧
      next_param none ':' none = (none, none) := by
    intro s o str hs ho
    exact ⟨next_param_field _ _ _ s o (Or.inl rfl) hs,
      next_param_last _ _ _ o (Or.inr ⟨rfl, rfl⟩) ho, rfl⟩
  have h2 : ∀ (s : List Char) (str : Option (List Char)), ':' ∉ s →
      next_param (some s) ':' str = (if s = [] then none else some s, none) ∧
      next_param none ':' none = (none, none) := by
    intro s str hs
    exact ⟨next_param_last _ _ _ s (Or.inl rfl) hs, rfl⟩
  refine ⟨h1, h2, ?_, ?_, fun atoi s h0 hlt => s32_bits_of_range _ h0 hlt,
    by decide, by decide, by decide, by decide⟩
  · intro atoi s o str sz hs ho
    obtain ⟨a, b, _⟩ := h1 s o str hs ho
    unfold main_case_b
    dsimp only
    rw [a]
    dsimp only
    rw [b]
    by_cases e1 : s = [] <;> by_cases e2 : o = [] <;> simp [e1, e2]
  · intro atoi s str sz hs
    obtain ⟨a, b⟩ := h2 s str hs
    unfold main_case_b
    dsimp only
    rw [a]
    dsimp only
    rw [b]
    by_cases e1 : s = [] <;> simp [e1]

/-- Witness of C18: the option value `64:128`. -/
theorem next_param_buffer_sizes_witness :
    ':' ∉ ['6', '4'] ∧ ':' ∉ ['1', '2', '8'] ∧
    (main_case_b atoi_digits (['6', '4'] ++ ':' :: ['1', '2', '8']) none
      default_sizes).1.stream_buf_size = 64 * 1024 ∧
    (main_case_b atoi_digits (['6', '4'] ++ ':' :: ['1', '2', '8']) none
      default_sizes).1.output_buf_size = 128 * 1024 := by
  obtain ⟨_, _, h3, _⟩ := next_param_buffer_sizes
  obtain ⟨a, b⟩ := h3 atoi_digits ['6', '4'] ['1', '2', '8'] none default_sizes (by decide)
    (by decide)
  refine ⟨by decide, by decide, ?_, ?_⟩
  · rw [a]; decide
  · rw [b]; decide

theorem store_bytes_outside :
    ∀ (data : List Nat) (m : Nat → Nat) (a x : Nat), (x < a ∨ a + data.length ≤ x) →
      store_bytes m a data x = m x := by
  intro data
  induction data with
  | nil => intro m a x _; rfl
  | cons b bs ih =>
    intro m a x hx
    simp only [store_bytes, List.length_cons] at hx ⊢
    rw [ih _ (a + 1) x (by omega)]
    have : x ≠ a := by omega
    simp [this]

/-- C20: the Vorbis request size guarantees that the 32-bit expansion fits.
For one or two channels `vorbis_decode` asks the library for exactly
`bytes = (min(space, contiguous_write) / 8) * 2 * channels` bytes, and for every
returned length `n` with `0 < n ≤ bytes` the expanded output
`(n / 2 / channels) * 8` is at most `min(space, contiguous_write)`, as is `n`
itself: neither the library's write of `n` bytes at the write pointer nor the
expansion touches a byte outside the contiguous free region. -/
theorem vorbis_request_fits (v : vorbis) (w : World) (hc : v.channels = 1 ∨ v.channels = 2)
    (hsz : w.outputbuf.size ≤ 2 ^ 32) :
    vorbis_request v w =
      ((min (_buf_space w.outputbuf) (_buf_cont_write w.outputbuf) / 8 : Nat) : Int) * 2
        * v.channels ∧
    (∀ (lib : vorbis_lib) (r : decode_state) (w' : World),
      vorbis_decode_read lib v (vorbis_frames w) w = some (r, v, w') →
      ov_read_calls w'.trace = ov_read_calls w.trace ++ [vorbis_request v w]) ∧
    (∀ n : Int, 0 < n → n ≤ vorbis_request v w →
      n.toNat / 2 / v.channels.toNat * 8
        ≤ min (_buf_space w.outputbuf) (_buf_cont_write w.outputbuf) ∧
      n.toNat ≤ min (_buf_space w.outputbuf) (_buf_cont_write w.outputbuf) ∧
      n.toNat / 2 / v.channels.toNat * 8 ≤ w.outputbuf.size - w.outputbuf.writep ∧
      n.toNat ≤ w.outputbuf.size - w.outputbuf.writep) ∧
    (∀ (data : List Nat) (x : Nat), (data.length : Int) ≤ vorbis_request v w →
      (x < w.outputbuf.writep ∨
        w.outputbuf.writep + min (_buf_space w.outputbuf) (_buf_cont_write w.outputbuf) ≤ x) →
      store_bytes w.outputbuf.mem w.outputbuf.writep data x = w.outputbuf.mem x) ∧
    (∀ (lib : vorbis_lib) (r : decode_state) (w' : World) (x : Nat),
      vorbis_decode_read lib v (vorbis_frames w) w = some (r, v, w') →
      0 < vorbis_n lib v w → vorbis_n lib v w ≤ vorbis_request v w →
      (x < w.outputbuf.writep ∨
        w.outputbuf.writep + min (_buf_space w.outputbuf) (_buf_cont_write w.outputbuf) ≤ x) →
      w'.outputbuf.mem x = vorbis_lib_mem lib v w x) := by
  have hreq := vorbis_request_eq v w hc hsz
  have hfm := vorbis_frames_mul_le w
  have hcw : min (_buf_space w.outputbuf) (_buf_cont_write w.outputbuf)
      ≤ w.outputbuf.size - w.outputbuf.writep :=
    Nat.le_trans (Nat.min_le_right _ _) (_buf_cont_write_le _)
  have hfd : vorbis_frames w
      = min (_buf_space w.outputbuf) (_buf_cont_write w.outputbuf) / 8 := rfl
  have hnum : ∀ n : Int, 0 < n → n ≤ vorbis_request v w →
      n.toNat / 2 / v.channels.toNat * 8
        ≤ min (_buf_space w.outputbuf) (_buf_cont_write w.outputbuf) ∧
      n.toNat ≤ min (_buf_space w.outputbuf) (_buf_cont_write w.outputbuf) := by
    intro n hn hle
    rw [hreq] at hle
    rcases hc with h | h
    · rw [h] at hle ⊢
      simp at hle ⊢
      omega
    · rw [h] at hle ⊢
      simp at hle ⊢
      omega
  refine ⟨?_, ?_, ?_, ?_, ?_⟩
  · rw [hreq, ← hfd]
    rcases hc with h | h
    · rw [h]; simp
    · rw [h]; simp
  · intro lib r w' hres
    obtain ⟨_, _, _, c4, _⟩ := vorbis_decode_read_rest lib v (vorbis_frames w) w r v w' hres
    rw [c4, ov_read_calls_append]
    simp [ov_read_calls, vorbis_request]
  · intro n hn hle
    obtain ⟨a, b⟩ := hnum n hn hle
    exact ⟨a, b, Nat.le_trans a hcw, Nat.le_trans b hcw⟩
  · intro data x hlen hx
    apply store_bytes_outside
    by_cases h0 : data.length = 0
    · rw [h0]; omega
    · have := (hnum (data.length : Int) (by omega) hlen).2
      simp at this
      omega
  · intro lib r w' x hres hn hle hx
    have hreads_mem := vorbis_decode_read_mem lib v (vorbis_frames w) w r v w' hres hn
    obtain ⟨a, _⟩ := hnum (vorbis_n lib v w) hn hle
    have hFle := vorbis_out_frames_le lib v w hc hsz hle
    have hfs := vorbis_frames_small w hsz
    have hn32 : vorbis_n lib v w < 2 ^ 32 := by
      have : vorbis_frames w * 2 * v.channels.toNat < 2 ^ 31 := by
        rcases hc with h | h <;> rw [h] <;> simp <;> omega
      omega
    obtain ⟨hF, hcs⟩ := tdiv_frames (vorbis_n lib v w) v.channels hc hn hn32
    have hF' : s32_bits (Int.tdiv (Int.tdiv (vorbis_n lib v w) 2) v.channels)
        = vorbis_out_frames lib v w := hF
    have hn' : (ov_read_call lib w (vorbis_bytes (vorbis_frames w) v.channels)).n
        = vorbis_n lib v w := rfl
    have hM : store_bytes w.outputbuf.mem w.outputbuf.writep
        (ov_read_call lib w (vorbis_bytes (vorbis_frames w) v.channels)).data
        = vorbis_lib_mem lib v w := rfl
    rw [hn', hF', hM] at hreads_mem
    have h2 : u32 (vorbis_out_frames lib v w * 2) = 2 * vorbis_out_frames lib v w := by
      unfold u32
      rw [Nat.mod_eq_of_lt (by omega)]
      omega
    rw [h2] at hreads_mem
    have a' : vorbis_out_frames lib v w * 8
        ≤ min (_buf_space w.outputbuf) (_buf_cont_write w.outputbuf) := a
    rw [hreads_mem]
    rcases hc with h | h
    · have hcnt : u32 (vorbis_out_frames lib v w * s32_bits v.channels)
          = vorbis_out_frames lib v w := by
        rw [hcs, h]
        unfold u32
        simp only [Int.toNat_one, Nat.mul_one]
        exact Nat.mod_eq_of_lt (by omega)
      rw [hcnt, if_neg (by rw [h]; decide), if_pos h]
      have e : w.outputbuf.writep + 4 * (2 * vorbis_out_frames lib v w)
          = w.outputbuf.writep + 8 * vorbis_out_frames lib v w := by omega
      rw [e]
      exact (vorbis_loop1_walk _ _ _).2 x (by omega)
    · have hcnt : u32 (vorbis_out_frames lib v w * s32_bits v.channels)
          = 2 * vorbis_out_frames lib v w := by
        rw [hcs, h]
        exact h2
      rw [hcnt, if_pos h]
      exact (vorbis_loop2_walk _ _ _).2 x (by omega)

/-- Witness of C20: on the 64-byte ring of scenario S1 the stereo request is
28 bytes, and a return of 8 bytes expands to 16 bytes. -/
theorem vorbis_request_fits_witness :
    vorbis_request { channels := 2 } S1_world = 28 ∧
    (8 : Int).toNat / 2 / (2 : Int).toNat * 8
      ≤ min (_buf_space S1_world.outputbuf) (_buf_cont_write S1_world.outputbuf) := by
  obtain ⟨h1, _, h3, _⟩ := vorbis_request_fits { channels := 2 } S1_world (Or.inr rfl)
    (by decide)
  refine ⟨by rw [h1]; decide, ?_⟩
  exact (h3 8 (by decide) (by decide)).1

/-! ### C21: `vorbis_decode` with a full output ring after the disconnect -/

/-- C21: for every library, codec state and state of the globals in which
`stream.state <= DISCONNECT` and OUTPUTBUF has room for no whole frame
(`min(space, contiguous_write) < 8`), `vorbis_decode` returns COMPLETE; the
calls it makes are exactly the two locks and the two unlocks, so neither
`ov_open_callbacks` nor `ov_read` is called; STREAMBUF (whatever it still
holds), OUTPUTBUF, `decode.new_stream` and the output globals are unchanged;
and the result is the same for any other library. -/
theorem vorbis_complete_on_full (lib : vorbis_lib) (v : vorbis) (w : World)
    (hend : w.stream.state ≤ DISCONNECT)
    (hfull : min (_buf_space w.outputbuf) (_buf_cont_write w.outputbuf) < 8) :
    ∃ w', vorbis_decode lib v w = some (DECODE_COMPLETE, v, w') ∧
      w'.trace = w.trace ++ [Event.lock_S, Event.lock_O, Event.unlock_O, Event.unlock_S] ∧
      Event.ov_open_callbacks ∉ [Event.lock_S, Event.lock_O, Event.unlock_O, Event.unlock_S] ∧
      ov_read_calls w'.trace = ov_read_calls w.trace ∧
      w'.streambuf = w.streambuf ∧ w'.outputbuf = w.outputbuf ∧
      w'.decode.new_stream = w.decode.new_stream ∧ w'.output = w.output ∧
      w'.stream = w.stream ∧
      ∀ lib0 : vorbis_lib, vorbis_decode lib0 v w = vorbis_decode lib v w := by
  have hf : vorbis_frames w = 0 := by
    unfold vorbis_frames BYTES_PER_FRAME
    exact Nat.div_eq_of_lt hfull
  refine ⟨UNLOCK_S (UNLOCK_O (LOCK_O (LOCK_S w))), vorbis_decode_early lib v w ⟨hf, hend⟩, ?_,
    (by decide), ?_, rfl, rfl, rfl, rfl, rfl, ?_⟩
  · simp [UNLOCK_S, UNLOCK_O, LOCK_O, LOCK_S, World.emit]
  · simp [UNLOCK_S, UNLOCK_O, LOCK_O, LOCK_S, World.emit, ov_read_calls]
  · intro lib0
    rw [vorbis_decode_early lib0 v w ⟨hf, hend⟩, vorbis_decode_early lib v w ⟨hf, hend⟩]

/-- The property of `vorbis_complete_on_full` in a state with four undecoded
bytes in STREAMBUF, a new stream pending and a library whose open would fail. -/
theorem vorbis_complete_on_full_witness :
    _buf_used S21_world.streambuf = 4 ∧ S21_world.decode.new_stream = true ∧
    ∃ w', vorbis_decode failing_open_lib S4_vorbis S21_world = some (DECODE_COMPLETE, S4_vorbis, w') ∧
      w'.trace = S21_world.trace ++
        [Event.lock_S, Event.lock_O, Event.unlock_O, Event.unlock_S] ∧
      Event.ov_open_callbacks ∉ [Event.lock_S, Event.lock_O, Event.unlock_O, Event.unlock_S] ∧
      ov_read_calls w'.trace = ov_read_calls S21_world.trace ∧
      w'.streambuf = S21_world.streambuf ∧ w'.outputbuf = S21_world.outputbuf ∧
      w'.decode.new_stream = S21_world.decode.new_stream ∧ w'.output = S21_world.output ∧
      w'.stream = S21_world.stream ∧
      ∀ lib0 : vorbis_lib,
        vorbis_decode lib0 S4_vorbis S21_world = vorbis_decode failing_open_lib S4_vorbis S21_world :=
  ⟨by decide, by decide, vorbis_complete_on_full failing_open_lib S4_vorbis S21_world (by decide) (by decide)⟩

/-! ### C22: the loop of `write_cb` without room for a frame -/

theorem flac_span_zero (frames : Nat) (w : World)
    (hfull : min (_buf_space w.outputbuf) (_buf_cont_write w.outputbuf) < 8) :
    flac_span frames w = 0 := by
  unfold flac_span BYTES_PER_FRAME
  rw [Nat.div_eq_of_lt hfull]
  exact Nat.zero_min _

/-- A pass of the loop body that handles no frame leaves the globals as they are. -/
theorem write_cb_body_stuck (bps : Nat) (l r : Nat → Int) (frames i : Nat) (w : World)
    (hw : w.outputbuf.writep < w.outputbuf.size)
    (hfull : min (_buf_space w.outputbuf) (_buf_cont_write w.outputbuf) < 8) :
    write_cb_body bps l r frames i w = w := by
  have hz := flac_span_zero frames w hfull
  unfold write_cb_body
  dsimp only
  rw [hz]
  have hm : (if bps = 16 then flac_loop 16 l r 0 i w.outputbuf.writep w.outputbuf.mem
      else if bps = 24 then flac_loop 8 l r 0 i w.outputbuf.writep w.outputbuf.mem
      else w.outputbuf.mem) = w.outputbuf.mem := by
    split
    · rfl
    · split <;> rfl
  rw [hm]
  unfold _buf_inc_writep
  dsimp only
  rw [Nat.zero_mul, Nat.add_zero, Nat.mod_eq_of_lt hw]

theorem write_cb_loop_stuck (bps : Nat) (l r : Nat → Int) (frames i : Nat) (w : World)
    (hfr : 0 < frames) (hw : w.outputbuf.writep < w.outputbuf.size)
    (hfull : min (_buf_space w.outputbuf) (_buf_cont_write w.outputbuf) < 8) :
    ∀ fuel, write_cb_loop bps l r fuel frames i w = none := by
  intro fuel
  induction fuel with
  | zero =>
    unfold write_cb_loop
    rw [if_neg (by omega)]
  | succ n ih =>
    unfold write_cb_loop
    rw [if_neg (by omega)]
    dsimp only
    rw [write_cb_body_stuck bps l r frames i w hw hfull, flac_span_zero frames w hfull,
      Nat.sub_zero, Nat.add_zero]
    exact ih

theorem write_cb_body_wf (bps : Nat) (l r : Nat → Int) (frames i : Nat) (w : World)
    (hwf : w.outputbuf.wf) : (write_cb_body bps l r frames i w).outputbuf.wf := by
  obtain ⟨hr, hw⟩ := hwf
  refine ⟨hr, ?_⟩
  rw [write_cb_body_writep]
  exact Nat.mod_lt _ (by omega)

/-- When the loop of `write_cb` finishes, every pass it entered with frames
pending found room for a frame. -/
theorem write_cb_loop_some_room (bps : Nat) (l r : Nat → Int) :
    ∀ (k fuel frames i : Nat) (w w' : World), w.outputbuf.wf →
      write_cb_loop bps l r fuel frames i w = some w' →
      0 < (write_cb_iter bps l r k (frames, i, w)).1 →
      8 ≤ min (_buf_space (write_cb_iter bps l r k (frames, i, w)).2.2.outputbuf)
        (_buf_cont_write (write_cb_iter bps l r k (frames, i, w)).2.2.outputbuf) := by
  intro k
  induction k with
  | zero =>
    intro fuel frames i w w' hwf h hfr
    have hfr' : 0 < frames := hfr
    show 8 ≤ min (_buf_space w.outputbuf) (_buf_cont_write w.outputbuf)
    by_contra hlt
    have := write_cb_loop_stuck bps l r frames i w hfr' hwf.2 (by omega) fuel
    rw [this] at h
    cases h
  | succ n ih =>
    intro fuel frames i w w' hwf h hfr
    have e : write_cb_iter bps l r (n + 1) (frames, i, w) =
        write_cb_iter bps l r n (frames - flac_span frames w, i + flac_span frames w,
          write_cb_body bps l r frames i w) := rfl
    rw [e] at hfr ⊢
    cases fuel with
    | zero =>
      unfold write_cb_loop at h
      split at h
      · next h0 =>
        subst h0
        have hz : flac_span 0 w = 0 := by unfold flac_span; exact Nat.min_zero _
        rw [hz] at hfr ⊢
        exact ih 0 _ _ _ _ (write_cb_body_wf bps l r 0 i w hwf)
          (write_cb_loop_zero bps l r 0 _ _) hfr
      · cases h
    | succ m =>
      unfold write_cb_loop at h
      split at h
      · next h0 =>
        subst h0
        have hz : flac_span 0 w = 0 := by unfold flac_span; exact Nat.min_zero _
        rw [hz] at hfr ⊢
        exact ih 0 _ _ _ _ (write_cb_body_wf bps l r 0 i w hwf)
          (write_cb_loop_zero bps l r 0 _ _) hfr
      · exact ih m _ _ _ _ (write_cb_body_wf bps l r frames i w hwf) h hfr

/-- C22: a pass of the `while (frames > 0)` loop of `write_cb` entered with
frames pending and `min(space(OUTPUTBUF), contiguous_write(OUTPUTBUF)) < 8`
handles `f = 0` frames: `frames - f = frames`, the source index `i + f = i`,
and the globals, among them the OUTPUTBUF write pointer, are exactly as
before; so with nothing else changing OUTPUTBUF the loop is still running
after any number of passes, and so is `write_cb` (result `none` for every
bound on the passes).  Conversely, when the loop finishes, every pass it
entered with frames pending (the state after any number `k` of passes) found
room for at least one frame. -/
theorem write_cb_no_progress (bps : Nat) (l r : Nat → Int) (frames i : Nat) (w : World)
    (hwf : w.outputbuf.wf) :
    (0 < frames → min (_buf_space w.outputbuf) (_buf_cont_write w.outputbuf) < 8 →
      flac_span frames w = 0 ∧ frames - flac_span frames w = frames ∧
      i + flac_span frames w = i ∧
      (write_cb_body bps l r frames i w).outputbuf.writep = w.outputbuf.writep ∧
      write_cb_body bps l r frames i w = w ∧
      write_cb_iter bps l r 1 (frames, i, w) = (frames, i, w) ∧
      ∀ fuel, write_cb_loop bps l r fuel frames i w = none) ∧
    (∀ (h : flac_frame_header) (buffer : Nat → Nat → Int), 0 < h.blocksize →
      min (_buf_space w.outputbuf) (_buf_cont_write w.outputbuf) < 8 →
      ∀ fuel, write_cb fuel h buffer w = none) ∧
    (∀ fuel w', write_cb_loop bps l r fuel frames i w = some w' →
      ∀ k, 0 < (write_cb_iter bps l r k (frames, i, w)).1 →
        8 ≤ min (_buf_space (write_cb_iter bps l r k (frames, i, w)).2.2.outputbuf)
          (_buf_cont_write (write_cb_iter bps l r k (frames, i, w)).2.2.outputbuf)) := by
  refine ⟨?_, ?_, ?_⟩
  · intro hfr hfull
    have hz := flac_span_zero frames w hfull
    have hb := write_cb_body_stuck bps l r frames i w hwf.2 hfull
    refine ⟨hz, by rw [hz]; rfl, by rw [hz]; rfl, by rw [hb], hb, ?_,
      write_cb_loop_stuck bps l r frames i w hfr hwf.2 hfull⟩
    show (frames - flac_span frames w, i + flac_span frames w,
      write_cb_body bps l r frames i w) = (frames, i, w)
    rw [hz, hb]; rfl
  · intro h buffer hbs hfull fuel
    have hs : (write_cb_start h w).outputbuf = w.outputbuf := write_cb_start_outputbuf h w
    unfold write_cb
    dsimp only
    rw [write_cb_loop_stuck h.bits_per_sample _ _ h.blocksize 0 (write_cb_start h w) hbs
      (by rw [hs]; exact hwf.2) (by rw [hs]; exact hfull) fuel]
  · intro fuel w' hres k hk
    exact write_cb_loop_some_room bps l r k fuel frames i w w' hwf hres hk

/-- The property of `write_cb_no_progress` for a one-frame block: with the
8-byte output ring (7 bytes of space) the loop and `write_cb` never finish;
with the empty 64-byte ring of S1 the loop finishes in one pass and that pass
had room. -/
theorem write_cb_no_progress_witness :
    S6_full_world.outputbuf.wf ∧
    min (_buf_space S6_full_world.outputbuf) (_buf_cont_write S6_full_world.outputbuf) = 7 ∧
    write_cb_body 16 (S3_buffer 0) (S3_buffer 1) 1 0 S6_full_world = S6_full_world ∧
    (∀ fuel, write_cb_loop 16 (S3_buffer 0) (S3_buffer 1) fuel 1 0 S6_full_world = none) ∧
    (∀ fuel, write_cb fuel S3_header S3_buffer S6_full_world = none) ∧
    (∃ w', write_cb_loop 16 (S3_buffer 0) (S3_buffer 1) 1 1 0 S1_world = some w') ∧
    8 ≤ min (_buf_space S1_world.outputbuf) (_buf_cont_write S1_world.outputbuf) := by
  have h := write_cb_no_progress 16 (S3_buffer 0) (S3_buffer 1) 1 0 S6_full_world (by decide)
  have h1 := h.1 (by decide) (by decide)
  have hs : write_cb_loop 16 (S3_buffer 0) (S3_buffer 1) 1 1 0 S1_world
      = some (write_cb_body 16 (S3_buffer 0) (S3_buffer 1) 1 0 S1_world) := rfl
  exact ⟨by decide, by decide, h1.2.2.2.2.1, h1.2.2.2.2.2.2,
    h.2.1 S3_header S3_buffer (by decide) (by decide), ⟨_, hs⟩,
    (write_cb_no_progress 16 (S3_buffer 0) (S3_buffer 1) 1 0 S1_world (by decide)).2.2 1 _ hs 0
      (by decide)⟩

/-! ### C23: `pcm_decode` with a configuration no branch handles -/

theorem pcm_decode_run_out_rest (p : pcm) (w : World) :
    (pcm_decode_run p w).outputbuf.size = w.outputbuf.size ∧
    (pcm_decode_run p w).outputbuf.readp = w.outputbuf.readp := by
  unfold pcm_decode_run UNLOCK_S UNLOCK_O World.emit _buf_inc_readp _buf_inc_writep
  dsimp only
  split
  · rw [set_track_start_outputbuf]; exact ⟨rfl, rfl⟩
  · exact ⟨rfl, rfl⟩

/-- Advancing the write index by no more than the contiguous free span adds
that many bytes to the readable content. -/
theorem _buf_used_advance (size r wp wp' n : Nat) (hr : r < size) (hw : wp < size)
    (hn : n ≤ min (size - (wp + size - r) % size - 1) (size - wp))
    (hwp : wp' = (wp + n) % size) :
    (wp' + size - r) % size = (wp + size - r) % size + n := by
  have hu : (wp + size - r) % size = if r ≤ wp then wp - r else wp + size - r := by
    split
    · have : wp + size - r = (wp - r) + size := by omega
      rw [this, Nat.add_mod_right]
      exact Nat.mod_eq_of_lt (by omega)
    · exact Nat.mod_eq_of_lt (by omega)
  rw [hu] at hn ⊢
  have ha := ring_advance wp n size hw (by omega)
  rw [ha] at hwp
  subst hwp
  by_cases hle : r ≤ wp
  · rw [if_pos hle] at hn ⊢
    by_cases he : wp + n = size
    · rw [if_pos he]
      exact (Nat.mod_eq_of_lt (by omega)).trans (by omega)
    · rw [if_neg he]
      have : wp + n + size - r = (wp + n - r) + size := by omega
      rw [this, Nat.add_mod_right]
      exact (Nat.mod_eq_of_lt (by omega)).trans (by omega)
  · rw [if_neg hle] at hn ⊢
    by_cases he : wp + n = size
    · omega
    · rw [if_neg he]
      exact (Nat.mod_eq_of_lt (by omega)).trans (by omega)

/-- With a supported configuration, the content of each of the `2 * frames`
words at the write pointer after the unpacking does not depend on what the
output memory held before. -/
theorem pcm_unpack_overwrites (p : pcm) (inm : Nat → Nat) (frames iptr optr : Nat)
    (out out0 : Nat → Nat) (j : Nat) (hch : p.channels = 1 ∨ p.channels = 2)
    (hss : p.sample_size = 1 ∨ p.sample_size = 2 ∨ p.sample_size = 3)
    (hf : frames ≤ 4096) (hj : j < 2 * frames) :
    load32 (pcm_unpack p inm (u32 (frames * p.channels)) iptr optr out) (optr + 4 * j) =
      load32 (pcm_unpack p inm (u32 (frames * p.channels)) iptr optr out0) (optr + 4 * j) := by
  rcases hch with hch | hch
  · have hc : u32 (frames * p.channels) = frames := by
      rw [hch, Nat.mul_one]; unfold u32; exact Nat.mod_eq_of_lt (by omega)
    rw [hc]
    have hk : j / 2 < frames := by omega
    obtain ⟨a1, a2, a3, a4, a5⟩ := pcm_unpack_mono p inm frames iptr optr out (j / 2) hch hk
    obtain ⟨b1, b2, b3, b4, b5⟩ := pcm_unpack_mono p inm frames iptr optr out0 (j / 2) hch hk
    rcases Nat.mod_two_eq_zero_or_one j with hpar | hpar
    · have e : optr + 4 * j = optr + 8 * (j / 2) := by omega
      rw [e]
      rcases hss with hs | hs | hs
      · rw [(a1 hs).1, (b1 hs).1]
      · rcases Bool.eq_false_or_eq_true p.bigendian with hb | hb
        · rw [(a2 hs hb).1, (b2 hs hb).1]
        · rw [(a3 hs hb).1, (b3 hs hb).1]
      · rcases Bool.eq_false_or_eq_true p.bigendian with hb | hb
        · rw [(a4 hs hb).1, (b4 hs hb).1]
        · rw [(a5 hs hb).1, (b5 hs hb).1]
    · have e : optr + 4 * j = optr + 8 * (j / 2) + 4 := by omega
      rw [e]
      rcases hss with hs | hs | hs
      · rw [(a1 hs).2, (b1 hs).2]
      · rcases Bool.eq_false_or_eq_true p.bigendian with hb | hb
        · rw [(a2 hs hb).2, (b2 hs hb).2]
        · rw [(a3 hs hb).2, (b3 hs hb).2]
      · rcases Bool.eq_false_or_eq_true p.bigendian with hb | hb
        · rw [(a4 hs hb).2, (b4 hs hb).2]
        · rw [(a5 hs hb).2, (b5 hs hb).2]
  · have hc : u32 (frames * p.channels) = 2 * frames := by
      rw [hch, Nat.mul_comm]; unfold u32; exact Nat.mod_eq_of_lt (by omega)
    rw [hc]
    obtain ⟨a1, a2, a3, a4, a5⟩ := pcm_unpack_stereo p inm (2 * frames) iptr optr out j hch hj
    obtain ⟨b1, b2, b3, b4, b5⟩ := pcm_unpack_stereo p inm (2 * frames) iptr optr out0 j hch hj
    rcases hss with hs | hs | hs
    · rw [a1 hs, b1 hs]
    · rcases Bool.eq_false_or_eq_true p.bigendian with hb | hb
      · rw [a2 hs hb, b2 hs hb]
      · rw [a3 hs hb, b3 hs hb]
    · rcases Bool.eq_false_or_eq_true p.bigendian with hb | hb
      · rw [a4 hs hb, b4 hs hb]
      · rw [a5 hs hb, b5 hs hb]

/-- The byte count passed to `_buf_inc_readp` does not wrap when neither the
frame size nor the ring size reaches `2 ^ 32`. -/
theorem pcm_read_advance_exact (p : pcm) (w : World) (hsz : w.streambuf.size ≤ 2 ^ 32)
    (hcs : p.channels * p.sample_size < 2 ^ 32) :
    u32 (pcm_frames p w * p.channels * p.sample_size)
      = pcm_frames p w * p.channels * p.sample_size := by
  have hr := pcm_frames_read_le p w
  have hcs' : u32 (p.channels * p.sample_size) = p.channels * p.sample_size := by
    unfold u32; exact Nat.mod_eq_of_lt hcs
  have hlt : pcm_frames p w * u32 (p.channels * p.sample_size) < 2 ^ 32 := by
    have h1 : _buf_cont_read w.streambuf ≤ w.streambuf.size - w.streambuf.readp :=
      _buf_cont_read_le _
    have h2 : min (_buf_used w.streambuf) (_buf_cont_read w.streambuf)
        ≤ _buf_cont_read w.streambuf := Nat.min_le_right _ _
    by_cases h0 : w.streambuf.size = 0
    · have : _buf_cont_read w.streambuf = 0 := by omega
      have h3 : pcm_frames p w * u32 (p.channels * p.sample_size) = 0 := by omega
      rw [h3]; decide
    · by_cases h4 : min (_buf_used w.streambuf) (_buf_cont_read w.streambuf) = 2 ^ 32
      · have hu : _buf_used w.streambuf < w.streambuf.size := by
          unfold _buf_used; exact Nat.mod_lt _ (by omega)
        have : min (_buf_used w.streambuf) (_buf_cont_read w.streambuf)
            ≤ _buf_used w.streambuf := Nat.min_le_left _ _
        omega
      · omega
  rw [u32_mul_eq _ _ _ hlt, hcs', Nat.mul_assoc]

/-- C23: a call of `pcm_decode` with a non-zero frame size that does not
return COMPLETE returns RUNNING and advances the STREAMBUF read pointer by
`frames * channels * sample_size` and the OUTPUTBUF write pointer by
`frames * 8`.  When `channels >= 3`, or `channels` is 1 or 2 but
`sample_size` is not 1, 2 or 3, the call stores nothing: the output memory
is unchanged, every word at the old write pointer still holds its old
content, and the readable content of OUTPUTBUF has grown by `frames * 8`
bytes.  Conversely, for `channels` in {1,2} and `sample_size` in {1,2,3}
each of the `2 * frames` words of the advanced region is written: its value
after the call is the same whatever the output memory held before. -/
theorem pcm_decode_unsupported (p : pcm) (w : World)
    (hd : 0 < u32 (p.channels * p.sample_size))
    (hrun : ¬ (w.stream.state ≤ DISCONNECT ∧ pcm_in p w = 0)) :
    ∃ w', pcm_decode p w = some (DECODE_RUNNING, w') ∧
      w'.streambuf.readp =
        (w.streambuf.readp + u32 (pcm_frames p w * p.channels * p.sample_size))
          % w.streambuf.size ∧
      (w.streambuf.size ≤ 2 ^ 32 → p.channels * p.sample_size < 2 ^ 32 →
        u32 (pcm_frames p w * p.channels * p.sample_size)
          = pcm_frames p w * p.channels * p.sample_size) ∧
      w'.outputbuf.writep = (w.outputbuf.writep + pcm_frames p w * 8) % w.outputbuf.size ∧
      ((3 ≤ p.channels ∨ ((p.channels = 1 ∨ p.channels = 2) ∧
          ¬ (p.sample_size = 1 ∨ p.sample_size = 2 ∨ p.sample_size = 3))) →
        w'.outputbuf.mem = w.outputbuf.mem ∧
        (∀ k, out_word w w' k = load32 w.outputbuf.mem (w.outputbuf.writep + 4 * k)) ∧
        (w.outputbuf.wf →
          _buf_used w'.outputbuf = _buf_used w.outputbuf + pcm_frames p w * 8)) ∧
      (((p.channels = 1 ∨ p.channels = 2) ∧
          (p.sample_size = 1 ∨ p.sample_size = 2 ∨ p.sample_size = 3)) →
        ∀ m0 : Nat → Nat, ∃ w0',
          pcm_decode p { w with outputbuf := { w.outputbuf with mem := m0 } }
            = some (DECODE_RUNNING, w0') ∧
          ∀ k, k < 2 * pcm_frames p w → out_word w w' k = out_word w w0' k) := by
  have hd' : u32 (p.channels * p.sample_size) ≠ 0 := by omega
  refine ⟨_, pcm_decode_running p w hd' hrun, pcm_decode_run_readp_locked p w,
    pcm_read_advance_exact p w, pcm_decode_run_writep_locked p w, ?_, ?_⟩
  · intro hu
    have hu' : ¬ ((p.channels = 1 ∨ p.channels = 2) ∧
        (p.sample_size = 1 ∨ p.sample_size = 2 ∨ p.sample_size = 3)) := by
      rcases hu with h3 | ⟨_, hs⟩
      · intro h; omega
      · intro h; exact hs h.2
    have hm : (pcm_decode_run p (LOCK_O (LOCK_S w))).outputbuf.mem = w.outputbuf.mem := by
      rw [pcm_decode_run_mem_locked, pcm_unpack_unsupported p _ _ _ _ _ hu']
    refine ⟨hm, ?_, ?_⟩
    · intro k
      unfold out_word
      rw [hm]
    · intro hwf
      obtain ⟨hsz, hrp⟩ := pcm_decode_run_out_rest p (LOCK_O (LOCK_S w))
      have hwp := pcm_decode_run_writep_locked p w
      have hsz' : (pcm_decode_run p (LOCK_O (LOCK_S w))).outputbuf.size = w.outputbuf.size := hsz
      have hrp' : (pcm_decode_run p (LOCK_O (LOCK_S w))).outputbuf.readp = w.outputbuf.readp :=
        hrp
      have hle : pcm_frames p w * 8
          ≤ min (_buf_space w.outputbuf) (w.outputbuf.size - w.outputbuf.writep) :=
        Nat.le_min.mpr ⟨Nat.le_trans (pcm_frames_write_le p w) (Nat.min_le_left _ _),
          Nat.le_trans (pcm_frames_write_le p w)
            (Nat.le_trans (Nat.min_le_right _ _) (_buf_cont_write_le _))⟩
      unfold _buf_used
      rw [hsz', hrp']
      exact _buf_used_advance _ _ _ _ _ hwf.1 hwf.2 hle hwp
  · intro hs m0
    have hrun0 : ¬ (({ w with outputbuf := { w.outputbuf with mem := m0 } } : World).stream.state
        ≤ DISCONNECT ∧ pcm_in p { w with outputbuf := { w.outputbuf with mem := m0 } } = 0) :=
      hrun
    refine ⟨_, pcm_decode_running p _ hd' hrun0, ?_⟩
    intro k hk
    unfold out_word
    rw [pcm_decode_run_mem_locked, pcm_decode_run_mem_locked]
    have hfr : pcm_frames p { w with outputbuf := { w.outputbuf with mem := m0 } }
        = pcm_frames p w := rfl
    rw [hfr]
    exact pcm_unpack_overwrites p w.streambuf.mem (pcm_frames p w) w.streambuf.readp
      w.outputbuf.writep w.outputbuf.mem m0 k hs.1 hs.2 (pcm_frames_le p w) hk

/-- The property of `pcm_decode_unsupported` for 4-byte stereo samples, the
configuration left by size code `3`: one frame is consumed and eight stale
bytes of the output ring become readable. -/
theorem pcm_decode_unsupported_witness :
    (pcm_open 51 51 50 49 S23_world).map Prod.fst = some wide_pcm ∧
    pcm_frames wide_pcm S23_world = 1 ∧
    ∃ w', pcm_decode wide_pcm S23_world = some (DECODE_RUNNING, w') ∧
      S23_world.streambuf.readp = 0 ∧ w'.streambuf.readp = 8 ∧
      S23_world.outputbuf.writep = 0 ∧ w'.outputbuf.writep = 8 ∧
      w'.outputbuf.mem = S23_world.outputbuf.mem ∧
      out_word S23_world w' 0 = 0xAAAAAAAA ∧ out_word S23_world w' 1 = 0xAAAAAAAA ∧
      _buf_used S23_world.outputbuf = 0 ∧ _buf_used w'.outputbuf = 8 := by
  obtain ⟨w', h1, h2, _, h4, h5, _⟩ :=
    pcm_decode_unsupported wide_pcm S23_world (by decide) (by decide)
  obtain ⟨h6, h7, h8⟩ := h5 (Or.inr ⟨Or.inr rfl, by decide⟩)
  refine ⟨rfl, by decide, w', h1, rfl, ?_, rfl, ?_, h6, ?_, ?_, by decide, ?_⟩
  · rw [h2]; decide
  · rw [h4]; decide
  · rw [h7]; decide
  · rw [h7]; decide
  · rw [h8 (by decide)]; decide

/-! ### C24: `pcm_open` takes its codes as they come -/

theorem sample_rates_length : sample_rates.length = 15 := rfl

theorem pcm_open_isSome (size rate chan endianness : Nat) (w : World) :
    (pcm_open size rate chan endianness w).isSome = true ↔ (48 ≤ rate ∧ rate ≤ 62) := by
  unfold pcm_open
  dsimp only
  split
  · next h => simp; omega
  · next h =>
    by_cases hr : rate - 48 < sample_rates.length
    · rw [List.get?_eq_get hr]
      rw [sample_rates_length] at hr
      simp; omega
    · rw [List.get?_eq_none.mpr (by omega)]
      rw [sample_rates_length] at hr
      simp; omega

theorem pcm_open_channels (size rate chan endianness : Nat) (w : World) (p : pcm) (w' : World)
    (h : pcm_open size rate chan endianness w = some (p, w')) :
    p.channels = (((chan : Int) - 48) % 2 ^ 32).toNat := by
  unfold pcm_open at h
  dsimp only at h
  split at h
  · cases h
  · split at h
    · cases h
    · injection h with h
      injection h with h _
      rw [← h]

/-- C24: `pcm_open` checks none of its codes.  The table `sample_rates` has
exactly 15 entries, and the index `rate - '0'` lies inside it if and only if
`'0' <= rate <= '0' + 14` (bytes 0x30..0x3E), whatever the other three codes
are; in exactly that case the lookup, and with it `pcm_open`, is defined.
Every other value indexes outside the table: `'?'` gives index 15, one past
the end, and a byte below `'0'` gives a negative index.  A channel code `'0'`
sets `channels = 0`, which makes the divisor `channels * sample_size` of
`pcm_decode` zero, so that the division is undefined in every state. -/
theorem pcm_open_no_validation :
    sample_rates.length = 15 ∧
    (∀ rate : Nat, (0 ≤ (rate : Int) - 48 ∧ (rate : Int) - 48 < sample_rates.length)
      ↔ (48 ≤ rate ∧ rate ≤ 62)) ∧
    (∀ (size rate chan endianness : Nat) (w : World),
      (pcm_open size rate chan endianness w).isSome = true ↔ (48 ≤ rate ∧ rate ≤ 62)) ∧
    ((63 : Int) - 48 = sample_rates.length ∧
      ∀ (size chan endianness : Nat) (w : World), pcm_open size 63 chan endianness w = none) ∧
    (∀ (size rate chan endianness : Nat) (w : World), rate < 48 →
      (rate : Int) - 48 < 0 ∧ pcm_open size rate chan endianness w = none) ∧
    (∀ (size rate endianness : Nat) (w : World) (p : pcm) (w' : World),
      pcm_open size rate 48 endianness w = some (p, w') →
      p.channels = 0 ∧ u32 (p.channels * p.sample_size) = 0 ∧
      ∀ w2 : World, pcm_decode p w2 = none) := by
  refine ⟨rfl, ?_, pcm_open_isSome, ⟨rfl, ?_⟩, ?_, ?_⟩
  · intro rate
    rw [sample_rates_length]
    omega
  · intro size chan endianness w
    have h := pcm_open_isSome size 63 chan endianness w
    cases hh : pcm_open size 63 chan endianness w with
    | none => rfl
    | some x =>
      rw [hh] at h
      have := h.mp rfl
      omega
  · intro size rate chan endianness w hr
    refine ⟨by omega, ?_⟩
    have h := pcm_open_isSome size rate chan endianness w
    cases hh : pcm_open size rate chan endianness w with
    | none => rfl
    | some x =>
      rw [hh] at h
      have := h.mp rfl
      omega
  · intro size rate endianness w p w' h
    have hc : p.channels = 0 := by
      rw [pcm_open_channels size rate 48 endianness w p w' h]
      rfl
    have hz : u32 (p.channels * p.sample_size) = 0 := by
      rw [hc, Nat.zero_mul]; rfl
    refine ⟨hc, hz, ?_⟩
    intro w2
    unfold pcm_decode
    dsimp only
    rw [if_pos hz]

/-- The property of `pcm_open_no_validation` at concrete codes: rate code `'3'`
is accepted together with channel code `'0'`, and the configuration it leaves
makes `pcm_decode` divide by zero; rate codes `'?'` and `'/'` index outside
the table. -/
theorem pcm_open_no_validation_witness :
    (pcm_open 49 51 48 49 S1_world).isSome = true ∧
    (∃ p w', pcm_open 49 51 48 49 S1_world = some (p, w') ∧ p.channels = 0 ∧
      pcm_decode p S1_world = none) ∧
    pcm_open 49 63 50 49 S1_world = none ∧
    pcm_open 49 47 50 49 S1_world = none := by
  obtain ⟨_, _, h3, ⟨_, h4⟩, h5, h6⟩ := pcm_open_no_validation
  have hs := (h3 49 51 48 49 S1_world).mpr (by decide)
  refine ⟨hs, ?_, h4 49 50 49 S1_world, (h5 49 47 50 49 S1_world (by decide)).2⟩
  cases hh : pcm_open 49 51 48 49 S1_world with
  | none => rw [hh] at hs; cases hs
  | some x =>
    obtain ⟨p, w'⟩ := x
    obtain ⟨a, _, c⟩ := h6 49 51 49 S1_world p w' hh
    exact ⟨p, w', rfl, a, c S1_world⟩

end Squeezelite
